import Mathlib

/-!
# missSBM: variational EM kernels of the Bernoulli stochastic block model

Shallow embedding of `src/SBM_bernoulli.cpp` and `src/nlopt_wrapper.cpp`.

Conventions of the embedding.

* Scalars (`double`) are elements of a linearly ordered field `α`; the theorems
  about `exp` and `log` are stated at `α = ℝ`.  `std::exp` and `std::log` are
  arguments `exp log : α → α` of the definitions that call them, so that every
  definition is a computable function; the theorems instantiate them with
  `Real.exp` and `Real.log` (or hold for every choice, where that is stated).
* `arma::mat` of shape `n × m` is `Matrix (Fin n) (Fin m) α`; `arma::sp_mat` is
  a matrix as well, together with `nonzeros`, the list of positions its
  iterator visits (the stored non-zero entries, in column-major order).
* `+=` loops are left folds over the visited positions.
* Three readings of the arithmetic are used, each where the statement at hand
  calls for it.  The definitions named after a source function compute in the
  field `α` with the caller's total `log`: they give the program's values
  wherever every logarithm is taken at a positive argument and no divisor is
  zero.  The definitions with the suffix `_ext` follow the same source lines in
  exact arithmetic extended by the special values the program produces outside
  that domain (`log(0) = -Inf`, `1/0 = +Inf`, `0 * Inf = NaN`,
  `Inf - Inf = NaN`); `E_step_ext_eq_exact` shows that the two readings agree on
  the domain.  The definitions built from `dbl_range` add the overflow threshold
  of doubles and are used where a value is reported as a double.
-/

namespace MissSBM

open Finset

section Arma

variable {α : Type} [LinearOrderedField α] {N Q K : ℕ}

/-- Value of a floating-point division: a finite quotient, or one of the special
values produced by a zero divisor (`x / 0 = ±Inf` for `x ≠ 0`, `0 / 0 = NaN`). -/
inductive Quo (α : Type) where
  | finite (v : α)
  | posInf
  | negInf
  | nan
  deriving DecidableEq

/-- Division of two doubles as performed entry by entry by Armadillo's
element-wise `A / B`. -/
def arma_div (a b : α) : Quo α :=
  if b = 0 then
    (if a = 0 then Quo.nan else if 0 < a then Quo.posInf else Quo.negInf)
  else Quo.finite (a / b)

/-- Armadillo `accu(A)`: the sum of all entries of a matrix. -/
def accu {n m : ℕ} (A : Matrix (Fin n) (Fin m) α) : α := ∑ i, ∑ j, A i j

/-- Armadillo `A % B`: element-wise (Schur) product. -/
def schur {n m : ℕ} (A B : Matrix (Fin n) (Fin m) α) : Matrix (Fin n) (Fin m) α :=
  fun i j => A i j * B i j

/-- Armadillo `mean(Z, 0)`: the mean of each column (used for `N ≥ 1` rows). -/
def arma_mean_cols (Z : Matrix (Fin N) (Fin Q) α) : Fin Q → α :=
  fun q => (∑ i, Z i q) / (N : α)

/-- Positions visited by `sp_mat::const_iterator` from `begin()` to `end()`:
the non-zero entries, column after column, rows increasing inside a column. -/
def nonzeros (A : Matrix (Fin N) (Fin N) α) : List (Fin N × Fin N) :=
  (List.finRange N).flatMap fun j =>
    ((List.finRange N).filter fun i => decide (A i j ≠ 0)).map fun i => (i, j)

/-- The loop nest `for q < Q: for l < Q: acc += term(q,l)`. -/
def loop_ql (term : Fin Q → Fin Q → α) (acc : α) : α :=
  (List.finRange Q).foldl
    (fun a q => (List.finRange Q).foldl (fun b l => b + term q l) a) acc

end Arma

/-! ## Range of double precision -/

section DoubleRange

variable {α : Type} [LinearOrderedField α]

/-- Overflow threshold of IEEE-754 binary64 under round-to-nearest: an exact
result of magnitude at least `2^1024 - 2^970` (half an ulp above the largest
finite double) is returned as an infinity, a smaller one as a finite double. -/
def DBL_OVERFLOW (α : Type) [LinearOrderedField α] : α := 2 ^ 1024 - 2 ^ 970

/-- The double returned for the exact result `x`, as far as its range goes:
an infinity at or beyond the overflow threshold, otherwise a finite value (the
rounding error inside the finite range is not modelled). -/
def dbl_range (x : α) : Quo α :=
  if DBL_OVERFLOW α ≤ x then Quo.posInf
  else if x ≤ -DBL_OVERFLOW α then Quo.negInf
  else Quo.finite x

/-- `std::exp` on doubles: `exp(+Inf) = +Inf`, `exp(-Inf) = 0`, `exp(NaN) = NaN`. -/
def dbl_exp (exp : α → α) : Quo α → Quo α
  | Quo.finite x => dbl_range (exp x)
  | Quo.posInf => Quo.posInf
  | Quo.negInf => Quo.finite 0
  | Quo.nan => Quo.nan

/-- Addition of doubles: `Inf + x = Inf`, `Inf - Inf = NaN`, NaN propagates. -/
def dbl_add : Quo α → Quo α → Quo α
  | Quo.finite a, Quo.finite b => dbl_range (a + b)
  | Quo.nan, _ => Quo.nan
  | _, Quo.nan => Quo.nan
  | Quo.posInf, Quo.negInf => Quo.nan
  | Quo.negInf, Quo.posInf => Quo.nan
  | Quo.posInf, _ => Quo.posInf
  | _, Quo.posInf => Quo.posInf
  | Quo.negInf, _ => Quo.negInf
  | _, Quo.negInf => Quo.negInf

/-- `std::log` on doubles: `log(+Inf) = +Inf`, `log(0) = -Inf`, NaN for a
negative or NaN argument. -/
def dbl_log (log : α → α) : Quo α → Quo α
  | Quo.finite x => if x < 0 then Quo.nan else if x = 0 then Quo.negInf else Quo.finite (log x)
  | Quo.posInf => Quo.posInf
  | Quo.negInf => Quo.nan
  | Quo.nan => Quo.nan

/-- Division of doubles: a finite quotient is subject to the range, a zero
divisor gives the special values of `arma_div`, `x / ±Inf = 0` for finite `x`,
`±Inf / ±Inf = NaN`, and NaN propagates. Zero carries no sign in this model: a
division of an infinity by zero keeps the sign of the dividend. -/
def dbl_div : Quo α → Quo α → Quo α
  | Quo.finite a, Quo.finite b => if b = 0 then arma_div a b else dbl_range (a / b)
  | Quo.nan, _ => Quo.nan
  | _, Quo.nan => Quo.nan
  | Quo.finite _, Quo.posInf => Quo.finite 0
  | Quo.finite _, Quo.negInf => Quo.finite 0
  | Quo.posInf, Quo.finite b => if b < 0 then Quo.negInf else Quo.posInf
  | Quo.negInf, Quo.finite b => if b < 0 then Quo.posInf else Quo.negInf
  | Quo.posInf, Quo.posInf => Quo.nan
  | Quo.posInf, Quo.negInf => Quo.nan
  | Quo.negInf, Quo.posInf => Quo.nan
  | Quo.negInf, Quo.negInf => Quo.nan

/-- The term `log(1 + exp(z))` as the covariate ELBO (SBM_bernoulli.cpp:77, 128),
the covariate E-step (368, 401-402) and the M-step objective (210, 281) write
it, evaluated on doubles: `exp`, then `1 + .`, then `log`. -/
def log_one_plus_exp_double (exp log : α → α) (z : α) : Quo α :=
  dbl_log log (dbl_add (Quo.finite 1) (dbl_exp exp (Quo.finite z)))

end DoubleRange

/-! ## Closed-form M-step (no covariates) -/

section MStepNoCov

variable {α : Type} [LinearOrderedField α] {N Q : ℕ}

/-- The `Rcpp::List` returned by the no-covariate M-steps:
`theta = list(mean = ...)` and `pi`. -/
structure MStepNoCovResult (Q : ℕ) (α : Type) where
  theta_mean : Fin Q → Fin Q → Quo α
  pi : Fin Q → α

/-- `M_step_sparse_bernoulli_undirected_nocovariate` (SBM_bernoulli.cpp:141-150). -/
def M_step_sparse_bernoulli_undirected_nocovariate
    (Y R : Matrix (Fin N) (Fin N) α) (Z : Matrix (Fin N) (Fin Q) α) :
    MStepNoCovResult Q α where
  theta_mean := fun q l =>
    arma_div ((Z.transpose * Y * Z) q l) ((Z.transpose * R * Z) q l)
  pi := arma_mean_cols Z

/-- `M_step_sparse_bernoulli_directed_nocovariate` (SBM_bernoulli.cpp:153-162). -/
def M_step_sparse_bernoulli_directed_nocovariate
    (Y R : Matrix (Fin N) (Fin N) α) (Z : Matrix (Fin N) (Fin Q) α) :
    MStepNoCovResult Q α where
  theta_mean := fun q l =>
    arma_div ((Z.transpose * Y * Z) q l) ((Z.transpose * R * Z) q l)
  pi := arma_mean_cols Z

end MStepNoCov

/-! ## Lower bound of the expected complete log-likelihood (ELBO) -/

section ELBO

variable {α : Type} [LinearOrderedField α] {N Q : ℕ}

/-- Armadillo `log(theta/(1-theta))`, entry by entry. -/
def log_odds (log : α → α) (theta : Matrix (Fin Q) (Fin Q) α) : Matrix (Fin Q) (Fin Q) α :=
  fun q l => log (theta q l / (1 - theta q l))

/-- Armadillo `log(1-theta)`, entry by entry. -/
def log_one_minus (log : α → α) (theta : Matrix (Fin Q) (Fin Q) α) :
    Matrix (Fin Q) (Fin Q) α :=
  fun q l => log (1 - theta q l)

/-- The prior term `accu(Z * log(pi))`: matrix-vector product, then the sum of
its entries. -/
def accu_Z_log_pi (log : α → α) (Z : Matrix (Fin N) (Fin Q) α) (pi : Fin Q → α) : α :=
  ∑ i, (Z.mulVec fun q => log (pi q)) i

/-- `vLL_complete_sparse_bernoulli_undirected_nocovariate` (SBM_bernoulli.cpp:18-29). -/
def vLL_complete_sparse_bernoulli_undirected_nocovariate (log : α → α)
    (Y R : Matrix (Fin N) (Fin N) α) (Z : Matrix (Fin N) (Fin Q) α)
    (theta : Matrix (Fin Q) (Fin Q) α) (pi : Fin Q → α) : α :=
  (1 / 2) * accu (schur (Z.transpose * Y * Z) (log_odds log theta))
    + (1 / 2) * accu (schur (Z.transpose * R * Z) (log_one_minus log theta))
    + accu_Z_log_pi log Z pi

/-- `vLL_complete_sparse_bernoulli_directed_nocovariate` (SBM_bernoulli.cpp:32-43). -/
def vLL_complete_sparse_bernoulli_directed_nocovariate (log : α → α)
    (Y R : Matrix (Fin N) (Fin N) α) (Z : Matrix (Fin N) (Fin Q) α)
    (theta : Matrix (Fin Q) (Fin Q) α) (pi : Fin Q → α) : α :=
  accu (schur (Z.transpose * Y * Z) (log_odds log theta))
    + accu (schur (Z.transpose * R * Z) (log_one_minus log theta))
    + accu_Z_log_pi log Z pi

/-- `vLL_complete_sparse_bernoulli_undirected_covariates` (SBM_bernoulli.cpp:46-96):
the prior term, then the loop over the non-zeros of `Y` below the diagonal,
then the loop over the non-zeros of `R` below the diagonal. -/
def vLL_complete_sparse_bernoulli_undirected_covariates (exp log : α → α)
    (Y R : Matrix (Fin N) (Fin N) α) (M : Matrix (Fin N) (Fin N) α)
    (Z : Matrix (Fin N) (Fin Q) α) (Gamma : Matrix (Fin Q) (Fin Q) α) (pi : Fin Q → α) : α :=
  let loglik0 := accu_Z_log_pi log Z pi
  let loglik1 := (nonzeros Y).foldl (fun loglik Yij =>
    if Yij.1 > Yij.2 then
      loop_ql (fun q l => Z Yij.1 q * Z Yij.2 l * (Gamma q l + M Yij.1 Yij.2)) loglik
    else loglik) loglik0
  (nonzeros R).foldl (fun loglik Rij =>
    if Rij.1 > Rij.2 then
      loop_ql (fun q l =>
        -Z Rij.1 q * Z Rij.2 l * log (1 + exp (Gamma q l + M Rij.1 Rij.2))) loglik
    else loglik) loglik1

/-- `vLL_complete_sparse_bernoulli_directed_covariates` (SBM_bernoulli.cpp:99-134):
the same two loops without the `row > col` test. -/
def vLL_complete_sparse_bernoulli_directed_covariates (exp log : α → α)
    (Y R : Matrix (Fin N) (Fin N) α) (M : Matrix (Fin N) (Fin N) α)
    (Z : Matrix (Fin N) (Fin Q) α) (Gamma : Matrix (Fin Q) (Fin Q) α) (pi : Fin Q → α) : α :=
  let loglik0 := accu_Z_log_pi log Z pi
  let loglik1 := (nonzeros Y).foldl (fun loglik Yij =>
    loop_ql (fun q l => Z Yij.1 q * Z Yij.2 l * (Gamma q l + M Yij.1 Yij.2)) loglik)
    loglik0
  (nonzeros R).foldl (fun loglik Rij =>
    loop_ql (fun q l =>
      -Z Rij.1 q * Z Rij.2 l * log (1 + exp (Gamma q l + M Rij.1 Rij.2))) loglik)
    loglik1

end ELBO

/-! ## Expectation step -/

section EStep

variable {α : Type} [LinearOrderedField α] {N Q : ℕ}

/-- Armadillo `max(x)` of a row vector: the largest entry; an object without
elements has no maximum (Armadillo raises "max(): object has no elements"). -/
def arma_max (x : Fin Q → α) : Option α :=
  match List.ofFn x with
  | [] => none
  | a :: as => some (as.foldl max a)

/-- The row update `x = exp(x - max(x)) / sum(exp(x - max(x)))` applied by
`each_row`; `none` when `max` fails. -/
def softmax_row (exp : α → α) (x : Fin Q → α) : Option (Fin Q → α) :=
  (arma_max x).map fun m => fun q => exp (x q - m) / ∑ l, exp (x l - m)

/-- The statement `log_tau(i,q) -= v`. -/
def sub_at (log_tau : Matrix (Fin N) (Fin Q) α) (i : Fin N) (q : Fin Q) (v : α) :
    Matrix (Fin N) (Fin Q) α :=
  fun a b => if a = i ∧ b = q then log_tau a b - v else log_tau a b

/-- The loop nest `for q < Q: for l < Q: log_tau(i,q) -= term(q,l)`. -/
def loop_ql_sub (i : Fin N) (term : Fin Q → Fin Q → α) (log_tau : Matrix (Fin N) (Fin Q) α) :
    Matrix (Fin N) (Fin Q) α :=
  (List.finRange Q).foldl
    (fun T q => (List.finRange Q).foldl (fun T' l => sub_at T' i q (term q l)) T) log_tau

/-- `E_step_sparse_bernoulli_undirected_nocovariate` (SBM_bernoulli.cpp:312-327)
in the exact reading: row `i` of the result, for inputs on which every logarithm
is taken at a positive argument (`theta` strictly inside (0,1), `pi` positive);
`E_step_sparse_bernoulli_undirected_nocovariate_ext` covers the other inputs.
The call fails when a row has no maximum. -/
def E_step_sparse_bernoulli_undirected_nocovariate (exp log : α → α)
    (Y R : Matrix (Fin N) (Fin N) α) (Z : Matrix (Fin N) (Fin Q) α)
    (theta : Matrix (Fin Q) (Fin Q) α) (pi : Fin Q → α) (log_lambda : α) :
    Fin N → Option (Fin Q → α) :=
  let log_tau0 : Matrix (Fin N) (Fin Q) α := fun i q =>
    (Y * Z * log_odds log theta) i q + (R * Z * log_one_minus log theta) i q + log_lambda
  let log_tau : Matrix (Fin N) (Fin Q) α := fun i q => log_tau0 i q + log (pi q)
  fun i => softmax_row exp (log_tau i)

/-- `E_step_sparse_bernoulli_directed_nocovariate` (SBM_bernoulli.cpp:330-347) in
the exact reading (`theta` strictly inside (0,1), `pi` positive);
`E_step_sparse_bernoulli_directed_nocovariate_ext` covers the other inputs. -/
def E_step_sparse_bernoulli_directed_nocovariate (exp log : α → α)
    (Y R : Matrix (Fin N) (Fin N) α) (Z : Matrix (Fin N) (Fin Q) α)
    (theta : Matrix (Fin Q) (Fin Q) α) (pi : Fin Q → α) (log_lambda : α) :
    Fin N → Option (Fin Q → α) :=
  let log_tau0 : Matrix (Fin N) (Fin Q) α := fun i q =>
    (Y * Z * (log_odds log theta).transpose) i q
      + (R * Z * (log_one_minus log theta).transpose) i q
      + (Y.transpose * Z * log_odds log theta) i q
      + (R.transpose * Z * log_one_minus log theta) i q + log_lambda
  let log_tau : Matrix (Fin N) (Fin Q) α := fun i q => log_tau0 i q + log (pi q)
  fun i => softmax_row exp (log_tau i)

/-- `E_step_sparse_bernoulli_undirected_covariates` (SBM_bernoulli.cpp:350-379) in
the exact reading (`pi` positive);
`E_step_sparse_bernoulli_undirected_covariates_ext` covers the other inputs. -/
def E_step_sparse_bernoulli_undirected_covariates (exp log : α → α)
    (Y R : Matrix (Fin N) (Fin N) α) (M : Matrix (Fin N) (Fin N) α)
    (Z : Matrix (Fin N) (Fin Q) α) (Gamma : Matrix (Fin Q) (Fin Q) α) (pi : Fin Q → α)
    (log_lambda : α) : Fin N → Option (Fin Q → α) :=
  let log_tau0 : Matrix (Fin N) (Fin Q) α := fun i q => (Y * Z * Gamma) i q + log_lambda
  let log_tau1 := (nonzeros R).foldl (fun T Rij =>
    loop_ql_sub Rij.1 (fun q l =>
      Z Rij.2 l * log (1 + exp (Gamma q l + M Rij.1 Rij.2))) T) log_tau0
  let log_tau : Matrix (Fin N) (Fin Q) α := fun i q => log_tau1 i q + log (pi q)
  fun i => softmax_row exp (log_tau i)

/-- `E_step_sparse_bernoulli_directed_covariates` (SBM_bernoulli.cpp:382-413) in
the exact reading (`pi` positive);
`E_step_sparse_bernoulli_directed_covariates_ext` covers the other inputs. -/
def E_step_sparse_bernoulli_directed_covariates (exp log : α → α)
    (Y R : Matrix (Fin N) (Fin N) α) (M : Matrix (Fin N) (Fin N) α)
    (Z : Matrix (Fin N) (Fin Q) α) (Gamma : Matrix (Fin Q) (Fin Q) α) (pi : Fin Q → α)
    (log_lambda : α) : Fin N → Option (Fin Q → α) :=
  let log_tau0 : Matrix (Fin N) (Fin Q) α := fun i q =>
    (Y * Z * Gamma.transpose) i q + (Y.transpose * Z * Gamma) i q + log_lambda
  let log_tau1 := (nonzeros R).foldl (fun T Rij =>
    loop_ql_sub Rij.1 (fun q l =>
      Z Rij.2 l * (log (1 + exp (Gamma q l + M Rij.1 Rij.2))
        + log (1 + exp (Gamma l q + M Rij.2 Rij.1)))) T) log_tau0
  let log_tau : Matrix (Fin N) (Fin Q) α := fun i q => log_tau1 i q + log (pi q)
  fun i => softmax_row exp (log_tau i)

end EStep

/-! ## Exact arithmetic with the special values of `log` and of division -/

section Extended

variable {α : Type} [LinearOrderedField α]

/-- Sum in exact arithmetic extended by the special values: `Inf + x = Inf`,
`Inf - Inf = NaN`, NaN propagates; a sum of finite values is their exact sum. -/
def ext_add : Quo α → Quo α → Quo α
  | Quo.finite a, Quo.finite b => Quo.finite (a + b)
  | Quo.nan, _ => Quo.nan
  | _, Quo.nan => Quo.nan
  | Quo.posInf, Quo.negInf => Quo.nan
  | Quo.negInf, Quo.posInf => Quo.nan
  | Quo.posInf, _ => Quo.posInf
  | _, Quo.posInf => Quo.posInf
  | Quo.negInf, _ => Quo.negInf
  | _, Quo.negInf => Quo.negInf

/-- Difference in the same arithmetic: `Inf - Inf = NaN`, `x - Inf = -Inf`. -/
def ext_sub : Quo α → Quo α → Quo α
  | Quo.finite a, Quo.finite b => Quo.finite (a - b)
  | Quo.nan, _ => Quo.nan
  | _, Quo.nan => Quo.nan
  | Quo.posInf, Quo.posInf => Quo.nan
  | Quo.negInf, Quo.negInf => Quo.nan
  | Quo.posInf, _ => Quo.posInf
  | _, Quo.negInf => Quo.posInf
  | Quo.negInf, _ => Quo.negInf
  | _, Quo.posInf => Quo.negInf

/-- Product in the same arithmetic: `0 * Inf = NaN`, otherwise an infinity with
the product of the signs. -/
def ext_mul : Quo α → Quo α → Quo α
  | Quo.finite a, Quo.finite b => Quo.finite (a * b)
  | Quo.nan, _ => Quo.nan
  | _, Quo.nan => Quo.nan
  | Quo.finite a, Quo.posInf =>
    if a = 0 then Quo.nan else if 0 < a then Quo.posInf else Quo.negInf
  | Quo.finite a, Quo.negInf =>
    if a = 0 then Quo.nan else if 0 < a then Quo.negInf else Quo.posInf
  | Quo.posInf, Quo.finite b =>
    if b = 0 then Quo.nan else if 0 < b then Quo.posInf else Quo.negInf
  | Quo.negInf, Quo.finite b =>
    if b = 0 then Quo.nan else if 0 < b then Quo.negInf else Quo.posInf
  | Quo.posInf, Quo.posInf => Quo.posInf
  | Quo.posInf, Quo.negInf => Quo.negInf
  | Quo.negInf, Quo.posInf => Quo.negInf
  | Quo.negInf, Quo.negInf => Quo.posInf

/-- Quotient in the same arithmetic: a zero divisor as in `arma_div`,
`x / ±Inf = 0` for finite `x`, `±Inf / ±Inf = NaN`. Zero carries no sign: an
infinity divided by zero keeps its sign. -/
def ext_div : Quo α → Quo α → Quo α
  | Quo.finite a, Quo.finite b => arma_div a b
  | Quo.nan, _ => Quo.nan
  | _, Quo.nan => Quo.nan
  | Quo.finite _, Quo.posInf => Quo.finite 0
  | Quo.finite _, Quo.negInf => Quo.finite 0
  | Quo.posInf, Quo.finite b => if b < 0 then Quo.negInf else Quo.posInf
  | Quo.negInf, Quo.finite b => if b < 0 then Quo.posInf else Quo.negInf
  | Quo.posInf, Quo.posInf => Quo.nan
  | Quo.posInf, Quo.negInf => Quo.nan
  | Quo.negInf, Quo.posInf => Quo.nan
  | Quo.negInf, Quo.negInf => Quo.nan

/-- `std::exp` in the same arithmetic: `exp(+Inf) = +Inf`, `exp(-Inf) = 0`,
`exp(NaN) = NaN`; the exponential of a finite value is exact. -/
def ext_exp (exp : α → α) : Quo α → Quo α
  | Quo.finite x => Quo.finite (exp x)
  | Quo.posInf => Quo.posInf
  | Quo.negInf => Quo.finite 0
  | Quo.nan => Quo.nan

/-- The comparison `a > b` of doubles: false as soon as one side is NaN. -/
def ext_gt : Quo α → Quo α → Bool
  | Quo.finite a, Quo.finite b => decide (b < a)
  | Quo.nan, _ => false
  | _, Quo.nan => false
  | Quo.posInf, Quo.posInf => false
  | Quo.posInf, _ => true
  | _, Quo.posInf => false
  | Quo.negInf, _ => false
  | Quo.finite _, Quo.negInf => true

end Extended

/-! ## Expectation step with the special values -/

section EStepExt

variable {α : Type} [LinearOrderedField α] {N Q : ℕ}

/-- Armadillo `log(theta/(1-theta))`, entry by entry, with `1/0 = +Inf`,
`log(0) = -Inf`, `log(+Inf) = +Inf` and `log(x) = NaN` for `x < 0`. -/
def log_odds_ext (log : α → α) (theta : Matrix (Fin Q) (Fin Q) α) : Fin Q → Fin Q → Quo α :=
  fun q l => dbl_log log (arma_div (theta q l) (1 - theta q l))

/-- Armadillo `log(1-theta)`, entry by entry, with `log(0) = -Inf` and
`log(x) = NaN` for `x < 0`. -/
def log_one_minus_ext (log : α → α) (theta : Matrix (Fin Q) (Fin Q) α) :
    Fin Q → Fin Q → Quo α :=
  fun q l => dbl_log log (Quo.finite (1 - theta q l))

/-- The product `A * L` of a finite matrix `A` (here `Y * Z`, `R * Z`, ...) with
a matrix `L` that may hold special values: entry `(i,q)` accumulates
`A(i,l) * L(l,q)` over `l`. -/
def ext_times (A : Matrix (Fin N) (Fin Q) α) (L : Fin Q → Fin Q → Quo α) :
    Fin N → Fin Q → Quo α :=
  fun i q => (List.finRange Q).foldl
    (fun acc l => ext_add acc (ext_mul (Quo.finite (A i l)) (L l q))) (Quo.finite 0)

/-- Armadillo `max(x)` of a row vector of doubles: the loop
`if (x[q] > max_val) max_val = x[q]` started from `-Inf`, so that a NaN entry is
never selected; an object without elements has no maximum. -/
def arma_max_ext (x : Fin Q → Quo α) : Option (Quo α) :=
  match List.ofFn x with
  | [] => none
  | a :: as => some ((a :: as).foldl (fun m v => if ext_gt v m then v else m) Quo.negInf)

/-- Armadillo `sum(x)` of a row vector that may hold special values. -/
def ext_sum (x : Fin Q → Quo α) : Quo α :=
  (List.finRange Q).foldl (fun acc l => ext_add acc (x l)) (Quo.finite 0)

/-- The row update `x = exp(x - max(x)) / sum(exp(x - max(x)))` applied by
`each_row`, on a row that may hold special values; `none` when `max` fails. -/
def softmax_row_ext (exp : α → α) (x : Fin Q → Quo α) : Option (Fin Q → Quo α) :=
  (arma_max_ext x).map fun m => fun q =>
    ext_div (ext_exp exp (ext_sub (x q) m)) (ext_sum fun l => ext_exp exp (ext_sub (x l) m))

/-- The term `log(1 + exp(z))` of the covariate E-steps (SBM_bernoulli.cpp:368,
401-402) in exact arithmetic with the special values of `log`. -/
def log_one_plus_exp_ext (exp log : α → α) (z : α) : Quo α :=
  dbl_log log (ext_add (Quo.finite 1) (ext_exp exp (Quo.finite z)))

/-- The statement `log_tau(i,q) -= v` on a matrix that may hold special values. -/
def sub_at_ext (log_tau : Fin N → Fin Q → Quo α) (i : Fin N) (q : Fin Q) (v : Quo α) :
    Fin N → Fin Q → Quo α :=
  fun a b => if a = i ∧ b = q then ext_sub (log_tau a b) v else log_tau a b

/-- The loop nest `for q < Q: for l < Q: log_tau(i,q) -= term(q,l)` on a matrix
that may hold special values. -/
def loop_ql_sub_ext (i : Fin N) (term : Fin Q → Fin Q → Quo α)
    (log_tau : Fin N → Fin Q → Quo α) : Fin N → Fin Q → Quo α :=
  (List.finRange Q).foldl
    (fun T q => (List.finRange Q).foldl (fun T' l => sub_at_ext T' i q (term q l)) T) log_tau

/-- The matrix `log_tau` of `E_step_sparse_bernoulli_undirected_nocovariate` right
before the row normalisation (SBM_bernoulli.cpp:320-321), with the special values
of `log` and of the division. -/
def log_tau_undirected_nocovariate_ext (log : α → α)
    (Y R : Matrix (Fin N) (Fin N) α) (Z : Matrix (Fin N) (Fin Q) α)
    (theta : Matrix (Fin Q) (Fin Q) α) (pi : Fin Q → α) (log_lambda : α) :
    Fin N → Fin Q → Quo α :=
  fun i q =>
    ext_add
      (ext_add
        (ext_add (ext_times (Y * Z) (log_odds_ext log theta) i q)
          (ext_times (R * Z) (log_one_minus_ext log theta) i q))
        (Quo.finite log_lambda))
      (dbl_log log (Quo.finite (pi q)))

/-- The matrix `log_tau` of `E_step_sparse_bernoulli_directed_nocovariate` right
before the row normalisation (SBM_bernoulli.cpp:339-341), with the special values
of `log` and of the division. -/
def log_tau_directed_nocovariate_ext (log : α → α)
    (Y R : Matrix (Fin N) (Fin N) α) (Z : Matrix (Fin N) (Fin Q) α)
    (theta : Matrix (Fin Q) (Fin Q) α) (pi : Fin Q → α) (log_lambda : α) :
    Fin N → Fin Q → Quo α :=
  fun i q =>
    ext_add
      (ext_add
        (ext_add
          (ext_add
            (ext_add (ext_times (Y * Z) (fun l q => log_odds_ext log theta q l) i q)
              (ext_times (R * Z) (fun l q => log_one_minus_ext log theta q l) i q))
            (ext_times (Y.transpose * Z) (log_odds_ext log theta) i q))
          (ext_times (R.transpose * Z) (log_one_minus_ext log theta) i q))
        (Quo.finite log_lambda))
      (dbl_log log (Quo.finite (pi q)))

/-- The matrix `log_tau` of `E_step_sparse_bernoulli_undirected_covariates` right
before the row normalisation (SBM_bernoulli.cpp:363-373), with the special values
of `log`. -/
def log_tau_undirected_covariates_ext (exp log : α → α)
    (Y R : Matrix (Fin N) (Fin N) α) (M : Matrix (Fin N) (Fin N) α)
    (Z : Matrix (Fin N) (Fin Q) α) (Gamma : Matrix (Fin Q) (Fin Q) α) (pi : Fin Q → α)
    (log_lambda : α) : Fin N → Fin Q → Quo α :=
  let log_tau0 : Fin N → Fin Q → Quo α := fun i q =>
    Quo.finite ((Y * Z * Gamma) i q + log_lambda)
  let log_tau1 := (nonzeros R).foldl (fun T Rij =>
    loop_ql_sub_ext Rij.1 (fun q l =>
      ext_mul (Quo.finite (Z Rij.2 l))
        (log_one_plus_exp_ext exp log (Gamma q l + M Rij.1 Rij.2))) T) log_tau0
  fun i q => ext_add (log_tau1 i q) (dbl_log log (Quo.finite (pi q)))

/-- The matrix `log_tau` of `E_step_sparse_bernoulli_directed_covariates` right
before the row normalisation (SBM_bernoulli.cpp:395-407), with the special values
of `log`. -/
def log_tau_directed_covariates_ext (exp log : α → α)
    (Y R : Matrix (Fin N) (Fin N) α) (M : Matrix (Fin N) (Fin N) α)
    (Z : Matrix (Fin N) (Fin Q) α) (Gamma : Matrix (Fin Q) (Fin Q) α) (pi : Fin Q → α)
    (log_lambda : α) : Fin N → Fin Q → Quo α :=
  let log_tau0 : Fin N → Fin Q → Quo α := fun i q =>
    Quo.finite ((Y * Z * Gamma.transpose) i q + (Y.transpose * Z * Gamma) i q + log_lambda)
  let log_tau1 := (nonzeros R).foldl (fun T Rij =>
    loop_ql_sub_ext Rij.1 (fun q l =>
      ext_mul (Quo.finite (Z Rij.2 l))
        (ext_add (log_one_plus_exp_ext exp log (Gamma q l + M Rij.1 Rij.2))
          (log_one_plus_exp_ext exp log (Gamma l q + M Rij.2 Rij.1)))) T) log_tau0
  fun i q => ext_add (log_tau1 i q) (dbl_log log (Quo.finite (pi q)))

/-- `E_step_sparse_bernoulli_undirected_nocovariate` (SBM_bernoulli.cpp:312-327)
with the special values of `log` and of the division: row `i` of the result. -/
def E_step_sparse_bernoulli_undirected_nocovariate_ext (exp log : α → α)
    (Y R : Matrix (Fin N) (Fin N) α) (Z : Matrix (Fin N) (Fin Q) α)
    (theta : Matrix (Fin Q) (Fin Q) α) (pi : Fin Q → α) (log_lambda : α) :
    Fin N → Option (Fin Q → Quo α) :=
  fun i => softmax_row_ext exp (log_tau_undirected_nocovariate_ext log Y R Z theta pi log_lambda i)

/-- `E_step_sparse_bernoulli_directed_nocovariate` (SBM_bernoulli.cpp:330-347)
with the special values of `log` and of the division. -/
def E_step_sparse_bernoulli_directed_nocovariate_ext (exp log : α → α)
    (Y R : Matrix (Fin N) (Fin N) α) (Z : Matrix (Fin N) (Fin Q) α)
    (theta : Matrix (Fin Q) (Fin Q) α) (pi : Fin Q → α) (log_lambda : α) :
    Fin N → Option (Fin Q → Quo α) :=
  fun i => softmax_row_ext exp (log_tau_directed_nocovariate_ext log Y R Z theta pi log_lambda i)

/-- `E_step_sparse_bernoulli_undirected_covariates` (SBM_bernoulli.cpp:350-379)
with the special values of `log`. -/
def E_step_sparse_bernoulli_undirected_covariates_ext (exp log : α → α)
    (Y R : Matrix (Fin N) (Fin N) α) (M : Matrix (Fin N) (Fin N) α)
    (Z : Matrix (Fin N) (Fin Q) α) (Gamma : Matrix (Fin Q) (Fin Q) α) (pi : Fin Q → α)
    (log_lambda : α) : Fin N → Option (Fin Q → Quo α) :=
  fun i => softmax_row_ext exp
    (log_tau_undirected_covariates_ext exp log Y R M Z Gamma pi log_lambda i)

/-- `E_step_sparse_bernoulli_directed_covariates` (SBM_bernoulli.cpp:382-413)
with the special values of `log`. -/
def E_step_sparse_bernoulli_directed_covariates_ext (exp log : α → α)
    (Y R : Matrix (Fin N) (Fin N) α) (M : Matrix (Fin N) (Fin N) α)
    (Z : Matrix (Fin N) (Fin Q) α) (Gamma : Matrix (Fin Q) (Fin Q) α) (pi : Fin Q → α)
    (log_lambda : α) : Fin N → Option (Fin Q → Quo α) :=
  fun i => softmax_row_ext exp
    (log_tau_directed_covariates_ext exp log Y R M Z Gamma pi log_lambda i)

end EStepExt

/-! ## Parameter packing -/

section Packing

variable {α : Type}

/-- A raw `double *` buffer: the scalar stored at each index. -/
abbrev Buffer (α : Type) := ℕ → α

/-- Modelled from the spec: `packing.h` (`tuple_metadata`, `packed_size`,
`map<ID>`, `copy<ID>`) is not among the sources. Spec 4.1 and 9: the blocks of the
tuple `(Gamma, beta)` occupy contiguous, disjoint regions of one flat buffer in
declaration order, each block at a fixed scalar offset. `packed_size` is the total
scalar count of a `Q x Q` matrix followed by a length-`K` vector. -/
def packed_size (Q K : ℕ) : ℕ := Q * Q + K

/-- Modelled from the spec: offset of the block `GAMMA_ID` (first block). -/
def offset_GAMMA : ℕ := 0

/-- Modelled from the spec: offset of the block `BETA_ID`, right after the
`Q * Q` scalars of `Gamma`. -/
def offset_BETA (Q : ℕ) : ℕ := Q * Q

/-- Modelled from the spec: `metadata.map<GAMMA_ID>(ptr)` read as a matrix (also
`copy<GAMMA_ID>`); entry `(q,l)` is stored at `offset + q + l * Q` (Armadillo's
column-major layout). -/
def map_GAMMA {Q : ℕ} (buf : Buffer α) : Matrix (Fin Q) (Fin Q) α :=
  fun q l => buf (offset_GAMMA + (q.val + l.val * Q))

/-- Modelled from the spec: `metadata.map<BETA_ID>(ptr)` read as a vector (also
`copy<BETA_ID>`). -/
def map_BETA {Q K : ℕ} (buf : Buffer α) : Fin K → α :=
  fun k => buf (offset_BETA Q + k.val)

/-- Modelled from the spec: the assignment `metadata.map<GAMMA_ID>(ptr) = G`,
which writes the `Q * Q` scalars of the block and nothing else. -/
def assign_GAMMA {Q : ℕ} (buf : Buffer α) (G : Matrix (Fin Q) (Fin Q) α) : Buffer α :=
  fun p =>
    if h : offset_GAMMA ≤ p ∧ p < offset_GAMMA + Q * Q then
      G ⟨(p - offset_GAMMA) % Q, Nat.mod_lt _ (Nat.pos_of_ne_zero (by
          rintro rfl; obtain ⟨h1, h2⟩ := h; simp at h2; omega))⟩
        ⟨(p - offset_GAMMA) / Q, Nat.div_lt_of_lt_mul (by
          obtain ⟨h1, h2⟩ := h; omega)⟩
    else buf p

/-- Modelled from the spec: the assignment `metadata.map<BETA_ID>(ptr) = b`,
which writes the `K` scalars of the block and nothing else. -/
def assign_BETA {Q K : ℕ} (buf : Buffer α) (b : Fin K → α) : Buffer α :=
  fun p =>
    if h : offset_BETA Q ≤ p ∧ p < offset_BETA Q + K then
      b ⟨p - offset_BETA Q, by have := h.1; have := h.2; omega⟩
    else buf p

end Packing

/-! ## NLopt wrapper (nlopt_wrapper.cpp) -/

section Nlopt

/-- The enumerators of `nlopt_algorithm` (nlopt.h) named by the table
`supported_algorithms`; distinct enumerators of one C enum. -/
inductive nlopt_algorithm where
  | NLOPT_LD_LBFGS_NOCEDAL
  | NLOPT_LD_LBFGS
  | NLOPT_LD_VAR1
  | NLOPT_LD_VAR2
  | NLOPT_LD_TNEWTON
  | NLOPT_LD_TNEWTON_RESTART
  | NLOPT_LD_TNEWTON_PRECOND
  | NLOPT_LD_TNEWTON_PRECOND_RESTART
  | NLOPT_LD_MMA
  | NLOPT_LD_CCSAQ
  deriving DecidableEq, Repr

/-- The table `supported_algorithms` (nlopt_wrapper.cpp:15-26). -/
def supported_algorithms : List (String × nlopt_algorithm) :=
  [ ("LBFGS_NOCEDAL", nlopt_algorithm.NLOPT_LD_LBFGS_NOCEDAL),
    ("LBFGS", nlopt_algorithm.NLOPT_LD_LBFGS),
    ("VAR1", nlopt_algorithm.NLOPT_LD_VAR1),
    ("VAR2", nlopt_algorithm.NLOPT_LD_VAR2),
    ("TNEWTON", nlopt_algorithm.NLOPT_LD_TNEWTON),
    ("TNEWTON_RESTART", nlopt_algorithm.NLOPT_LD_TNEWTON_RESTART),
    ("TNEWTON_PRECOND", nlopt_algorithm.NLOPT_LD_TNEWTON_PRECOND),
    ("TNEWTON_PRECOND_RESTART", nlopt_algorithm.NLOPT_LD_TNEWTON_PRECOND_RESTART),
    ("MMA", nlopt_algorithm.NLOPT_LD_MMA),
    ("CCSAQ", nlopt_algorithm.NLOPT_LD_CCSAQ) ]

/-- The double quote character, as a string. -/
def dquote : String := String.singleton (Char.ofNat 34)

/-- The newline character, as a string. -/
def newline : String := String.singleton (Char.ofNat 10)

/-- The message built when no table entry matches (nlopt_wrapper.cpp:36-43). -/
def unsupported_algorithm_message (name : String) : String :=
  supported_algorithms.foldl (fun msg association => msg ++ " " ++ association.1)
    ("Unsupported algorithm name: " ++ dquote ++ name ++ dquote ++ newline ++ "Supported:")

/-- `algorithm_from_name` (nlopt_wrapper.cpp:29-45): the enumerator of the first
table entry whose name equals `name`, or the exception carrying the message. -/
def algorithm_from_name (name : String) : Except String nlopt_algorithm :=
  match supported_algorithms.find? (fun association => name == association.1) with
  | some association => Except.ok association.2
  | none => Except.error (unsupported_algorithm_message name)

/-- `NLOPT_SUCCESS` of nlopt.h. -/
def NLOPT_SUCCESS : Int := 1

/-- The configuration `Rcpp::List`: the entries `new_nlopt_optimizer` reads, each
present or absent. -/
structure Configuration (α : Type) where
  algorithm : Option String
  xtol_rel : Option α
  xtol_abs : Option α
  ftol_abs : Option α
  ftol_rel : Option α
  maxeval : Option Int
  maxtime : Option α

/-- The functions of the NLopt C library that the wrapper calls, on optimizer
objects of type `Opt`. A setter returns its `nlopt_result` code and the object
after the call; `nlopt_create` returns no object on failure. The library is not
part of the repository, so its behaviour is a parameter. -/
structure NloptApi (Opt : Type) (α : Type) where
  nlopt_create : nlopt_algorithm → ℕ → Option Opt
  nlopt_set_xtol_rel : Opt → α → Int × Opt
  nlopt_set_xtol_abs1 : Opt → α → Int × Opt
  nlopt_set_xtol_abs : Opt → List α → Int × Opt
  nlopt_set_ftol_abs : Opt → α → Int × Opt
  nlopt_set_ftol_rel : Opt → α → Int × Opt
  nlopt_set_maxeval : Opt → Int → Int × Opt
  nlopt_set_maxtime : Opt → α → Int × Opt
  nlopt_get_dimension : Opt → ℕ

/-- One block `if (config.containsElementNamed(...)) { if (setter(...) !=
NLOPT_SUCCESS) throw ...; }` of `new_nlopt_optimizer`. -/
def apply_option {Opt β : Type} (entry : Option β) (setter : Opt → β → Int × Opt)
    (context : String) (opt : Opt) : Except String Opt :=
  match entry with
  | none => Except.ok opt
  | some v =>
    if (setter opt v).1 ≠ NLOPT_SUCCESS then Except.error context
    else Except.ok (setter opt v).2

/-- `new_nlopt_optimizer` (nlopt_wrapper.cpp:50-90). Reading a missing
`algorithm` entry raises Rcpp's index error. -/
def new_nlopt_optimizer {Opt α : Type} (api : NloptApi Opt α) (config : Configuration α)
    (size : ℕ) : Except String Opt := do
  let name ← match config.algorithm with
    | some name => Except.ok name
    | none => Except.error "Index out of bounds: algorithm"
  let algorithm ← algorithm_from_name name
  let opt ← match api.nlopt_create algorithm size with
    | some opt => Except.ok opt
    | none => Except.error "nlopt_create"
  let opt ← apply_option config.xtol_rel api.nlopt_set_xtol_rel "nlopt_set_xtol_rel" opt
  let opt ← apply_option config.xtol_abs api.nlopt_set_xtol_abs1 "nlopt_set_xtol_abs" opt
  let opt ← apply_option config.ftol_abs api.nlopt_set_ftol_abs "nlopt_set_ftol_abs" opt
  let opt ← apply_option config.ftol_rel api.nlopt_set_ftol_rel "nlopt_set_ftol_rel" opt
  let opt ← apply_option config.maxeval api.nlopt_set_maxeval "nlopt_set_maxeval" opt
  let opt ← apply_option config.maxtime api.nlopt_set_maxtime "nlopt_set_maxtime" opt
  return opt

/-- `set_uniform_xtol_abs` (nlopt_wrapper.cpp:92-96). -/
def set_uniform_xtol_abs {Opt α : Type} (api : NloptApi Opt α) (opt : Opt) (value : α) :
    Except String Opt :=
  if (api.nlopt_set_xtol_abs1 opt value).1 ≠ NLOPT_SUCCESS then
    Except.error "nlopt_set_xtol_abs1"
  else Except.ok (api.nlopt_set_xtol_abs1 opt value).2

/-- `set_per_value_xtol_abs` (nlopt_wrapper.cpp:97-104). -/
def set_per_value_xtol_abs {Opt α : Type} (api : NloptApi Opt α) (opt : Opt)
    (xtol_abs : List α) : Except String Opt :=
  if xtol_abs.length ≠ api.nlopt_get_dimension opt then
    Except.error "set_per_value_xtol_abs: parameter size mismatch"
  else if (api.nlopt_set_xtol_abs opt xtol_abs).1 ≠ NLOPT_SUCCESS then
    Except.error "nlopt_set_xtol_abs"
  else Except.ok (api.nlopt_set_xtol_abs opt xtol_abs).2

end Nlopt

/-! ## M-step with covariates -/

section MStepCov

variable {α : Type} [LinearOrderedField α] {N Q K : ℕ}

/-- The loop-carried variables of `objective_and_grad`:
`loglik`, `gr_gamma`, `gr_beta`. -/
abbrev ObjState (Q K : ℕ) (α : Type) := α × Matrix (Fin Q) (Fin Q) α × (Fin K → α)

/-- The body executed for one dyad `(i,j)` of `R` in `objective_and_grad`
(SBM_bernoulli.cpp:207-213 and 278-284). -/
def dyad_update (exp log : α → α) (Y : Matrix (Fin N) (Fin N) α)
    (X : Fin N → Fin N → Fin K → α) (Z : Matrix (Fin N) (Fin Q) α)
    (gamma : Matrix (Fin Q) (Fin Q) α) (beta : Fin K → α) (i j : Fin N)
    (st : ObjState Q K α) : ObjState Q K α :=
  let phi : Fin K → α := X i j
  let mu : α := Matrix.dotProduct beta phi
  let ZiqZjl : Matrix (Fin Q) (Fin Q) α := fun q l => Z i q * Z j l
  let loglik := st.1 + accu (schur ZiqZjl fun q l =>
    Y i j * (gamma q l + mu) - log (1 + exp (gamma q l + mu)))
  let delta : Matrix (Fin Q) (Fin Q) α :=
    schur ZiqZjl fun q l => Y i j - 1 / (1 + exp (-(gamma q l + mu)))
  (loglik, st.2.1 + delta, st.2.2 + fun k => accu delta * phi k)

/-- The callback `objective_and_grad` of
`M_step_sparse_bernoulli_undirected_covariates` (SBM_bernoulli.cpp:187-221):
returns the objective value and the gradient buffer after the two writes. -/
def objective_and_grad_undirected (exp log : α → α) (Y R : Matrix (Fin N) (Fin N) α)
    (X : Fin N → Fin N → Fin K → α) (Z : Matrix (Fin N) (Fin Q) α)
    (params grad : Buffer α) : α × Buffer α :=
  let gamma : Matrix (Fin Q) (Fin Q) α := map_GAMMA params
  let beta : Fin K → α := map_BETA (Q := Q) params
  let st := (nonzeros R).foldl (fun st Rij =>
    if Rij.1 > Rij.2 then dyad_update exp log Y X Z gamma beta Rij.1 Rij.2 st else st)
    ((0, 0, 0) : ObjState Q K α)
  let grad1 := assign_GAMMA grad (-st.2.1)
  let grad2 := assign_BETA (Q := Q) grad1 (-st.2.2)
  (-st.1, grad2)

/-- The callback `objective_and_grad` of
`M_step_sparse_bernoulli_directed_covariates` (SBM_bernoulli.cpp:259-291). -/
def objective_and_grad_directed (exp log : α → α) (Y R : Matrix (Fin N) (Fin N) α)
    (X : Fin N → Fin N → Fin K → α) (Z : Matrix (Fin N) (Fin Q) α)
    (params grad : Buffer α) : α × Buffer α :=
  let gamma : Matrix (Fin Q) (Fin Q) α := map_GAMMA params
  let beta : Fin K → α := map_BETA (Q := Q) params
  let st := (nonzeros R).foldl (fun st Rij =>
    dyad_update exp log Y X Z gamma beta Rij.1 Rij.2 st)
    ((0, 0, 0) : ObjState Q K α)
  let grad1 := assign_GAMMA grad (-st.2.1)
  let grad2 := assign_BETA (Q := Q) grad1 (-st.2.2)
  (-st.1, grad2)

/-- Modelled from the spec: `OptimizerResult` is declared in `nlopt_wrapper.h`,
which is not among the sources. Spec 4.2: the run reports a status code and an
iteration count; the M-steps read them as `status` and `nb_iterations`. -/
structure OptimizerResult where
  status : Int
  nb_iterations : Int

/-- Modelled from the spec: the type of `minimize_objective_on_parameters`,
declared in `nlopt_wrapper.h`, which is not among the sources. Spec 4.2: from the
optimizer handle, the callback and the initial parameters to the final parameters
(mutated in place), the status and the iteration count; setup failures are
exceptions. Its behaviour is a parameter of the M-steps. -/
abbrev Minimizer (Opt α : Type) :=
  Opt → (Buffer α → Buffer α → α × Buffer α) → Buffer α →
    Except String (OptimizerResult × Buffer α)

/-- The `Rcpp::List` returned by the covariate M-steps; the entries of
`theta$mean` are doubles that may be special values. -/
structure MStepCovResult (Q K : ℕ) (α : Type) where
  status : Int
  iterations : Int
  theta_mean : Fin Q → Fin Q → Quo α
  pi : Fin Q → α
  beta : Fin K → α

/-- The common tail of the covariate M-steps (SBM_bernoulli.cpp:224-233 and
294-303): unpack the final buffer and build the result list. The entry
`1/(1 + exp(-Gamma))` of `theta` is evaluated on doubles as far as their range
goes: `exp`, then `1 + .`, then `1 / .`. -/
def cov_result (exp : α → α) (Z : Matrix (Fin N) (Fin Q) α) (result : OptimizerResult)
    (parameters : Buffer α) : MStepCovResult Q K α :=
  let Gamma : Matrix (Fin Q) (Fin Q) α := map_GAMMA parameters
  let beta : Fin K → α := map_BETA (Q := Q) parameters
  { status := result.status
    iterations := result.nb_iterations
    theta_mean := fun q l =>
      dbl_div (Quo.finite 1) (dbl_add (Quo.finite 1) (dbl_exp exp (Quo.finite (-(Gamma q l)))))
    pi := arma_mean_cols Z
    beta := beta }

/-- `M_step_sparse_bernoulli_undirected_covariates` (SBM_bernoulli.cpp:165-234). -/
def M_step_sparse_bernoulli_undirected_covariates {Opt : Type} (exp log : α → α)
    (api : NloptApi Opt α) (minimize_objective_on_parameters : Minimizer Opt α)
    (init_Gamma : Matrix (Fin Q) (Fin Q) α) (init_beta : Fin K → α)
    (Y R : Matrix (Fin N) (Fin N) α) (X : Fin N → Fin N → Fin K → α)
    (Z : Matrix (Fin N) (Fin Q) α) (configuration : Configuration α) :
    Except String (MStepCovResult Q K α) := do
  let parameters0 : Buffer α := fun _ => 0
  let parameters1 := assign_GAMMA parameters0 init_Gamma
  let parameters2 := assign_BETA (Q := Q) parameters1 init_beta
  let optimizer ← new_nlopt_optimizer api configuration (packed_size Q K)
  let (result, parameters) ← minimize_objective_on_parameters optimizer
    (objective_and_grad_undirected (Q := Q) (K := K) exp log Y R X Z) parameters2
  return cov_result exp Z result parameters

/-- `M_step_sparse_bernoulli_directed_covariates` (SBM_bernoulli.cpp:237-304). -/
def M_step_sparse_bernoulli_directed_covariates {Opt : Type} (exp log : α → α)
    (api : NloptApi Opt α) (minimize_objective_on_parameters : Minimizer Opt α)
    (init_Gamma : Matrix (Fin Q) (Fin Q) α) (init_beta : Fin K → α)
    (Y R : Matrix (Fin N) (Fin N) α) (X : Fin N → Fin N → Fin K → α)
    (Z : Matrix (Fin N) (Fin Q) α) (configuration : Configuration α) :
    Except String (MStepCovResult Q K α) := do
  let parameters0 : Buffer α := fun _ => 0
  let parameters1 := assign_GAMMA parameters0 init_Gamma
  let parameters2 := assign_BETA (Q := Q) parameters1 init_beta
  let optimizer ← new_nlopt_optimizer api configuration (packed_size Q K)
  let (result, parameters) ← minimize_objective_on_parameters optimizer
    (objective_and_grad_directed (Q := Q) (K := K) exp log Y R X Z) parameters2
  return cov_result exp Z result parameters

/-- The linear predictor `M(i,j) = sum_k beta(k) X(i,j,k)` of the data model. -/
def linear_predictor (beta : Fin K → α) (X : Fin N → Fin N → Fin K → α) :
    Matrix (Fin N) (Fin N) α :=
  fun i j => ∑ k, beta k * X i j k

/-- The buffer holding the tuple `(Gamma, beta)`: both blocks written into a
zero-initialised vector, as the M-steps do for the initial values. -/
def pack (Gamma : Matrix (Fin Q) (Fin Q) α) (beta : Fin K → α) : Buffer α :=
  assign_BETA (Q := Q) (assign_GAMMA (fun _ => 0) Gamma) beta

/-- The matrix `Gamma` with entry `(q,l)` replaced by `t`. -/
def set_entry (Gamma : Matrix (Fin Q) (Fin Q) α) (q l : Fin Q) (t : α) :
    Matrix (Fin Q) (Fin Q) α :=
  fun a b => if a = q ∧ b = l then t else Gamma a b

/-- The vector `beta` with entry `k` replaced by `t`. -/
def set_coord (beta : Fin K → α) (k : Fin K) (t : α) : Fin K → α :=
  fun a => if a = k then t else beta a

end MStepCov

/-! ## Input conditions used by the statements -/

section Conditions

variable {α : Type} [LinearOrderedField α] {N Q : ℕ}

/-- Every entry is 0 or 1. -/
def IsBinary (A : Matrix (Fin N) (Fin N) α) : Prop := ∀ i j, A i j = 0 ∨ A i j = 1

/-- The support of `Y` is inside the support of `R`. -/
def SupportSubset (Y R : Matrix (Fin N) (Fin N) α) : Prop := ∀ i j, Y i j ≠ 0 → R i j ≠ 0

/-- Rows of `Z` are probability vectors. -/
def RowStochastic (Z : Matrix (Fin N) (Fin Q) α) : Prop :=
  (∀ i q, 0 ≤ Z i q) ∧ ∀ i, ∑ q, Z i q = 1

end Conditions

/-! ## Scenario data -/

/-- Hard assignment of four nodes to two clusters: `[[1,0],[1,0],[0,1],[0,1]]`. -/
def Z_scenario : Matrix (Fin 4) (Fin 2) ℚ := !![1, 0; 1, 0; 0, 1; 0, 1]

/-- Adjacency with the single edge `(0,1)`. -/
def Y_scenario : Matrix (Fin 4) (Fin 4) ℚ :=
  !![0, 1, 0, 0; 0, 0, 0, 0; 0, 0, 0, 0; 0, 0, 0, 0]

/-- Observation mask: the six strictly upper-triangular dyads. -/
def R_scenario : Matrix (Fin 4) (Fin 4) ℚ :=
  !![0, 1, 1, 1; 0, 0, 1, 1; 0, 0, 0, 1; 0, 0, 0, 0]

/-- Counterexample input for strict bounds: two nodes in one cluster, the dyad
between them observed, no edge. -/
def Z_one_cluster : Matrix (Fin 2) (Fin 1) ℚ := !![1; 1]

/-- Observation mask of the two-node example: both off-diagonal dyads. -/
def R_two_nodes : Matrix (Fin 2) (Fin 2) ℚ := !![0, 1; 1, 0]

/-- Empty adjacency of the two-node example. -/
def Y_two_nodes : Matrix (Fin 2) (Fin 2) ℚ := !![0, 0; 0, 0]

/-- One node, one cluster: the 1 x 1 matrix with entry `c`. -/
def mat_one (α : Type) (c : α) : Matrix (Fin 1) (Fin 1) α := fun _ _ => c

/-- A 2 x 2 matrix given by its four entries, row by row. -/
def mat_two (α : Type) (a b c d : α) : Matrix (Fin 2) (Fin 2) α := !![a, b; c, d]

/-- Two nodes assigned to a single cluster: the 2 x 1 matrix of ones. -/
def col_ones (α : Type) [One α] : Matrix (Fin 2) (Fin 1) α := fun _ _ => 1

/-- A stand-in for the NLopt library on optimizer objects without content:
creation and every setter succeed. Used to instantiate statements that hold for
every library behaviour. -/
def unit_api (α : Type) : NloptApi Unit α where
  nlopt_create := fun _ _ => some ()
  nlopt_set_xtol_rel := fun _ _ => (NLOPT_SUCCESS, ())
  nlopt_set_xtol_abs1 := fun _ _ => (NLOPT_SUCCESS, ())
  nlopt_set_xtol_abs := fun _ _ => (NLOPT_SUCCESS, ())
  nlopt_set_ftol_abs := fun _ _ => (NLOPT_SUCCESS, ())
  nlopt_set_ftol_rel := fun _ _ => (NLOPT_SUCCESS, ())
  nlopt_set_maxeval := fun _ _ => (NLOPT_SUCCESS, ())
  nlopt_set_maxtime := fun _ _ => (NLOPT_SUCCESS, ())
  nlopt_get_dimension := fun _ => 0

/-- A stand-in for `minimize_objective_on_parameters` that evaluates the
callback once at the initial parameters and stops. -/
def one_eval_minimizer (α : Type) [Zero α] : Minimizer Unit α :=
  fun _ objective_and_grad parameters =>
    let _value := (objective_and_grad parameters (fun _ => 0)).1
    Except.ok ({ status := 5, nb_iterations := 1 }, parameters)

/-- The configuration with `algorithm = "UNKNOWN"` and no other entry. -/
def unknown_config (α : Type) : Configuration α where
  algorithm := some "UNKNOWN"
  xtol_rel := none
  xtol_abs := none
  ftol_abs := none
  ftol_rel := none
  maxeval := none
  maxtime := none

/-- The configuration with `algorithm = "LBFGS"` and no other entry. -/
def lbfgs_config (α : Type) : Configuration α where
  algorithm := some "LBFGS"
  xtol_rel := none
  xtol_abs := none
  ftol_abs := none
  ftol_rel := none
  maxeval := none
  maxtime := none

/-- A probability vector: entries `≥ 0` that sum to 1. -/
def IsProbabilityVector {α : Type} [LinearOrderedField α] {Q : ℕ} (p : Fin Q → α) : Prop :=
  (∀ q, 0 ≤ p q) ∧ ∑ q, p q = 1

/-! ## NLopt objects as seen through their getters -/

/-- What the getters of the NLopt library (`nlopt_get_algorithm`,
`nlopt_get_dimension`, `nlopt_get_xtol_rel`, `nlopt_get_xtol_abs`, ...) report
about an optimizer object; `xtol_abs` has one entry per parameter. -/
structure NloptView (α : Type) where
  algorithm : nlopt_algorithm
  dimension : ℕ
  xtol_rel : α
  xtol_abs : ℕ → α
  ftol_abs : α
  ftol_rel : α
  maxeval : Int
  maxtime : α

/-- The documented behaviour of the NLopt library, as far as the wrapper relies
on it: a created object reports the library defaults for its algorithm and
dimension, and a setter that returns `NLOPT_SUCCESS` stores its argument in its
own field and leaves what the other getters report unchanged
(`nlopt_set_xtol_abs1` stores the value for every parameter). -/
structure NloptContract {Opt α : Type} (api : NloptApi Opt α) (view : Opt → NloptView α)
    (defaults : nlopt_algorithm → ℕ → NloptView α) : Prop where
  defaults_algorithm : ∀ alg n, (defaults alg n).algorithm = alg
  defaults_dimension : ∀ alg n, (defaults alg n).dimension = n
  create : ∀ alg n opt, api.nlopt_create alg n = some opt → view opt = defaults alg n
  set_xtol_rel : ∀ opt v, (api.nlopt_set_xtol_rel opt v).1 = NLOPT_SUCCESS →
    view (api.nlopt_set_xtol_rel opt v).2 = { view opt with xtol_rel := v }
  set_xtol_abs1 : ∀ opt v, (api.nlopt_set_xtol_abs1 opt v).1 = NLOPT_SUCCESS →
    view (api.nlopt_set_xtol_abs1 opt v).2 = { view opt with xtol_abs := fun _ => v }
  set_ftol_abs : ∀ opt v, (api.nlopt_set_ftol_abs opt v).1 = NLOPT_SUCCESS →
    view (api.nlopt_set_ftol_abs opt v).2 = { view opt with ftol_abs := v }
  set_ftol_rel : ∀ opt v, (api.nlopt_set_ftol_rel opt v).1 = NLOPT_SUCCESS →
    view (api.nlopt_set_ftol_rel opt v).2 = { view opt with ftol_rel := v }
  set_maxeval : ∀ opt v, (api.nlopt_set_maxeval opt v).1 = NLOPT_SUCCESS →
    view (api.nlopt_set_maxeval opt v).2 = { view opt with maxeval := v }
  set_maxtime : ∀ opt v, (api.nlopt_set_maxtime opt v).1 = NLOPT_SUCCESS →
    view (api.nlopt_set_maxtime opt v).2 = { view opt with maxtime := v }

/-- The view a configuration asks for, starting from the view `base` of the
created object: every present option replaces its field, every absent option
keeps the field of `base`. -/
def configured_view {α : Type} (config : Configuration α) (base : NloptView α) :
    NloptView α where
  algorithm := base.algorithm
  dimension := base.dimension
  xtol_rel := config.xtol_rel.getD base.xtol_rel
  xtol_abs := match config.xtol_abs with
    | some v => fun _ => v
    | none => base.xtol_abs
  ftol_abs := config.ftol_abs.getD base.ftol_abs
  ftol_rel := config.ftol_rel.getD base.ftol_rel
  maxeval := config.maxeval.getD base.maxeval
  maxtime := config.maxtime.getD base.maxtime

/-- One option step of `new_nlopt_optimizer` went through: an absent entry
leaves the object as it is, a present entry was passed to its setter, which
returned `NLOPT_SUCCESS` and left the object `opt'`. -/
def option_applied {Opt β : Type} (entry : Option β) (setter : Opt → β → Int × Opt)
    (opt opt' : Opt) : Prop :=
  match entry with
  | none => opt' = opt
  | some v => (setter opt v).1 = NLOPT_SUCCESS ∧ opt' = (setter opt v).2

/-- A reference library whose optimizer objects are their own views: creation
reports zero tolerances and limits, every setter stores its argument and
succeeds. -/
def record_api (α : Type) [Zero α] : NloptApi (NloptView α) α where
  nlopt_create := fun alg n => some
    { algorithm := alg, dimension := n, xtol_rel := 0, xtol_abs := fun _ => 0,
      ftol_abs := 0, ftol_rel := 0, maxeval := 0, maxtime := 0 }
  nlopt_set_xtol_rel := fun opt v => (NLOPT_SUCCESS, { opt with xtol_rel := v })
  nlopt_set_xtol_abs1 := fun opt v => (NLOPT_SUCCESS, { opt with xtol_abs := fun _ => v })
  nlopt_set_xtol_abs := fun opt v => (NLOPT_SUCCESS, { opt with xtol_abs := fun i => v.getD i 0 })
  nlopt_set_ftol_abs := fun opt v => (NLOPT_SUCCESS, { opt with ftol_abs := v })
  nlopt_set_ftol_rel := fun opt v => (NLOPT_SUCCESS, { opt with ftol_rel := v })
  nlopt_set_maxeval := fun opt v => (NLOPT_SUCCESS, { opt with maxeval := v })
  nlopt_set_maxtime := fun opt v => (NLOPT_SUCCESS, { opt with maxtime := v })
  nlopt_get_dimension := fun opt => opt.dimension

/-- The defaults reported by `record_api`. -/
def record_defaults (α : Type) [Zero α] (alg : nlopt_algorithm) (n : ℕ) : NloptView α where
  algorithm := alg
  dimension := n
  xtol_rel := 0
  xtol_abs := fun _ => 0
  ftol_abs := 0
  ftol_rel := 0
  maxeval := 0
  maxtime := 0

/-- The configuration built by `cpp_test_nlopt` (nlopt_wrapper.cpp:121-127), with
`epsilon = 1e-6`. -/
def test_config : Configuration ℚ where
  algorithm := some "LBFGS"
  xtol_rel := some (1 / 1000000)
  xtol_abs := none
  ftol_abs := some (1 / 1000000)
  ftol_rel := some (1 / 1000000)
  maxeval := some 100
  maxtime := some 100

/-! ## Unnormalised log-responsibilities -/

section LogTau

variable {α : Type} [LinearOrderedField α] {N Q : ℕ}

/-- The matrix `log_tau` of `E_step_sparse_bernoulli_undirected_nocovariate`
right before the row normalisation (SBM_bernoulli.cpp:320-321). -/
def log_tau_undirected_nocovariate (log : α → α)
    (Y R : Matrix (Fin N) (Fin N) α) (Z : Matrix (Fin N) (Fin Q) α)
    (theta : Matrix (Fin Q) (Fin Q) α) (pi : Fin Q → α) (log_lambda : α) :
    Matrix (Fin N) (Fin Q) α :=
  fun i q =>
    (Y * Z * log_odds log theta) i q + (R * Z * log_one_minus log theta) i q + log_lambda
      + log (pi q)

/-- The matrix `log_tau` of `E_step_sparse_bernoulli_directed_nocovariate` right
before the row normalisation (SBM_bernoulli.cpp:339-341). -/
def log_tau_directed_nocovariate (log : α → α)
    (Y R : Matrix (Fin N) (Fin N) α) (Z : Matrix (Fin N) (Fin Q) α)
    (theta : Matrix (Fin Q) (Fin Q) α) (pi : Fin Q → α) (log_lambda : α) :
    Matrix (Fin N) (Fin Q) α :=
  fun i q =>
    (Y * Z * (log_odds log theta).transpose) i q
      + (R * Z * (log_one_minus log theta).transpose) i q
      + (Y.transpose * Z * log_odds log theta) i q
      + (R.transpose * Z * log_one_minus log theta) i q + log_lambda
      + log (pi q)

/-- The matrix `log_tau` of `E_step_sparse_bernoulli_undirected_covariates` right
before the row normalisation (SBM_bernoulli.cpp:363-373). -/
def log_tau_undirected_covariates (exp log : α → α)
    (Y R : Matrix (Fin N) (Fin N) α) (M : Matrix (Fin N) (Fin N) α)
    (Z : Matrix (Fin N) (Fin Q) α) (Gamma : Matrix (Fin Q) (Fin Q) α) (pi : Fin Q → α)
    (log_lambda : α) : Matrix (Fin N) (Fin Q) α :=
  let log_tau0 : Matrix (Fin N) (Fin Q) α := fun i q => (Y * Z * Gamma) i q + log_lambda
  let log_tau1 := (nonzeros R).foldl (fun T Rij =>
    loop_ql_sub Rij.1 (fun q l =>
      Z Rij.2 l * log (1 + exp (Gamma q l + M Rij.1 Rij.2))) T) log_tau0
  fun i q => log_tau1 i q + log (pi q)

/-- The matrix `log_tau` of `E_step_sparse_bernoulli_directed_covariates` right
before the row normalisation (SBM_bernoulli.cpp:395-407). -/
def log_tau_directed_covariates (exp log : α → α)
    (Y R : Matrix (Fin N) (Fin N) α) (M : Matrix (Fin N) (Fin N) α)
    (Z : Matrix (Fin N) (Fin Q) α) (Gamma : Matrix (Fin Q) (Fin Q) α) (pi : Fin Q → α)
    (log_lambda : α) : Matrix (Fin N) (Fin Q) α :=
  let log_tau0 : Matrix (Fin N) (Fin Q) α := fun i q =>
    (Y * Z * Gamma.transpose) i q + (Y.transpose * Z * Gamma) i q + log_lambda
  let log_tau1 := (nonzeros R).foldl (fun T Rij =>
    loop_ql_sub Rij.1 (fun q l =>
      Z Rij.2 l * (log (1 + exp (Gamma q l + M Rij.1 Rij.2))
        + log (1 + exp (Gamma l q + M Rij.2 Rij.1)))) T) log_tau0
  fun i q => log_tau1 i q + log (pi q)

/-- The assignment `Z[i <- e_q]`: `Z` with row `i` replaced by the indicator of
cluster `q`. -/
def set_row (Z : Matrix (Fin N) (Fin Q) α) (i : Fin N) (q : Fin Q) : Matrix (Fin N) (Fin Q) α :=
  fun a c => if a = i then (if c = q then 1 else 0) else Z a c

/-- The score `t(i,q)` as the specification writes it for the undirected
no-covariate E-step: `sum_j sum_l Y(i,j) Z(j,l) log(theta(l,q)/(1-theta(l,q)))
+ sum_j sum_l R(i,j) Z(j,l) log(1-theta(l,q))`. -/
def spec_t_undirected_nocovariate (log : α → α)
    (Y R : Matrix (Fin N) (Fin N) α) (Z : Matrix (Fin N) (Fin Q) α)
    (theta : Matrix (Fin Q) (Fin Q) α) (i : Fin N) (q : Fin Q) : α :=
  (∑ j, ∑ l, Y i j * Z j l * log (theta l q / (1 - theta l q)))
    + ∑ j, ∑ l, R i j * Z j l * log (1 - theta l q)

/-- The score `s(i,q) = t(i,q) + log_lambda + log pi(q)` as the specification
writes it for the undirected no-covariate E-step. -/
def spec_s_undirected_nocovariate (log : α → α)
    (Y R : Matrix (Fin N) (Fin N) α) (Z : Matrix (Fin N) (Fin Q) α)
    (theta : Matrix (Fin Q) (Fin Q) α) (pi : Fin Q → α) (log_lambda : α)
    (i : Fin N) (q : Fin Q) : α :=
  spec_t_undirected_nocovariate log Y R Z theta i q + log_lambda + log (pi q)

end LogTau

/-- The undirected no-covariate ELBO as the specification writes it, counting each
unordered pair once: `sum over pairs i > j of sum_{q,l} Z(i,q) Z(j,l)
[Y(i,j) log(theta(q,l)/(1-theta(q,l))) + R(i,j) log(1-theta(q,l))]
+ sum_i sum_q Z(i,q) log pi(q)`. -/
def spec_vLL_undirected_pairs {α : Type} [LinearOrderedField α] {N Q : ℕ} (log : α → α)
    (Y R : Matrix (Fin N) (Fin N) α) (Z : Matrix (Fin N) (Fin Q) α)
    (theta : Matrix (Fin Q) (Fin Q) α) (pi : Fin Q → α) : α :=
  (∑ j, ∑ i, if i > j then
      ∑ q, ∑ l, Z i q * Z j l
        * (Y i j * log (theta q l / (1 - theta q l)) + R i j * log (1 - theta q l))
    else 0)
    + ∑ i, ∑ q, Z i q * log (pi q)

/-! # Theorems -/

/-! ## Loops as sums -/

section Loops

variable {α : Type} [LinearOrderedField α] {N Q : ℕ}

theorem foldl_add_eq {β M : Type} [AddCommMonoid M] (g : β → M) (step : M → β → M)
    (h : ∀ a x, step a x = a + g x) (l : List β) (a : M) :
    l.foldl step a = a + (l.map g).sum := by
  induction l generalizing a with
  | nil => simp
  | cons x xs ih =>
    simp only [List.foldl_cons, ih, h, List.map_cons, List.sum_cons, add_assoc]

theorem loop_ql_eq (term : Fin Q → Fin Q → α) (acc : α) :
    loop_ql term acc = acc + ∑ q, ∑ l, term q l := by
  unfold loop_ql
  rw [foldl_add_eq (fun q => ∑ l, term q l), Fin.sum_univ_def]
  intro a q
  rw [foldl_add_eq (term q) _ (fun _ _ => rfl), Fin.sum_univ_def]

theorem sum_map_flatMap {β γ M : Type} [AddCommMonoid M] (f : β → List γ) (g : γ → M)
    (l : List β) :
    ((l.flatMap f).map g).sum = (l.map fun b => ((f b).map g).sum).sum := by
  induction l with
  | nil => simp
  | cons x xs ih =>
    simp only [List.flatMap_cons, List.map_append, List.sum_append, ih, List.map_cons,
      List.sum_cons]

theorem sum_map_filter_map {β γ M : Type} [AddCommMonoid M] (p : β → Bool) (h : β → γ)
    (g : γ → M) (l : List β) :
    (((l.filter p).map h).map g).sum = (l.map fun b => if p b then g (h b) else 0).sum := by
  induction l with
  | nil => simp
  | cons x xs ih =>
    by_cases hx : p x = true
    · simp only [List.filter_cons, hx, if_true, List.map_cons, List.sum_cons, ih]
    · simp only [List.filter_cons, hx, if_false, List.map_cons, List.sum_cons, ih, zero_add,
        Bool.false_eq_true]

theorem nonzeros_sum {M : Type} [AddCommMonoid M] (A : Matrix (Fin N) (Fin N) α)
    (g : Fin N × Fin N → M) :
    ((nonzeros A).map g).sum = ∑ j, ∑ i, if A i j ≠ 0 then g (i, j) else 0 := by
  unfold nonzeros
  rw [sum_map_flatMap, Fin.sum_univ_def]
  congr 1
  apply List.map_congr_left
  intro j _
  rw [sum_map_filter_map, Fin.sum_univ_def]
  congr 1
  apply List.map_congr_left
  intro i _
  simp only [decide_eq_true_eq]

theorem foldl_nonzeros_eq {M : Type} [AddCommMonoid M] (A : Matrix (Fin N) (Fin N) α)
    (g : Fin N × Fin N → M) (step : M → Fin N × Fin N → M) (h : ∀ a x, step a x = a + g x)
    (a : M) :
    (nonzeros A).foldl step a = a + ∑ j, ∑ i, if A i j ≠ 0 then g (i, j) else 0 := by
  rw [foldl_add_eq g step h, nonzeros_sum]

theorem vLL_undirected_covariates_eq (exp log : α → α)
    (Y R M : Matrix (Fin N) (Fin N) α) (Z : Matrix (Fin N) (Fin Q) α)
    (Gamma : Matrix (Fin Q) (Fin Q) α) (pi : Fin Q → α) :
    vLL_complete_sparse_bernoulli_undirected_covariates exp log Y R M Z Gamma pi
      = accu_Z_log_pi log Z pi
        + (∑ j, ∑ i, if Y i j ≠ 0 then
            (if i > j then ∑ q, ∑ l, Z i q * Z j l * (Gamma q l + M i j) else 0) else 0)
        + ∑ j, ∑ i, if R i j ≠ 0 then
            (if i > j then
              ∑ q, ∑ l, -Z i q * Z j l * log (1 + exp (Gamma q l + M i j)) else 0)
            else 0 := by
  unfold vLL_complete_sparse_bernoulli_undirected_covariates
  simp only []
  rw [foldl_nonzeros_eq R (fun x => if x.1 > x.2 then
      ∑ q, ∑ l, -Z x.1 q * Z x.2 l * log (1 + exp (Gamma q l + M x.1 x.2)) else 0),
    foldl_nonzeros_eq Y (fun x => if x.1 > x.2 then
      ∑ q, ∑ l, Z x.1 q * Z x.2 l * (Gamma q l + M x.1 x.2) else 0)]
  · intro a x
    by_cases hx : x.1 > x.2
    · simp only [hx, if_true, loop_ql_eq]
    · simp only [hx, if_false, add_zero]
  · intro a x
    by_cases hx : x.1 > x.2
    · simp only [hx, if_true, loop_ql_eq]
    · simp only [hx, if_false, add_zero]

theorem vLL_directed_covariates_eq (exp log : α → α)
    (Y R M : Matrix (Fin N) (Fin N) α) (Z : Matrix (Fin N) (Fin Q) α)
    (Gamma : Matrix (Fin Q) (Fin Q) α) (pi : Fin Q → α) :
    vLL_complete_sparse_bernoulli_directed_covariates exp log Y R M Z Gamma pi
      = accu_Z_log_pi log Z pi
        + (∑ j, ∑ i, if Y i j ≠ 0 then
            ∑ q, ∑ l, Z i q * Z j l * (Gamma q l + M i j) else 0)
        + ∑ j, ∑ i, if R i j ≠ 0 then
            ∑ q, ∑ l, -Z i q * Z j l * log (1 + exp (Gamma q l + M i j)) else 0 := by
  unfold vLL_complete_sparse_bernoulli_directed_covariates
  simp only []
  rw [foldl_nonzeros_eq R (fun x =>
      ∑ q, ∑ l, -Z x.1 q * Z x.2 l * log (1 + exp (Gamma q l + M x.1 x.2))),
    foldl_nonzeros_eq Y (fun x =>
      ∑ q, ∑ l, Z x.1 q * Z x.2 l * (Gamma q l + M x.1 x.2))]
  · intro a x
    simp only [loop_ql_eq]
  · intro a x
    simp only [loop_ql_eq]

theorem sum_symm_eq_two_mul_lower (a : Fin N → Fin N → α) (hs : ∀ i j, a i j = a j i)
    (hd : ∀ i, a i i = 0) :
    ∑ j, ∑ i, a i j = 2 * ∑ j, ∑ i, if i > j then a i j else 0 := by
  have h1 : ∀ i j, a i j
      = (if i > j then a i j else 0) + (if j > i then a j i else 0) := by
    intro i j
    rcases lt_trichotomy i j with h | h | h
    · simp [h, not_lt_of_gt h, hs i j]
    · subst h; simp [hd]
    · simp [h, not_lt_of_gt h]
  have h2 : ∑ j, ∑ i, a i j
      = (∑ j, ∑ i, if i > j then a i j else 0) + ∑ j, ∑ i, if j > i then a j i else 0 := by
    rw [← Finset.sum_add_distrib]
    refine Finset.sum_congr rfl fun j _ => ?_
    rw [← Finset.sum_add_distrib]
    exact Finset.sum_congr rfl fun i _ => h1 i j
  rw [h2, Finset.sum_comm (f := fun j i => if j > i then a j i else 0)]
  ring

end Loops

section MStepNoCovTheorems

variable {α : Type} [LinearOrderedField α] {N Q : ℕ}

theorem quad_form_apply (A : Matrix (Fin N) (Fin N) α) (Z : Matrix (Fin N) (Fin Q) α)
    (q l : Fin Q) :
    (Z.transpose * A * Z) q l = ∑ i, ∑ j, Z i q * A i j * Z j l := by
  simp only [Matrix.mul_apply, Matrix.transpose_apply, Finset.sum_mul]
  rw [Finset.sum_comm]

/-- C3: the undirected and the directed no-covariate M-step return the same
result; `theta.mean(q,l)` is the element-wise quotient of
`sum_i sum_j Z(i,q) Y(i,j) Z(j,l)` by `sum_i sum_j Z(i,q) R(i,j) Z(j,l)` (the
ordinary quotient whenever the divisor is non-zero), and
`pi(q) = (1/N) sum_i Z(i,q)`. -/
theorem M_step_nocovariate_closed_form
    (Y R : Matrix (Fin N) (Fin N) α) (Z : Matrix (Fin N) (Fin Q) α) :
    M_step_sparse_bernoulli_undirected_nocovariate Y R Z
        = M_step_sparse_bernoulli_directed_nocovariate Y R Z
      ∧ (∀ q l, (M_step_sparse_bernoulli_undirected_nocovariate Y R Z).theta_mean q l
          = arma_div (∑ i, ∑ j, Z i q * Y i j * Z j l) (∑ i, ∑ j, Z i q * R i j * Z j l))
      ∧ (∀ q l, (∑ i, ∑ j, Z i q * R i j * Z j l) ≠ 0 →
          (M_step_sparse_bernoulli_undirected_nocovariate Y R Z).theta_mean q l
            = Quo.finite ((∑ i, ∑ j, Z i q * Y i j * Z j l)
                / (∑ i, ∑ j, Z i q * R i j * Z j l)))
      ∧ (∀ q, (M_step_sparse_bernoulli_undirected_nocovariate Y R Z).pi q
          = (1 / (N : α)) * ∑ i, Z i q) := by
  refine ⟨rfl, ?_, ?_, ?_⟩
  · intro q l
    simp only [M_step_sparse_bernoulli_undirected_nocovariate, quad_form_apply]
  · intro q l h
    simp only [M_step_sparse_bernoulli_undirected_nocovariate, quad_form_apply, arma_div,
      if_neg h]
  · intro q
    simp only [M_step_sparse_bernoulli_undirected_nocovariate, arma_mean_cols]
    ring

theorem scenario_num (q l : Fin 2) :
    (Z_scenario.transpose * Y_scenario * Z_scenario) q l
      = (!![1, 0; 0, 0] : Matrix (Fin 2) (Fin 2) ℚ) q l := by
  rw [quad_form_apply]
  fin_cases q <;> fin_cases l <;>
    simp [Z_scenario, Y_scenario, Fin.sum_univ_succ]

theorem scenario_den (q l : Fin 2) :
    (Z_scenario.transpose * R_scenario * Z_scenario) q l
      = (!![1, 4; 0, 1] : Matrix (Fin 2) (Fin 2) ℚ) q l := by
  rw [quad_form_apply]
  fin_cases q <;> fin_cases l <;> simp [Z_scenario, R_scenario, Fin.sum_univ_succ]
  norm_num

/-- C4 (as stated, refuted): on the scenario input the M-step does not return
`theta(1,0) = 0`; the conjunction "theta(0,0) = 1, the three other entries 0,
pi = [0.5, 0.5]" fails. -/
theorem M_step_scenario_not_all_zero :
    ¬ ((M_step_sparse_bernoulli_undirected_nocovariate Y_scenario R_scenario
            Z_scenario).theta_mean 0 0 = Quo.finite 1
        ∧ (M_step_sparse_bernoulli_undirected_nocovariate Y_scenario R_scenario
            Z_scenario).theta_mean 0 1 = Quo.finite 0
        ∧ (M_step_sparse_bernoulli_undirected_nocovariate Y_scenario R_scenario
            Z_scenario).theta_mean 1 0 = Quo.finite 0
        ∧ (M_step_sparse_bernoulli_undirected_nocovariate Y_scenario R_scenario
            Z_scenario).theta_mean 1 1 = Quo.finite 0
        ∧ (M_step_sparse_bernoulli_undirected_nocovariate Y_scenario R_scenario
            Z_scenario).pi = ![1 / 2, 1 / 2]) := by
  rintro ⟨-, -, h, -, -⟩
  simp [M_step_sparse_bernoulli_undirected_nocovariate, scenario_num, scenario_den,
    arma_div] at h

/-- C4 (amended): on the scenario input both no-covariate M-steps return
`theta(0,0) = 1`, `theta(0,1) = 0`, `theta(1,1) = 0`, `pi = [0.5, 0.5]`, and
`theta(1,0)` is the quotient `0 / 0` (NaN), because no dyad from cluster 1 to
cluster 0 is in the upper triangle of `R`. -/
theorem M_step_scenario_values :
    (M_step_sparse_bernoulli_undirected_nocovariate Y_scenario R_scenario
        Z_scenario).theta_mean 0 0 = Quo.finite 1
      ∧ (M_step_sparse_bernoulli_undirected_nocovariate Y_scenario R_scenario
        Z_scenario).theta_mean 0 1 = Quo.finite 0
      ∧ (M_step_sparse_bernoulli_undirected_nocovariate Y_scenario R_scenario
        Z_scenario).theta_mean 1 1 = Quo.finite 0
      ∧ (M_step_sparse_bernoulli_undirected_nocovariate Y_scenario R_scenario
        Z_scenario).theta_mean 1 0 = Quo.nan
      ∧ (M_step_sparse_bernoulli_undirected_nocovariate Y_scenario R_scenario
        Z_scenario).pi = ![1 / 2, 1 / 2]
      ∧ M_step_sparse_bernoulli_directed_nocovariate Y_scenario R_scenario Z_scenario
        = M_step_sparse_bernoulli_undirected_nocovariate Y_scenario R_scenario
            Z_scenario := by
  refine ⟨?_, ?_, ?_, ?_, ?_, rfl⟩
  · simp [M_step_sparse_bernoulli_undirected_nocovariate, scenario_num, scenario_den,
      arma_div]
  · simp [M_step_sparse_bernoulli_undirected_nocovariate, scenario_num, scenario_den,
      arma_div]
  · simp [M_step_sparse_bernoulli_undirected_nocovariate, scenario_num, scenario_den,
      arma_div]
  · simp [M_step_sparse_bernoulli_undirected_nocovariate, scenario_num, scenario_den,
      arma_div]
  · funext q
    fin_cases q <;>
      simp [M_step_sparse_bernoulli_undirected_nocovariate, arma_mean_cols, Z_scenario,
        Fin.sum_univ_succ] <;> norm_num

theorem binary_nonneg {A : Matrix (Fin N) (Fin N) α} (hA : IsBinary A) (i j : Fin N) :
    0 ≤ A i j := by
  rcases hA i j with h | h <;> rw [h]
  exact zero_le_one

theorem binary_le_of_support {Y R : Matrix (Fin N) (Fin N) α} (hY : IsBinary Y)
    (hR : IsBinary R) (hYR : SupportSubset Y R) (i j : Fin N) : Y i j ≤ R i j := by
  rcases hY i j with h | h
  · rw [h]; exact binary_nonneg hR i j
  · rcases hR i j with h' | h'
    · exact absurd h' (hYR i j (by rw [h]; exact one_ne_zero))
    · rw [h, h']

theorem quad_form_nonneg {A : Matrix (Fin N) (Fin N) α} (hA : IsBinary A)
    {Z : Matrix (Fin N) (Fin Q) α} (hZ : ∀ i q, 0 ≤ Z i q) (q l : Fin Q) :
    0 ≤ (Z.transpose * A * Z) q l := by
  rw [quad_form_apply]
  exact Finset.sum_nonneg fun i _ => Finset.sum_nonneg fun j _ =>
    mul_nonneg (mul_nonneg (hZ i q) (binary_nonneg hA i j)) (hZ j l)

theorem quad_form_mono {Y R : Matrix (Fin N) (Fin N) α} (hY : IsBinary Y)
    (hR : IsBinary R) (hYR : SupportSubset Y R)
    {Z : Matrix (Fin N) (Fin Q) α} (hZ : ∀ i q, 0 ≤ Z i q) (q l : Fin Q) :
    (Z.transpose * Y * Z) q l ≤ (Z.transpose * R * Z) q l := by
  rw [quad_form_apply, quad_form_apply]
  exact Finset.sum_le_sum fun i _ => Finset.sum_le_sum fun j _ =>
    mul_le_mul_of_nonneg_right
      (mul_le_mul_of_nonneg_left (binary_le_of_support hY hR hYR i j) (hZ i q)) (hZ j l)

/-- C5 (as stated, refuted): two nodes in one cluster, their dyad observed, no
edge. All hypotheses of the claim hold and the R-weighted count is 2 > 0, yet
`theta(0,0) = 0`, which is not strictly inside (0,1). -/
theorem M_step_theta_not_strictly_inside :
    IsBinary Y_two_nodes ∧ IsBinary R_two_nodes ∧ SupportSubset Y_two_nodes R_two_nodes
      ∧ RowStochastic Z_one_cluster
      ∧ (∀ q l, 0 < (Z_one_cluster.transpose * R_two_nodes * Z_one_cluster) q l)
      ∧ (M_step_sparse_bernoulli_undirected_nocovariate Y_two_nodes R_two_nodes
          Z_one_cluster).theta_mean 0 0 = Quo.finite 0
      ∧ ¬ ∃ t, (M_step_sparse_bernoulli_undirected_nocovariate Y_two_nodes R_two_nodes
          Z_one_cluster).theta_mean 0 0 = Quo.finite t ∧ 0 < t ∧ t < 1 := by
  have hden : ∀ q l, (Z_one_cluster.transpose * R_two_nodes * Z_one_cluster) q l = 2 := by
    intro q l
    rw [quad_form_apply]
    fin_cases q; fin_cases l
    simp [Z_one_cluster, R_two_nodes, Fin.sum_univ_succ]
    norm_num
  have hnum : ∀ q l, (Z_one_cluster.transpose * Y_two_nodes * Z_one_cluster) q l = 0 := by
    intro q l
    rw [quad_form_apply]
    fin_cases q; fin_cases l
    simp [Z_one_cluster, Y_two_nodes, Fin.sum_univ_succ]
  have hval : (M_step_sparse_bernoulli_undirected_nocovariate Y_two_nodes R_two_nodes
      Z_one_cluster).theta_mean 0 0 = Quo.finite 0 := by
    simp [M_step_sparse_bernoulli_undirected_nocovariate, hden, hnum, arma_div]
  refine ⟨?_, ?_, ?_, ⟨?_, ?_⟩, ?_, hval, ?_⟩
  · intro i j; fin_cases i <;> fin_cases j <;> simp [Y_two_nodes]
  · intro i j; fin_cases i <;> fin_cases j <;> simp [R_two_nodes]
  · intro i j; fin_cases i <;> fin_cases j <;> simp [Y_two_nodes]
  · intro i q; fin_cases i <;> fin_cases q <;> simp [Z_one_cluster]
  · intro i; fin_cases i <;> simp [Z_one_cluster]
  · intro q l; rw [hden]; norm_num
  · rintro ⟨t, ht, h0, -⟩
    rw [hval] at ht
    injection ht with ht
    rw [← ht] at h0
    exact lt_irrefl _ h0

/-- C5 (amended): for 0/1 matrices `Y`, `R` with support(Y) inside support(R)
and row-stochastic `Z` such that every cluster pair has a positive R-weighted
count, every entry of `theta` returned by the no-covariate M-steps is a finite
number in the closed interval [0,1]. -/
theorem M_step_theta_in_unit_interval
    (Y R : Matrix (Fin N) (Fin N) α) (Z : Matrix (Fin N) (Fin Q) α)
    (hY : IsBinary Y) (hR : IsBinary R) (hYR : SupportSubset Y R) (hZ : RowStochastic Z)
    (hpos : ∀ q l, 0 < (Z.transpose * R * Z) q l) (q l : Fin Q) :
    (∃ t, (M_step_sparse_bernoulli_undirected_nocovariate Y R Z).theta_mean q l
        = Quo.finite t ∧ 0 ≤ t ∧ t ≤ 1)
      ∧ (∃ t, (M_step_sparse_bernoulli_directed_nocovariate Y R Z).theta_mean q l
        = Quo.finite t ∧ 0 ≤ t ∧ t ≤ 1) := by
  have key : ∃ t, arma_div ((Z.transpose * Y * Z) q l) ((Z.transpose * R * Z) q l)
      = Quo.finite t ∧ 0 ≤ t ∧ t ≤ 1 := by
    refine ⟨(Z.transpose * Y * Z) q l / (Z.transpose * R * Z) q l, ?_, ?_, ?_⟩
    · simp only [arma_div, if_neg (ne_of_gt (hpos q l))]
    · exact div_nonneg (quad_form_nonneg hY hZ.1 q l) (le_of_lt (hpos q l))
    · rw [div_le_one (hpos q l)]
      exact quad_form_mono hY hR hYR hZ.1 q l
  exact ⟨key, key⟩

/-- Witness for C5 (amended): the two-node input. -/
theorem M_step_theta_in_unit_interval_witness :
    (∃ t, (M_step_sparse_bernoulli_undirected_nocovariate Y_two_nodes R_two_nodes
        Z_one_cluster).theta_mean 0 0 = Quo.finite t ∧ 0 ≤ t ∧ t ≤ 1)
      ∧ (∃ t, (M_step_sparse_bernoulli_directed_nocovariate Y_two_nodes R_two_nodes
        Z_one_cluster).theta_mean 0 0 = Quo.finite t ∧ 0 ≤ t ∧ t ≤ 1) := by
  refine M_step_theta_in_unit_interval Y_two_nodes R_two_nodes Z_one_cluster ?_ ?_ ?_
    ⟨?_, ?_⟩ ?_ 0 0
  · intro i j; fin_cases i <;> fin_cases j <;> simp [Y_two_nodes]
  · intro i j; fin_cases i <;> fin_cases j <;> simp [R_two_nodes]
  · intro i j; fin_cases i <;> fin_cases j <;> simp [Y_two_nodes]
  · intro i q; fin_cases i <;> fin_cases q <;> simp [Z_one_cluster]
  · intro i; fin_cases i <;> simp [Z_one_cluster]
  · intro q l
    rw [quad_form_apply]
    fin_cases q; fin_cases l
    simp [Z_one_cluster, R_two_nodes, Fin.sum_univ_succ]

end MStepNoCovTheorems

/-! ## E-step: rows of the result are probability vectors -/

section EStepTheorems

variable {N Q : ℕ}

theorem arma_max_some {α : Type} [LinearOrderedField α] (hQ : 0 < Q) (x : Fin Q → α) :
    ∃ m, arma_max x = some m := by
  unfold arma_max
  split
  · next h =>
    have hlen := congrArg List.length h
    simp at hlen
    omega
  · next a as _ => exact ⟨_, rfl⟩

end EStepTheorems

/-! ## E-step with special values: agreement with the exact reading -/

section EStepExtTheorems

variable {α : Type} [LinearOrderedField α] {N Q : ℕ}

theorem foldl_ext_add_finite {β : Type} (g : β → α) (l : List β) (a : α) :
    l.foldl (fun acc x => ext_add acc (Quo.finite (g x))) (Quo.finite a)
      = Quo.finite (a + (l.map g).sum) := by
  induction l generalizing a with
  | nil => simp
  | cons x xs ih =>
    simp only [List.foldl_cons, List.map_cons, List.sum_cons]
    rw [show ext_add (Quo.finite a) (Quo.finite (g x)) = Quo.finite (a + g x) from rfl, ih,
      add_assoc]

theorem ext_times_finite (A : Matrix (Fin N) (Fin Q) α) (L : Matrix (Fin Q) (Fin Q) α)
    (i : Fin N) (q : Fin Q) :
    ext_times A (fun l q => Quo.finite (L l q)) i q = Quo.finite ((A * L) i q) := by
  have h := foldl_ext_add_finite (fun l => A i l * L l q) (List.finRange Q) 0
  rw [zero_add, ← Fin.sum_univ_def] at h
  rw [Matrix.mul_apply]
  exact h

theorem ext_sum_finite (x : Fin Q → α) :
    ext_sum (fun l => Quo.finite (x l)) = Quo.finite (∑ l, x l) := by
  have h := foldl_ext_add_finite x (List.finRange Q) 0
  rw [zero_add, ← Fin.sum_univ_def] at h
  exact h

theorem dbl_log_finite (log : α → α) (x : α) (hx : 0 < x) :
    dbl_log log (Quo.finite x) = Quo.finite (log x) := by
  simp only [dbl_log, if_neg (not_lt_of_gt hx), if_neg (ne_of_gt hx)]

theorem log_odds_ext_finite (log : α → α) (theta : Matrix (Fin Q) (Fin Q) α)
    (htheta : ∀ q l, 0 < theta q l ∧ theta q l < 1) :
    log_odds_ext log theta = fun q l => Quo.finite (log_odds log theta q l) := by
  funext q l
  obtain ⟨h0, h1⟩ := htheta q l
  have hden : 0 < 1 - theta q l := by linarith
  unfold log_odds_ext log_odds arma_div
  rw [if_neg (ne_of_gt hden)]
  exact dbl_log_finite log _ (div_pos h0 hden)

theorem log_one_minus_ext_finite (log : α → α) (theta : Matrix (Fin Q) (Fin Q) α)
    (htheta : ∀ q l, 0 < theta q l ∧ theta q l < 1) :
    log_one_minus_ext log theta = fun q l => Quo.finite (log_one_minus log theta q l) := by
  funext q l
  obtain ⟨_, h1⟩ := htheta q l
  exact dbl_log_finite log _ (by linarith)

theorem log_tau_undirected_nocovariate_ext_finite (log : α → α)
    (Y R : Matrix (Fin N) (Fin N) α) (Z : Matrix (Fin N) (Fin Q) α)
    (theta : Matrix (Fin Q) (Fin Q) α) (pi : Fin Q → α) (log_lambda : α)
    (htheta : ∀ q l, 0 < theta q l ∧ theta q l < 1) (hpi : ∀ q, 0 < pi q)
    (i : Fin N) (q : Fin Q) :
    log_tau_undirected_nocovariate_ext log Y R Z theta pi log_lambda i q
      = Quo.finite (log_tau_undirected_nocovariate log Y R Z theta pi log_lambda i q) := by
  unfold log_tau_undirected_nocovariate_ext log_tau_undirected_nocovariate
  rw [log_odds_ext_finite log theta htheta, log_one_minus_ext_finite log theta htheta,
    ext_times_finite, ext_times_finite, dbl_log_finite log _ (hpi q)]
  rfl

theorem log_tau_directed_nocovariate_ext_finite (log : α → α)
    (Y R : Matrix (Fin N) (Fin N) α) (Z : Matrix (Fin N) (Fin Q) α)
    (theta : Matrix (Fin Q) (Fin Q) α) (pi : Fin Q → α) (log_lambda : α)
    (htheta : ∀ q l, 0 < theta q l ∧ theta q l < 1) (hpi : ∀ q, 0 < pi q)
    (i : Fin N) (q : Fin Q) :
    log_tau_directed_nocovariate_ext log Y R Z theta pi log_lambda i q
      = Quo.finite (log_tau_directed_nocovariate log Y R Z theta pi log_lambda i q) := by
  unfold log_tau_directed_nocovariate_ext log_tau_directed_nocovariate
  have e1 : ext_times (Y * Z) (fun l q => Quo.finite (log_odds log theta q l)) i q
      = Quo.finite ((Y * Z * (log_odds log theta).transpose) i q) :=
    ext_times_finite (Y * Z) (log_odds log theta).transpose i q
  have e2 : ext_times (R * Z) (fun l q => Quo.finite (log_one_minus log theta q l)) i q
      = Quo.finite ((R * Z * (log_one_minus log theta).transpose) i q) :=
    ext_times_finite (R * Z) (log_one_minus log theta).transpose i q
  rw [log_odds_ext_finite log theta htheta, log_one_minus_ext_finite log theta htheta,
    ext_times_finite (Y.transpose * Z) (log_odds log theta),
    ext_times_finite (R.transpose * Z) (log_one_minus log theta),
    dbl_log_finite log _ (hpi q)]
  simp only []
  rw [e1, e2]
  rfl

end EStepExtTheorems

section EStepExtRows

variable {α : Type} [LinearOrderedField α] {N Q : ℕ}

theorem foldl_max_ext_finite (l : List α) (a : α) :
    (l.map Quo.finite).foldl (fun m v => if ext_gt v m then v else m) (Quo.finite a)
      = Quo.finite (l.foldl max a) := by
  induction l generalizing a with
  | nil => rfl
  | cons x xs ih =>
    simp only [List.map_cons, List.foldl_cons]
    have h : (if ext_gt (Quo.finite x) (Quo.finite a) = true then Quo.finite x
        else Quo.finite a) = Quo.finite (max a x) := by
      show (if decide (a < x) = true then _ else _) = _
      by_cases hax : a < x
      · rw [if_pos (decide_eq_true hax), max_eq_right (le_of_lt hax)]
      · rw [if_neg (by rw [decide_eq_true_eq]; exact hax), max_eq_left (not_lt.mp hax)]
    rw [h, ih]

theorem arma_max_ext_finite (x : Fin Q → α) :
    arma_max_ext (fun q => Quo.finite (x q)) = (arma_max x).map Quo.finite := by
  have h : List.ofFn (fun q => Quo.finite (x q)) = (List.ofFn x).map Quo.finite := by
    rw [List.map_ofFn]
    rfl
  unfold arma_max_ext arma_max
  rw [h]
  generalize List.ofFn x = l
  cases l with
  | nil => rfl
  | cons a as =>
    simp only [List.map_cons, List.foldl_cons, Option.map_some']
    rw [show ext_gt (Quo.finite a) (Quo.negInf : Quo α) = true from rfl, if_pos rfl,
      foldl_max_ext_finite]

theorem softmax_row_ext_finite (exp : α → α) (hexp : ∀ x, 0 < exp x) (x : Fin Q → α) :
    softmax_row_ext exp (fun q => Quo.finite (x q))
      = (softmax_row exp x).map fun r q => Quo.finite (r q) := by
  unfold softmax_row_ext softmax_row
  rw [arma_max_ext_finite]
  cases arma_max x with
  | none => rfl
  | some m =>
    simp only [Option.map_some']
    congr 1
    funext q
    have hs : (ext_sum fun l => ext_exp exp (ext_sub (Quo.finite (x l)) (Quo.finite m)))
        = Quo.finite (∑ l, exp (x l - m)) := ext_sum_finite fun l => exp (x l - m)
    rw [hs]
    have hne : (∑ l, exp (x l - m)) ≠ 0 :=
      ne_of_gt (Finset.sum_pos (fun l _ => hexp _) ⟨q, Finset.mem_univ q⟩)
    show arma_div _ _ = _
    unfold arma_div
    rw [if_neg hne]

theorem log_one_plus_exp_ext_finite (exp log : α → α) (hexp : ∀ x, 0 < exp x) (z : α) :
    log_one_plus_exp_ext exp log z = Quo.finite (log (1 + exp z)) :=
  dbl_log_finite log (1 + exp z) (by have := hexp z; linarith)

theorem foldl_lift {β S T : Type} (lift : S → T) (f : S → β → S) (g : T → β → T)
    (h : ∀ s b, g (lift s) b = lift (f s b)) (l : List β) (s : S) :
    l.foldl g (lift s) = lift (l.foldl f s) := by
  induction l generalizing s with
  | nil => rfl
  | cons x xs ih => simp only [List.foldl_cons, h, ih]

theorem sub_at_ext_finite (T : Matrix (Fin N) (Fin Q) α) (i : Fin N) (q : Fin Q) (v : α) :
    sub_at_ext (fun a b => Quo.finite (T a b)) i q (Quo.finite v)
      = fun a b => Quo.finite (sub_at T i q v a b) := by
  funext a b
  unfold sub_at_ext sub_at
  split_ifs <;> rfl

theorem loop_ql_sub_ext_finite (i : Fin N) (term : Fin Q → Fin Q → α)
    (T : Matrix (Fin N) (Fin Q) α) :
    loop_ql_sub_ext i (fun q l => Quo.finite (term q l)) (fun a b => Quo.finite (T a b))
      = fun a b => Quo.finite (loop_ql_sub i term T a b) := by
  unfold loop_ql_sub_ext loop_ql_sub
  exact foldl_lift (fun (T : Matrix (Fin N) (Fin Q) α) => fun a b => Quo.finite (T a b)) _ _
    (fun T' q => foldl_lift
      (fun (T : Matrix (Fin N) (Fin Q) α) => fun a b => Quo.finite (T a b)) _ _
      (fun T'' l => sub_at_ext_finite T'' i q (term q l)) _ T') _ T

theorem log_tau_undirected_covariates_ext_shape (exp log : α → α) (hexp : ∀ x, 0 < exp x)
    (Y R M : Matrix (Fin N) (Fin N) α) (Z : Matrix (Fin N) (Fin Q) α)
    (Gamma : Matrix (Fin Q) (Fin Q) α) (pi : Fin Q → α) (log_lambda : α)
    (i : Fin N) (q : Fin Q) :
    ∃ t, log_tau_undirected_covariates_ext exp log Y R M Z Gamma pi log_lambda i q
          = ext_add (Quo.finite t) (dbl_log log (Quo.finite (pi q)))
      ∧ log_tau_undirected_covariates exp log Y R M Z Gamma pi log_lambda i q
          = t + log (pi q) := by
  have h := foldl_lift (fun (T : Matrix (Fin N) (Fin Q) α) => fun a b => Quo.finite (T a b))
    (fun T (Rij : Fin N × Fin N) => loop_ql_sub Rij.1 (fun q l =>
      Z Rij.2 l * log (1 + exp (Gamma q l + M Rij.1 Rij.2))) T)
    (fun T (Rij : Fin N × Fin N) => loop_ql_sub_ext Rij.1 (fun q l =>
      ext_mul (Quo.finite (Z Rij.2 l))
        (Quo.finite (log (1 + exp (Gamma q l + M Rij.1 Rij.2))))) T)
    (fun T' Rij => loop_ql_sub_ext_finite Rij.1 _ T') (nonzeros R)
    (fun i q => (Y * Z * Gamma) i q + log_lambda)
  refine ⟨_, ?_, rfl⟩
  unfold log_tau_undirected_covariates_ext
  simp only [log_one_plus_exp_ext_finite exp log hexp]
  rw [h]

theorem log_tau_directed_covariates_ext_shape (exp log : α → α) (hexp : ∀ x, 0 < exp x)
    (Y R M : Matrix (Fin N) (Fin N) α) (Z : Matrix (Fin N) (Fin Q) α)
    (Gamma : Matrix (Fin Q) (Fin Q) α) (pi : Fin Q → α) (log_lambda : α)
    (i : Fin N) (q : Fin Q) :
    ∃ t, log_tau_directed_covariates_ext exp log Y R M Z Gamma pi log_lambda i q
          = ext_add (Quo.finite t) (dbl_log log (Quo.finite (pi q)))
      ∧ log_tau_directed_covariates exp log Y R M Z Gamma pi log_lambda i q
          = t + log (pi q) := by
  have h := foldl_lift (fun (T : Matrix (Fin N) (Fin Q) α) => fun a b => Quo.finite (T a b))
    (fun T (Rij : Fin N × Fin N) => loop_ql_sub Rij.1 (fun q l =>
      Z Rij.2 l * (log (1 + exp (Gamma q l + M Rij.1 Rij.2))
        + log (1 + exp (Gamma l q + M Rij.2 Rij.1)))) T)
    (fun T (Rij : Fin N × Fin N) => loop_ql_sub_ext Rij.1 (fun q l =>
      ext_mul (Quo.finite (Z Rij.2 l))
        (ext_add (Quo.finite (log (1 + exp (Gamma q l + M Rij.1 Rij.2))))
          (Quo.finite (log (1 + exp (Gamma l q + M Rij.2 Rij.1)))))) T)
    (fun T' Rij => loop_ql_sub_ext_finite Rij.1 _ T') (nonzeros R)
    (fun i q => (Y * Z * Gamma.transpose) i q + (Y.transpose * Z * Gamma) i q + log_lambda)
  refine ⟨_, ?_, rfl⟩
  unfold log_tau_directed_covariates_ext
  simp only [log_one_plus_exp_ext_finite exp log hexp]
  rw [h]

theorem log_tau_undirected_covariates_ext_finite (exp log : α → α) (hexp : ∀ x, 0 < exp x)
    (Y R M : Matrix (Fin N) (Fin N) α) (Z : Matrix (Fin N) (Fin Q) α)
    (Gamma : Matrix (Fin Q) (Fin Q) α) (pi : Fin Q → α) (log_lambda : α)
    (hpi : ∀ q, 0 < pi q) (i : Fin N) (q : Fin Q) :
    log_tau_undirected_covariates_ext exp log Y R M Z Gamma pi log_lambda i q
      = Quo.finite (log_tau_undirected_covariates exp log Y R M Z Gamma pi log_lambda i q) := by
  obtain ⟨t, h1, h2⟩ :=
    log_tau_undirected_covariates_ext_shape exp log hexp Y R M Z Gamma pi log_lambda i q
  rw [h1, h2, dbl_log_finite log _ (hpi q)]
  rfl

theorem log_tau_directed_covariates_ext_finite (exp log : α → α) (hexp : ∀ x, 0 < exp x)
    (Y R M : Matrix (Fin N) (Fin N) α) (Z : Matrix (Fin N) (Fin Q) α)
    (Gamma : Matrix (Fin Q) (Fin Q) α) (pi : Fin Q → α) (log_lambda : α)
    (hpi : ∀ q, 0 < pi q) (i : Fin N) (q : Fin Q) :
    log_tau_directed_covariates_ext exp log Y R M Z Gamma pi log_lambda i q
      = Quo.finite (log_tau_directed_covariates exp log Y R M Z Gamma pi log_lambda i q) := by
  obtain ⟨t, h1, h2⟩ :=
    log_tau_directed_covariates_ext_shape exp log hexp Y R M Z Gamma pi log_lambda i q
  rw [h1, h2, dbl_log_finite log _ (hpi q)]
  rfl

/-- On inputs where every logarithm is taken at a positive argument (`theta`
strictly inside (0,1) for the no-covariate variants, `pi` strictly positive) and
for a positive `exp`, the E-steps with special values return the rows of the
exact reading, all finite. -/
theorem E_step_ext_eq_exact (exp log : α → α) (hexp : ∀ x, 0 < exp x)
    (Y R M : Matrix (Fin N) (Fin N) α) (Z : Matrix (Fin N) (Fin Q) α)
    (theta Gamma : Matrix (Fin Q) (Fin Q) α) (pi : Fin Q → α) (log_lambda : α)
    (htheta : ∀ q l, 0 < theta q l ∧ theta q l < 1) (hpi : ∀ q, 0 < pi q) (i : Fin N) :
    E_step_sparse_bernoulli_undirected_nocovariate_ext exp log Y R Z theta pi log_lambda i
        = (E_step_sparse_bernoulli_undirected_nocovariate exp log Y R Z theta pi
            log_lambda i).map (fun r q => Quo.finite (r q))
      ∧ E_step_sparse_bernoulli_directed_nocovariate_ext exp log Y R Z theta pi log_lambda i
        = (E_step_sparse_bernoulli_directed_nocovariate exp log Y R Z theta pi
            log_lambda i).map (fun r q => Quo.finite (r q))
      ∧ E_step_sparse_bernoulli_undirected_covariates_ext exp log Y R M Z Gamma pi
            log_lambda i
        = (E_step_sparse_bernoulli_undirected_covariates exp log Y R M Z Gamma pi
            log_lambda i).map (fun r q => Quo.finite (r q))
      ∧ E_step_sparse_bernoulli_directed_covariates_ext exp log Y R M Z Gamma pi
            log_lambda i
        = (E_step_sparse_bernoulli_directed_covariates exp log Y R M Z Gamma pi
            log_lambda i).map (fun r q => Quo.finite (r q)) := by
  refine ⟨?_, ?_, ?_, ?_⟩
  · unfold E_step_sparse_bernoulli_undirected_nocovariate_ext
    rw [funext (log_tau_undirected_nocovariate_ext_finite log Y R Z theta pi log_lambda
      htheta hpi i), softmax_row_ext_finite exp hexp]
    rfl
  · unfold E_step_sparse_bernoulli_directed_nocovariate_ext
    rw [funext (log_tau_directed_nocovariate_ext_finite log Y R Z theta pi log_lambda
      htheta hpi i), softmax_row_ext_finite exp hexp]
    rfl
  · unfold E_step_sparse_bernoulli_undirected_covariates_ext
    rw [funext (log_tau_undirected_covariates_ext_finite exp log hexp Y R M Z Gamma pi
      log_lambda hpi i), softmax_row_ext_finite exp hexp]
    rfl
  · unfold E_step_sparse_bernoulli_directed_covariates_ext
    rw [funext (log_tau_directed_covariates_ext_finite exp log hexp Y R M Z Gamma pi
      log_lambda hpi i), softmax_row_ext_finite exp hexp]
    rfl

end EStepExtRows

section EStepExtClaims

variable {N Q : ℕ}

end EStepExtClaims

/-! ## Covariate ELBO: directed against undirected -/

section ELBOTheorems

variable {α : Type} [LinearOrderedField α] {N Q : ℕ}

end ELBOTheorems

/-! ## The closed-form M-step maximises the no-covariate ELBO -/

section Monotone

variable {N Q : ℕ}

theorem bernoulli_gibbs {t θ : ℝ} (ht0 : 0 < t) (ht1 : t < 1) (h0 : 0 < θ) (h1 : θ < 1) :
    t * Real.log (θ / (1 - θ)) + Real.log (1 - θ)
      ≤ t * Real.log (t / (1 - t)) + Real.log (1 - t) := by
  have hθ' : 0 < 1 - θ := by linarith
  have ht' : 0 < 1 - t := by linarith
  rw [Real.log_div (ne_of_gt h0) (ne_of_gt hθ'), Real.log_div (ne_of_gt ht0) (ne_of_gt ht')]
  have e1 : Real.log (θ / t) ≤ θ / t - 1 := Real.log_le_sub_one_of_pos (div_pos h0 ht0)
  have e2 : Real.log ((1 - θ) / (1 - t)) ≤ (1 - θ) / (1 - t) - 1 :=
    Real.log_le_sub_one_of_pos (div_pos hθ' ht')
  rw [Real.log_div (ne_of_gt h0) (ne_of_gt ht0)] at e1
  rw [Real.log_div (ne_of_gt hθ') (ne_of_gt ht')] at e2
  have m1 := mul_le_mul_of_nonneg_left e1 (le_of_lt ht0)
  have m2 := mul_le_mul_of_nonneg_left e2 (le_of_lt ht')
  have c1 : t * (θ / t - 1) = θ - t := by field_simp
  have c2 : (1 - t) * ((1 - θ) / (1 - t) - 1) = (1 - θ) - (1 - t) := by field_simp
  rw [c1] at m1
  rw [c2] at m2
  nlinarith [m1, m2]

theorem categorical_gibbs (p r : Fin Q → ℝ) (hp : ∀ q, 0 < p q) (hr : ∀ q, 0 < r q)
    (hps : ∑ q, p q = 1) (hrs : ∑ q, r q = 1) :
    ∑ q, p q * Real.log (r q) ≤ ∑ q, p q * Real.log (p q) := by
  have hterm : ∀ q, p q * Real.log (r q) ≤ p q * Real.log (p q) + (r q - p q) := by
    intro q
    have e := Real.log_le_sub_one_of_pos (div_pos (hr q) (hp q))
    rw [Real.log_div (ne_of_gt (hr q)) (ne_of_gt (hp q))] at e
    have m := mul_le_mul_of_nonneg_left e (le_of_lt (hp q))
    have c : p q * (r q / p q - 1) = r q - p q := by
      have := ne_of_gt (hp q)
      field_simp
    rw [c] at m
    linarith
  calc ∑ q, p q * Real.log (r q)
      ≤ ∑ q, (p q * Real.log (p q) + (r q - p q)) :=
        Finset.sum_le_sum fun q _ => hterm q
    _ = ∑ q, p q * Real.log (p q) := by
        rw [Finset.sum_add_distrib, Finset.sum_sub_distrib, hps, hrs]; ring

theorem arma_div_finite {α : Type} [LinearOrderedField α] {a b t : α}
    (h : arma_div a b = Quo.finite t) : b ≠ 0 ∧ t = a / b := by
  unfold arma_div at h
  split_ifs at h with hb
  · injection h with h
    exact ⟨hb, h.symm⟩

theorem accu_Z_log_pi_eq (Z : Matrix (Fin N) (Fin Q) ℝ) (pi : Fin Q → ℝ) :
    accu_Z_log_pi Real.log Z pi = (N : ℝ) * ∑ q, arma_mean_cols Z q * Real.log (pi q) := by
  unfold accu_Z_log_pi arma_mean_cols
  simp only [Matrix.mulVec, Matrix.dotProduct]
  rw [Finset.sum_comm, Finset.mul_sum]
  refine Finset.sum_congr rfl fun q _ => ?_
  rw [← Finset.sum_mul]
  rcases Nat.eq_zero_or_pos N with h | h
  · subst h; simp
  · have hN : (N : ℝ) ≠ 0 := Nat.cast_ne_zero.mpr (Nat.pos_iff_ne_zero.mp h)
    field_simp

theorem arma_mean_cols_sum (hN : 0 < N) (Z : Matrix (Fin N) (Fin Q) ℝ)
    (hZ : RowStochastic Z) : ∑ q, arma_mean_cols Z q = 1 := by
  unfold arma_mean_cols
  rw [← Finset.sum_div, Finset.sum_comm]
  simp only [hZ.2, Finset.sum_const, Finset.card_univ, Fintype.card_fin, nsmul_eq_mul,
    mul_one]
  exact div_self (Nat.cast_ne_zero.mpr (Nat.pos_iff_ne_zero.mp hN))

theorem pair_terms_le (Y R : Matrix (Fin N) (Fin N) ℝ) (Z : Matrix (Fin N) (Fin Q) ℝ)
    (hR : IsBinary R) (hZ : RowStochastic Z) (thetaS theta : Matrix (Fin Q) (Fin Q) ℝ)
    (hS : ∀ q l, (M_step_sparse_bernoulli_undirected_nocovariate Y R Z).theta_mean q l
      = Quo.finite (thetaS q l))
    (hS01 : ∀ q l, 0 < thetaS q l ∧ thetaS q l < 1)
    (htheta : ∀ q l, 0 < theta q l ∧ theta q l < 1) :
    accu (schur (Z.transpose * Y * Z) (log_odds Real.log theta))
        + accu (schur (Z.transpose * R * Z) (log_one_minus Real.log theta))
      ≤ accu (schur (Z.transpose * Y * Z) (log_odds Real.log thetaS))
        + accu (schur (Z.transpose * R * Z) (log_one_minus Real.log thetaS)) := by
  unfold accu schur log_odds log_one_minus
  simp only [← Finset.sum_add_distrib]
  refine Finset.sum_le_sum fun q _ => Finset.sum_le_sum fun l _ => ?_
  obtain ⟨hB, ht⟩ := arma_div_finite (hS q l)
  have hBpos : 0 < (Z.transpose * R * Z) q l :=
    lt_of_le_of_ne (quad_form_nonneg hR hZ.1 q l) (Ne.symm hB)
  have hA : (Z.transpose * Y * Z) q l = thetaS q l * (Z.transpose * R * Z) q l := by
    rw [ht]; field_simp
  have g := bernoulli_gibbs (hS01 q l).1 (hS01 q l).2 (htheta q l).1 (htheta q l).2
  have := mul_le_mul_of_nonneg_left g (le_of_lt hBpos)
  rw [hA]
  nlinarith [this]

/-- C2: for a 0/1 matrix `R`, any `Y` (in particular 0/1 with support inside that
of `R`), row-stochastic `Z` with `N ≥ 1`, when the M-step output `theta*` is
finite with entries strictly in (0,1) and `pi*` has positive entries, the ELBO at
`(theta*, pi*)` is at least the ELBO at every `theta` with entries in (0,1) and
every probability vector `pi` with positive entries; for the undirected M-step
with the undirected no-covariate ELBO and for the directed M-step (which returns
the same `theta*`, `pi*`) with the directed one. -/
theorem M_step_nocovariate_does_not_decrease_ELBO
    (Y R : Matrix (Fin N) (Fin N) ℝ) (Z : Matrix (Fin N) (Fin Q) ℝ) (hN : 0 < N)
    (hR : IsBinary R) (hZ : RowStochastic Z) (thetaS : Matrix (Fin Q) (Fin Q) ℝ)
    (hS : ∀ q l, (M_step_sparse_bernoulli_undirected_nocovariate Y R Z).theta_mean q l
      = Quo.finite (thetaS q l))
    (hS01 : ∀ q l, 0 < thetaS q l ∧ thetaS q l < 1)
    (hpiS : ∀ q, 0 < (M_step_sparse_bernoulli_undirected_nocovariate Y R Z).pi q)
    (theta : Matrix (Fin Q) (Fin Q) ℝ) (htheta : ∀ q l, 0 < theta q l ∧ theta q l < 1)
    (pi : Fin Q → ℝ) (hpi : ∀ q, 0 < pi q) (hpisum : ∑ q, pi q = 1) :
    vLL_complete_sparse_bernoulli_undirected_nocovariate Real.log Y R Z theta pi
        ≤ vLL_complete_sparse_bernoulli_undirected_nocovariate Real.log Y R Z thetaS
            (M_step_sparse_bernoulli_undirected_nocovariate Y R Z).pi
      ∧ (∀ q l, (M_step_sparse_bernoulli_directed_nocovariate Y R Z).theta_mean q l
            = Quo.finite (thetaS q l))
      ∧ vLL_complete_sparse_bernoulli_directed_nocovariate Real.log Y R Z theta pi
        ≤ vLL_complete_sparse_bernoulli_directed_nocovariate Real.log Y R Z thetaS
            (M_step_sparse_bernoulli_directed_nocovariate Y R Z).pi := by
  have hpair := pair_terms_le Y R Z hR hZ thetaS theta hS hS01 htheta
  have hprior : accu_Z_log_pi Real.log Z pi
      ≤ accu_Z_log_pi Real.log Z (arma_mean_cols Z) := by
    rw [accu_Z_log_pi_eq, accu_Z_log_pi_eq]
    exact mul_le_mul_of_nonneg_left
      (categorical_gibbs (arma_mean_cols Z) pi hpiS hpi (arma_mean_cols_sum hN Z hZ) hpisum)
      (Nat.cast_nonneg N)
  refine ⟨?_, hS, ?_⟩
  · unfold vLL_complete_sparse_bernoulli_undirected_nocovariate
    simp only [M_step_sparse_bernoulli_undirected_nocovariate]
    linarith
  · unfold vLL_complete_sparse_bernoulli_directed_nocovariate
    simp only [M_step_sparse_bernoulli_directed_nocovariate]
    linarith

/-- Witness for C2: two nodes in one cluster, both dyads observed, one edge;
the M-step gives `theta* = 1/2`, `pi* = [1]`; compared with `theta = 1/3`. -/
theorem M_step_nocovariate_does_not_decrease_ELBO_witness :
    vLL_complete_sparse_bernoulli_undirected_nocovariate Real.log (mat_two ℝ 0 1 0 0)
          (mat_two ℝ 0 1 1 0) (col_ones ℝ) (mat_one ℝ (1 / 3)) (fun _ => 1)
        ≤ vLL_complete_sparse_bernoulli_undirected_nocovariate Real.log (mat_two ℝ 0 1 0 0)
          (mat_two ℝ 0 1 1 0) (col_ones ℝ) (mat_one ℝ (1 / 2))
          (M_step_sparse_bernoulli_undirected_nocovariate (mat_two ℝ 0 1 0 0)
            (mat_two ℝ 0 1 1 0) (col_ones ℝ)).pi
      ∧ (∀ q l, (M_step_sparse_bernoulli_directed_nocovariate (mat_two ℝ 0 1 0 0)
            (mat_two ℝ 0 1 1 0) (col_ones ℝ)).theta_mean q l
            = Quo.finite (mat_one ℝ (1 / 2) q l))
      ∧ vLL_complete_sparse_bernoulli_directed_nocovariate Real.log (mat_two ℝ 0 1 0 0)
          (mat_two ℝ 0 1 1 0) (col_ones ℝ) (mat_one ℝ (1 / 3)) (fun _ => 1)
        ≤ vLL_complete_sparse_bernoulli_directed_nocovariate Real.log (mat_two ℝ 0 1 0 0)
          (mat_two ℝ 0 1 1 0) (col_ones ℝ) (mat_one ℝ (1 / 2))
          (M_step_sparse_bernoulli_directed_nocovariate (mat_two ℝ 0 1 0 0)
            (mat_two ℝ 0 1 1 0) (col_ones ℝ)).pi := by
  apply M_step_nocovariate_does_not_decrease_ELBO
  · decide
  · intro i j; fin_cases i <;> fin_cases j <;> simp [mat_two]
  · exact ⟨fun i q => by simp [col_ones], fun i => by simp [col_ones]⟩
  · intro q l
    simp only [M_step_sparse_bernoulli_undirected_nocovariate, quad_form_apply]
    simp [Fin.sum_univ_succ, mat_two, col_ones, mat_one, arma_div]
    norm_num
  · intro q l; simp only [mat_one]; constructor <;> norm_num
  · intro q
    simp [M_step_sparse_bernoulli_undirected_nocovariate, arma_mean_cols, col_ones]
  · intro q l; simp only [mat_one]; constructor <;> norm_num
  · intro q; norm_num
  · simp

end Monotone

/-! ## NLopt wrapper: algorithm lookup and construction failures -/

section NloptTheorems

theorem algorithm_from_name_eq (name : String) :
    algorithm_from_name name =
      if name = "LBFGS_NOCEDAL" then Except.ok nlopt_algorithm.NLOPT_LD_LBFGS_NOCEDAL
      else if name = "LBFGS" then Except.ok nlopt_algorithm.NLOPT_LD_LBFGS
      else if name = "VAR1" then Except.ok nlopt_algorithm.NLOPT_LD_VAR1
      else if name = "VAR2" then Except.ok nlopt_algorithm.NLOPT_LD_VAR2
      else if name = "TNEWTON" then Except.ok nlopt_algorithm.NLOPT_LD_TNEWTON
      else if name = "TNEWTON_RESTART" then Except.ok nlopt_algorithm.NLOPT_LD_TNEWTON_RESTART
      else if name = "TNEWTON_PRECOND" then Except.ok nlopt_algorithm.NLOPT_LD_TNEWTON_PRECOND
      else if name = "TNEWTON_PRECOND_RESTART" then
        Except.ok nlopt_algorithm.NLOPT_LD_TNEWTON_PRECOND_RESTART
      else if name = "MMA" then Except.ok nlopt_algorithm.NLOPT_LD_MMA
      else if name = "CCSAQ" then Except.ok nlopt_algorithm.NLOPT_LD_CCSAQ
      else Except.error (unsupported_algorithm_message name) := by
  unfold algorithm_from_name supported_algorithms
  split_ifs with h1 h2 h3 h4 h5 h6 h7 h8 h9 h10
  all_goals first
    | (subst_vars; rfl)
    | simp [List.find?_cons, *]

theorem algorithm_from_name_error_iff (name : String) :
    (∃ msg, algorithm_from_name name = Except.error msg)
      ↔ name ∉ ["LBFGS_NOCEDAL", "LBFGS", "VAR1", "VAR2", "TNEWTON", "TNEWTON_RESTART",
          "TNEWTON_PRECOND", "TNEWTON_PRECOND_RESTART", "MMA", "CCSAQ"] := by
  rw [algorithm_from_name_eq]
  constructor
  · rintro ⟨msg, h⟩
    split_ifs at h
    simp [*]
  · intro h
    simp only [List.mem_cons, List.mem_singleton, not_or, List.mem_nil_iff, not_false_eq_true,
      and_true] at h
    obtain ⟨h1, h2, h3, h4, h5, h6, h7, h8, h9, h10⟩ := h
    exact ⟨unsupported_algorithm_message name,
      by simp only [h1, h2, h3, h4, h5, h6, h7, h8, h9, h10, if_false]⟩

theorem algorithm_from_name_unsupported (name : String)
    (h : name ∉ ["LBFGS_NOCEDAL", "LBFGS", "VAR1", "VAR2", "TNEWTON", "TNEWTON_RESTART",
          "TNEWTON_PRECOND", "TNEWTON_PRECOND_RESTART", "MMA", "CCSAQ"]) :
    algorithm_from_name name = Except.error (unsupported_algorithm_message name) := by
  rw [algorithm_from_name_eq]
  simp only [List.mem_cons, List.mem_singleton, not_or, List.mem_nil_iff, not_false_eq_true,
    and_true] at h
  obtain ⟨h1, h2, h3, h4, h5, h6, h7, h8, h9, h10⟩ := h
  simp only [h1, h2, h3, h4, h5, h6, h7, h8, h9, h10, if_false]

theorem unsupported_message_shape (name : String) :
    ∃ rest, unsupported_algorithm_message name = "Unsupported algorithm name: " ++ rest := by
  unfold unsupported_algorithm_message supported_algorithms
  simp only [List.foldl_cons, List.foldl_nil, String.append_assoc]
  exact ⟨_, rfl⟩

theorem apply_option_error {Opt β : Type} {entry : Option β} {setter : Opt → β → Int × Opt}
    {context : String} {opt : Opt} {msg : String}
    (h : apply_option entry setter context opt = Except.error msg) : msg = context := by
  unfold apply_option at h
  split at h
  · cases h
  · split_ifs at h
    injection h with h
    exact h.symm

theorem new_nlopt_optimizer_errors {Opt α : Type} (api : NloptApi Opt α)
    (config : Configuration α) (size : ℕ) (name : String) (alg : nlopt_algorithm)
    (hc : config.algorithm = some name) (h : algorithm_from_name name = Except.ok alg)
    (msg : String) (hmsg : new_nlopt_optimizer api config size = Except.error msg) :
    msg ∈ ["nlopt_create", "nlopt_set_xtol_rel", "nlopt_set_xtol_abs", "nlopt_set_ftol_abs",
      "nlopt_set_ftol_rel", "nlopt_set_maxeval", "nlopt_set_maxtime"] := by
  unfold new_nlopt_optimizer at hmsg
  simp only [hc, h, bind, Except.bind, pure, Except.pure] at hmsg
  cases hcr : api.nlopt_create alg size with
  | none => simp only [hcr] at hmsg; injection hmsg with hmsg; simp [← hmsg]
  | some opt =>
    simp only [hcr] at hmsg
    repeat
      split at hmsg
      · next e he =>
        injection hmsg with hmsg
        have := apply_option_error he
        simp [← hmsg, this]
    cases hmsg

theorem new_nlopt_optimizer_unsupported {Opt α : Type} (api : NloptApi Opt α)
    (config : Configuration α) (size : ℕ) (name : String)
    (hc : config.algorithm = some name)
    (h : name ∉ ["LBFGS_NOCEDAL", "LBFGS", "VAR1", "VAR2", "TNEWTON", "TNEWTON_RESTART",
          "TNEWTON_PRECOND", "TNEWTON_PRECOND_RESTART", "MMA", "CCSAQ"]) :
    new_nlopt_optimizer api config size
      = Except.error (unsupported_algorithm_message name) := by
  unfold new_nlopt_optimizer
  simp only [hc, algorithm_from_name_unsupported name h, bind, Except.bind]

theorem setup_message_ne_unsupported (msg rest : String)
    (h : msg ∈ ["nlopt_create", "nlopt_set_xtol_rel", "nlopt_set_xtol_abs",
      "nlopt_set_ftol_abs", "nlopt_set_ftol_rel", "nlopt_set_maxeval", "nlopt_set_maxtime"]) :
    msg ≠ "Unsupported algorithm name: " ++ rest := by
  intro e
  have hd := congrArg String.data e
  simp only [List.mem_cons, List.mem_singleton, List.mem_nil_iff, or_false] at h
  rcases h with h | h | h | h | h | h | h <;> subst h <;>
    simp [String.data_append] at hd

/-- C9: `algorithm_from_name` raises an exception exactly when `name` is not
(case-sensitively) one of the ten supported names, and the exception then carries
the "Unsupported algorithm name" message; each of the ten names returns the
NLopt enumerator `NLOPT_LD_<name>`; the ten enumerators are pairwise distinct;
and `new_nlopt_optimizer`, for a configuration whose algorithm entry is `name`,
raises that exception exactly when `name` is not one of the ten. -/
theorem algorithm_from_name_spec (name : String) :
    ((∃ msg, algorithm_from_name name = Except.error msg)
        ↔ name ∉ ["LBFGS_NOCEDAL", "LBFGS", "VAR1", "VAR2", "TNEWTON", "TNEWTON_RESTART",
            "TNEWTON_PRECOND", "TNEWTON_PRECOND_RESTART", "MMA", "CCSAQ"])
      ∧ (∀ msg, algorithm_from_name name = Except.error msg →
          msg = unsupported_algorithm_message name
            ∧ ∃ rest, msg = "Unsupported algorithm name: " ++ rest)
      ∧ algorithm_from_name "LBFGS_NOCEDAL" = Except.ok nlopt_algorithm.NLOPT_LD_LBFGS_NOCEDAL
      ∧ algorithm_from_name "LBFGS" = Except.ok nlopt_algorithm.NLOPT_LD_LBFGS
      ∧ algorithm_from_name "VAR1" = Except.ok nlopt_algorithm.NLOPT_LD_VAR1
      ∧ algorithm_from_name "VAR2" = Except.ok nlopt_algorithm.NLOPT_LD_VAR2
      ∧ algorithm_from_name "TNEWTON" = Except.ok nlopt_algorithm.NLOPT_LD_TNEWTON
      ∧ algorithm_from_name "TNEWTON_RESTART"
          = Except.ok nlopt_algorithm.NLOPT_LD_TNEWTON_RESTART
      ∧ algorithm_from_name "TNEWTON_PRECOND"
          = Except.ok nlopt_algorithm.NLOPT_LD_TNEWTON_PRECOND
      ∧ algorithm_from_name "TNEWTON_PRECOND_RESTART"
          = Except.ok nlopt_algorithm.NLOPT_LD_TNEWTON_PRECOND_RESTART
      ∧ algorithm_from_name "MMA" = Except.ok nlopt_algorithm.NLOPT_LD_MMA
      ∧ algorithm_from_name "CCSAQ" = Except.ok nlopt_algorithm.NLOPT_LD_CCSAQ
      ∧ (supported_algorithms.map Prod.snd).Nodup
      ∧ (∀ (Opt α : Type) (api : NloptApi Opt α) (config : Configuration α) (size : ℕ),
          config.algorithm = some name →
          ((∃ rest, new_nlopt_optimizer api config size
              = Except.error ("Unsupported algorithm name: " ++ rest))
            ↔ name ∉ ["LBFGS_NOCEDAL", "LBFGS", "VAR1", "VAR2", "TNEWTON",
                "TNEWTON_RESTART", "TNEWTON_PRECOND", "TNEWTON_PRECOND_RESTART", "MMA",
                "CCSAQ"])) := by
  refine ⟨algorithm_from_name_error_iff name, ?_, rfl, rfl, rfl, rfl, rfl, rfl, rfl, rfl,
    rfl, rfl, by decide, ?_⟩
  · intro msg h
    have hn := (algorithm_from_name_error_iff name).mp ⟨msg, h⟩
    rw [algorithm_from_name_unsupported name hn] at h
    injection h with h
    rw [← h]
    exact ⟨rfl, unsupported_message_shape name⟩
  · intro Opt α api config size hc
    constructor
    · rintro ⟨rest, hr⟩
      by_contra hin
      have hok : ∃ alg, algorithm_from_name name = Except.ok alg := by
        cases hres : algorithm_from_name name with
        | ok alg => exact ⟨alg, rfl⟩
        | error msg => exact absurd hin ((algorithm_from_name_error_iff name).mp ⟨msg, hres⟩)
      obtain ⟨alg, halg⟩ := hok
      exact setup_message_ne_unsupported _ rest
        (new_nlopt_optimizer_errors api config size name alg hc halg _ hr) rfl
    · intro hn
      obtain ⟨rest, hrest⟩ := unsupported_message_shape name
      exact ⟨rest, by rw [new_nlopt_optimizer_unsupported api config size name hc hn, hrest]⟩

/-- C10: for every `init_param = (init_Gamma, init_beta)`, `Y`, `R`, `X`, `Z`,
every behaviour of the NLopt library and of the optimizer run, and every
configuration whose algorithm name is not in the supported set, both covariate
M-steps return the exception raised by `new_nlopt_optimizer` (the "Unsupported
algorithm name" message) and no result; the outcome is the same for every
`minimize_objective_on_parameters`, which is never reached. -/
theorem M_step_covariates_unsupported_algorithm {Opt α : Type} [LinearOrderedField α]
    {N Q K : ℕ} (exp log : α → α) (api : NloptApi Opt α)
    (minimize_objective_on_parameters : Minimizer Opt α)
    (init_Gamma : Matrix (Fin Q) (Fin Q) α) (init_beta : Fin K → α)
    (Y R : Matrix (Fin N) (Fin N) α) (X : Fin N → Fin N → Fin K → α)
    (Z : Matrix (Fin N) (Fin Q) α) (configuration : Configuration α) (name : String)
    (hc : configuration.algorithm = some name)
    (hname : name ∉ ["LBFGS_NOCEDAL", "LBFGS", "VAR1", "VAR2", "TNEWTON", "TNEWTON_RESTART",
          "TNEWTON_PRECOND", "TNEWTON_PRECOND_RESTART", "MMA", "CCSAQ"]) :
    new_nlopt_optimizer api configuration (packed_size Q K)
        = Except.error (unsupported_algorithm_message name)
      ∧ M_step_sparse_bernoulli_undirected_covariates exp log api
          minimize_objective_on_parameters init_Gamma init_beta Y R X Z configuration
        = Except.error (unsupported_algorithm_message name)
      ∧ M_step_sparse_bernoulli_directed_covariates exp log api
          minimize_objective_on_parameters init_Gamma init_beta Y R X Z configuration
        = Except.error (unsupported_algorithm_message name) := by
  have h := new_nlopt_optimizer_unsupported api configuration (packed_size Q K) name hc hname
  refine ⟨h, ?_, ?_⟩
  · unfold M_step_sparse_bernoulli_undirected_covariates
    simp only [h, bind, Except.bind]
  · unfold M_step_sparse_bernoulli_directed_covariates
    simp only [h, bind, Except.bind]

/-- Witness for C10: `algorithm = "UNKNOWN"`, one node, one cluster, one
covariate, a library whose calls all succeed and an optimizer run that would
evaluate the callback. -/
theorem M_step_covariates_unsupported_algorithm_witness :
    new_nlopt_optimizer (unit_api ℝ) (unknown_config ℝ) (packed_size 1 1)
        = Except.error (unsupported_algorithm_message "UNKNOWN")
      ∧ M_step_sparse_bernoulli_undirected_covariates Real.exp Real.log (unit_api ℝ)
          (one_eval_minimizer ℝ) (mat_one ℝ 0) (fun _ : Fin 1 => 0) (mat_one ℝ 0)
          (mat_one ℝ 0) (fun _ _ _ => 0) (mat_one ℝ 1) (unknown_config ℝ)
        = Except.error (unsupported_algorithm_message "UNKNOWN")
      ∧ M_step_sparse_bernoulli_directed_covariates Real.exp Real.log (unit_api ℝ)
          (one_eval_minimizer ℝ) (mat_one ℝ 0) (fun _ : Fin 1 => 0) (mat_one ℝ 0)
          (mat_one ℝ 0) (fun _ _ _ => 0) (mat_one ℝ 1) (unknown_config ℝ)
        = Except.error (unsupported_algorithm_message "UNKNOWN") :=
  M_step_covariates_unsupported_algorithm Real.exp Real.log (unit_api ℝ)
    (one_eval_minimizer ℝ) (mat_one ℝ 0) (fun _ : Fin 1 => 0) (mat_one ℝ 0) (mat_one ℝ 0)
    (fun _ _ _ => 0) (mat_one ℝ 1) (unknown_config ℝ) "UNKNOWN" rfl (by decide)

end NloptTheorems

/-! ## Parameter packing: reading back what was written -/

section PackingTheorems

variable {α : Type} {Q K : ℕ}

theorem gamma_index_lt (q l : Fin Q) : q.val + l.val * Q < Q * Q := by
  have hq := q.isLt
  have hl : (l.val + 1) * Q ≤ Q * Q := Nat.mul_le_mul_right Q l.isLt
  rw [Nat.add_mul, Nat.one_mul] at hl
  omega

theorem map_GAMMA_assign (buf : Buffer α) (G : Matrix (Fin Q) (Fin Q) α) (b : Fin K → α) :
    map_GAMMA (assign_BETA (Q := Q) (assign_GAMMA buf G) b) = G := by
  funext q l
  have hlt := gamma_index_lt q l
  have hQ : 0 < Q := Fin.pos q
  unfold map_GAMMA assign_BETA assign_GAMMA offset_BETA offset_GAMMA
  have h1 : ¬ (Q * Q ≤ 0 + (q.val + l.val * Q) ∧ 0 + (q.val + l.val * Q) < Q * Q + K) := by
    omega
  have h2 : 0 ≤ 0 + (q.val + l.val * Q) ∧ 0 + (q.val + l.val * Q) < 0 + Q * Q := by omega
  rw [dif_neg h1, dif_pos h2]
  congr 1
  · apply Fin.ext
    simp only [Nat.zero_add, Nat.sub_zero, Nat.add_mul_mod_self_right]
    exact Nat.mod_eq_of_lt q.isLt
  · apply Fin.ext
    simp only [Nat.zero_add, Nat.sub_zero]
    rw [Nat.add_mul_div_right _ _ hQ, Nat.div_eq_of_lt q.isLt, Nat.zero_add]

theorem map_BETA_assign (buf : Buffer α) (b : Fin K → α) :
    map_BETA (Q := Q) (assign_BETA (Q := Q) buf b) = b := by
  funext k
  have hk := k.isLt
  unfold map_BETA assign_BETA
  have h1 : offset_BETA Q ≤ offset_BETA Q + k.val
      ∧ offset_BETA Q + k.val < offset_BETA Q + K := by
    omega
  rw [dif_pos h1]
  congr 1
  apply Fin.ext
  simp

end PackingTheorems

/-! ## Covariate M-step: the objective and its gradient -/

section MStepCovTheorems

variable {α : Type} [LinearOrderedField α] {N Q K : ℕ}

theorem dyad_update_add (exp log : α → α) (Y : Matrix (Fin N) (Fin N) α)
    (X : Fin N → Fin N → Fin K → α) (Z : Matrix (Fin N) (Fin Q) α)
    (gamma : Matrix (Fin Q) (Fin Q) α) (beta : Fin K → α) (i j : Fin N)
    (st : ObjState Q K α) :
    dyad_update exp log Y X Z gamma beta i j st
      = st + dyad_update exp log Y X Z gamma beta i j 0 := by
  unfold dyad_update
  simp only [Prod.fst_zero, Prod.snd_zero, zero_add]
  rfl

theorem objective_state_undirected (exp log : α → α) (Y R : Matrix (Fin N) (Fin N) α)
    (X : Fin N → Fin N → Fin K → α) (Z : Matrix (Fin N) (Fin Q) α)
    (gamma : Matrix (Fin Q) (Fin Q) α) (beta : Fin K → α) :
    (nonzeros R).foldl (fun st Rij =>
        if Rij.1 > Rij.2 then dyad_update exp log Y X Z gamma beta Rij.1 Rij.2 st else st)
        ((0, 0, 0) : ObjState Q K α)
      = ∑ j, ∑ i, if R i j ≠ 0 then
          (if i > j then dyad_update exp log Y X Z gamma beta i j 0 else 0) else 0 := by
  rw [foldl_nonzeros_eq R (fun x =>
    if x.1 > x.2 then dyad_update exp log Y X Z gamma beta x.1 x.2 0 else 0)]
  · exact zero_add _
  · intro a x
    by_cases hx : x.1 > x.2
    · simp only [hx, if_true]; exact dyad_update_add exp log Y X Z gamma beta x.1 x.2 a
    · simp only [hx, if_false, add_zero]

theorem objective_state_directed (exp log : α → α) (Y R : Matrix (Fin N) (Fin N) α)
    (X : Fin N → Fin N → Fin K → α) (Z : Matrix (Fin N) (Fin Q) α)
    (gamma : Matrix (Fin Q) (Fin Q) α) (beta : Fin K → α) :
    (nonzeros R).foldl (fun st Rij =>
        dyad_update exp log Y X Z gamma beta Rij.1 Rij.2 st)
        ((0, 0, 0) : ObjState Q K α)
      = ∑ j, ∑ i, if R i j ≠ 0 then dyad_update exp log Y X Z gamma beta i j 0 else 0 := by
  rw [foldl_nonzeros_eq R (fun x => dyad_update exp log Y X Z gamma beta x.1 x.2 0)]
  · exact zero_add _
  · intro a x
    exact dyad_update_add exp log Y X Z gamma beta x.1 x.2 a

theorem dyad_update_fst (exp log : α → α) (Y : Matrix (Fin N) (Fin N) α)
    (X : Fin N → Fin N → Fin K → α) (Z : Matrix (Fin N) (Fin Q) α)
    (gamma : Matrix (Fin Q) (Fin Q) α) (beta : Fin K → α) (i j : Fin N) :
    (dyad_update exp log Y X Z gamma beta i j 0).1
      = ∑ q, ∑ l, Z i q * Z j l * (Y i j * (gamma q l + linear_predictor beta X i j)
          - log (1 + exp (gamma q l + linear_predictor beta X i j))) := by
  unfold dyad_update accu schur linear_predictor Matrix.dotProduct
  simp only [Prod.fst_zero, zero_add]

theorem objective_undirected_value (exp log : α → α) (Y R : Matrix (Fin N) (Fin N) α)
    (X : Fin N → Fin N → Fin K → α) (Z : Matrix (Fin N) (Fin Q) α)
    (params grad : Buffer α) :
    (objective_and_grad_undirected (Q := Q) (K := K) exp log Y R X Z params grad).1
      = -∑ j, ∑ i, if R i j ≠ 0 then (if i > j then
          ∑ q, ∑ l, Z i q * Z j l *
            (Y i j * (map_GAMMA params q l
                + linear_predictor (map_BETA (Q := Q) (K := K) params) X i j)
              - log (1 + exp (map_GAMMA params q l
                + linear_predictor (map_BETA (Q := Q) (K := K) params) X i j)))
          else 0) else 0 := by
  unfold objective_and_grad_undirected
  simp only [objective_state_undirected]
  rw [Prod.fst_sum]
  congr 1
  refine Finset.sum_congr rfl fun j _ => ?_
  rw [Prod.fst_sum]
  refine Finset.sum_congr rfl fun i _ => ?_
  split_ifs
  · exact dyad_update_fst exp log Y X Z _ _ i j
  · rfl
  · rfl

theorem objective_directed_value (exp log : α → α) (Y R : Matrix (Fin N) (Fin N) α)
    (X : Fin N → Fin N → Fin K → α) (Z : Matrix (Fin N) (Fin Q) α)
    (params grad : Buffer α) :
    (objective_and_grad_directed (Q := Q) (K := K) exp log Y R X Z params grad).1
      = -∑ j, ∑ i, if R i j ≠ 0 then
          ∑ q, ∑ l, Z i q * Z j l *
            (Y i j * (map_GAMMA params q l
                + linear_predictor (map_BETA (Q := Q) (K := K) params) X i j)
              - log (1 + exp (map_GAMMA params q l
                + linear_predictor (map_BETA (Q := Q) (K := K) params) X i j)))
          else 0 := by
  unfold objective_and_grad_directed
  simp only [objective_state_directed]
  rw [Prod.fst_sum]
  congr 1
  refine Finset.sum_congr rfl fun j _ => ?_
  rw [Prod.fst_sum]
  refine Finset.sum_congr rfl fun i _ => ?_
  split_ifs
  · exact dyad_update_fst exp log Y X Z _ _ i j
  · rfl

end MStepCovTheorems

section GradientForms

variable {α : Type} [LinearOrderedField α] {N Q K : ℕ}

theorem dyad_update_gr_gamma (exp log : α → α) (Y : Matrix (Fin N) (Fin N) α)
    (X : Fin N → Fin N → Fin K → α) (Z : Matrix (Fin N) (Fin Q) α)
    (gamma : Matrix (Fin Q) (Fin Q) α) (beta : Fin K → α) (i j : Fin N) (q l : Fin Q) :
    (dyad_update exp log Y X Z gamma beta i j 0).2.1 q l
      = Z i q * Z j l
        * (Y i j - 1 / (1 + exp (-(gamma q l + linear_predictor beta X i j)))) := by
  unfold dyad_update schur linear_predictor Matrix.dotProduct
  simp only [Prod.fst_zero, Prod.snd_zero, zero_add]

theorem dyad_update_gr_beta (exp log : α → α) (Y : Matrix (Fin N) (Fin N) α)
    (X : Fin N → Fin N → Fin K → α) (Z : Matrix (Fin N) (Fin Q) α)
    (gamma : Matrix (Fin Q) (Fin Q) α) (beta : Fin K → α) (i j : Fin N) (k : Fin K) :
    (dyad_update exp log Y X Z gamma beta i j 0).2.2 k
      = (∑ q, ∑ l, Z i q * Z j l
          * (Y i j - 1 / (1 + exp (-(gamma q l + linear_predictor beta X i j))))) * X i j k := by
  unfold dyad_update schur accu linear_predictor Matrix.dotProduct
  simp only [Prod.fst_zero, Prod.snd_zero, zero_add]

theorem sum_state_gr_gamma (f : Fin N → Fin N → ObjState Q K α) (q l : Fin Q) :
    (∑ j, ∑ i, f i j).2.1 q l = ∑ j, ∑ i, (f i j).2.1 q l := by
  simp only [Prod.snd_sum, Prod.fst_sum, Matrix.sum_apply]

theorem sum_state_gr_beta (f : Fin N → Fin N → ObjState Q K α) (k : Fin K) :
    (∑ j, ∑ i, f i j).2.2 k = ∑ j, ∑ i, (f i j).2.2 k := by
  simp only [Prod.snd_sum, Finset.sum_apply]

theorem objective_undirected_gr_gamma (exp log : α → α) (Y R : Matrix (Fin N) (Fin N) α)
    (X : Fin N → Fin N → Fin K → α) (Z : Matrix (Fin N) (Fin Q) α)
    (params grad : Buffer α) (q l : Fin Q) :
    map_GAMMA (objective_and_grad_undirected (Q := Q) (K := K) exp log Y R X Z params grad).2
        q l
      = -∑ j, ∑ i, if R i j ≠ 0 then (if i > j then
          Z i q * Z j l * (Y i j - 1 / (1 + exp (-(map_GAMMA params q l
            + linear_predictor (map_BETA (Q := Q) (K := K) params) X i j))))
          else 0) else 0 := by
  unfold objective_and_grad_undirected
  simp only [objective_state_undirected, map_GAMMA_assign]
  rw [Matrix.neg_apply, sum_state_gr_gamma]
  congr 1
  refine Finset.sum_congr rfl fun j _ => Finset.sum_congr rfl fun i _ => ?_
  split_ifs
  · exact dyad_update_gr_gamma exp log Y X Z _ _ i j q l
  · rfl
  · rfl

theorem objective_undirected_gr_beta (exp log : α → α) (Y R : Matrix (Fin N) (Fin N) α)
    (X : Fin N → Fin N → Fin K → α) (Z : Matrix (Fin N) (Fin Q) α)
    (params grad : Buffer α) (k : Fin K) :
    map_BETA (Q := Q)
        (objective_and_grad_undirected (Q := Q) (K := K) exp log Y R X Z params grad).2 k
      = -∑ j, ∑ i, if R i j ≠ 0 then (if i > j then
          (∑ q, ∑ l, Z i q * Z j l * (Y i j - 1 / (1 + exp (-(map_GAMMA params q l
            + linear_predictor (map_BETA (Q := Q) (K := K) params) X i j))))) * X i j k
          else 0) else 0 := by
  unfold objective_and_grad_undirected
  simp only [objective_state_undirected, map_BETA_assign]
  rw [Pi.neg_apply, sum_state_gr_beta]
  congr 1
  refine Finset.sum_congr rfl fun j _ => Finset.sum_congr rfl fun i _ => ?_
  split_ifs
  · exact dyad_update_gr_beta exp log Y X Z _ _ i j k
  · rfl
  · rfl

theorem objective_directed_gr_gamma (exp log : α → α) (Y R : Matrix (Fin N) (Fin N) α)
    (X : Fin N → Fin N → Fin K → α) (Z : Matrix (Fin N) (Fin Q) α)
    (params grad : Buffer α) (q l : Fin Q) :
    map_GAMMA (objective_and_grad_directed (Q := Q) (K := K) exp log Y R X Z params grad).2
        q l
      = -∑ j, ∑ i, if R i j ≠ 0 then
          Z i q * Z j l * (Y i j - 1 / (1 + exp (-(map_GAMMA params q l
            + linear_predictor (map_BETA (Q := Q) (K := K) params) X i j))))
          else 0 := by
  unfold objective_and_grad_directed
  simp only [objective_state_directed, map_GAMMA_assign]
  rw [Matrix.neg_apply, sum_state_gr_gamma]
  congr 1
  refine Finset.sum_congr rfl fun j _ => Finset.sum_congr rfl fun i _ => ?_
  split_ifs
  · exact dyad_update_gr_gamma exp log Y X Z _ _ i j q l
  · rfl

theorem objective_directed_gr_beta (exp log : α → α) (Y R : Matrix (Fin N) (Fin N) α)
    (X : Fin N → Fin N → Fin K → α) (Z : Matrix (Fin N) (Fin Q) α)
    (params grad : Buffer α) (k : Fin K) :
    map_BETA (Q := Q)
        (objective_and_grad_directed (Q := Q) (K := K) exp log Y R X Z params grad).2 k
      = -∑ j, ∑ i, if R i j ≠ 0 then
          (∑ q, ∑ l, Z i q * Z j l * (Y i j - 1 / (1 + exp (-(map_GAMMA params q l
            + linear_predictor (map_BETA (Q := Q) (K := K) params) X i j))))) * X i j k
          else 0 := by
  unfold objective_and_grad_directed
  simp only [objective_state_directed, map_BETA_assign]
  rw [Pi.neg_apply, sum_state_gr_beta]
  congr 1
  refine Finset.sum_congr rfl fun j _ => Finset.sum_congr rfl fun i _ => ?_
  split_ifs
  · exact dyad_update_gr_beta exp log Y X Z _ _ i j k
  · rfl

end GradientForms

/-! ## The callback's gradient is the gradient of its value -/

section GradientTheorems

variable {N Q K : ℕ}

theorem hasDerivAt_softplus_term (y : ℝ) {c : ℝ → ℝ} {c' t0 : ℝ} (hc : HasDerivAt c c' t0) :
    HasDerivAt (fun t => y * c t - Real.log (1 + Real.exp (c t)))
      ((y - 1 / (1 + Real.exp (-(c t0)))) * c') t0 := by
  have h1 := hc.const_mul y
  have h2 := (hc.exp).const_add 1
  have hpos : 1 + Real.exp (c t0) ≠ 0 := by positivity
  have h3 := h2.log hpos
  have h4 := h1.sub h3
  convert h4 using 1
  rw [Real.exp_neg]
  have := Real.exp_pos (c t0)
  field_simp
  ring

theorem hasDerivAt_dyad (a : Fin Q → Fin Q → ℝ) (y : ℝ) (c : Fin Q → Fin Q → ℝ → ℝ)
    (c' : Fin Q → Fin Q → ℝ) (t0 : ℝ) (hc : ∀ q l, HasDerivAt (c q l) (c' q l) t0) :
    HasDerivAt (fun t => ∑ q, ∑ l, a q l * (y * c q l t - Real.log (1 + Real.exp (c q l t))))
      (∑ q, ∑ l, a q l * (y - 1 / (1 + Real.exp (-(c q l t0)))) * c' q l) t0 := by
  refine HasDerivAt.sum fun q _ => HasDerivAt.sum fun l _ => ?_
  have := (hasDerivAt_softplus_term y (hc q l)).const_mul (a q l)
  convert this using 1
  ring

theorem hasDerivAt_ite_zero (p : Prop) [Decidable p] {f : ℝ → ℝ} {f' t0 : ℝ}
    (hf : HasDerivAt f f' t0) :
    HasDerivAt (fun t => if p then f t else 0) (if p then f' else 0) t0 := by
  by_cases h : p
  · simpa only [h, if_true] using hf
  · simpa only [h, if_false] using hasDerivAt_const t0 (0 : ℝ)

theorem hasDerivAt_set_entry (Gamma : Matrix (Fin Q) (Fin Q) ℝ) (q l a b : Fin Q) (m t0 : ℝ) :
    HasDerivAt (fun t => set_entry Gamma q l t a b + m) (if a = q ∧ b = l then 1 else 0) t0 := by
  unfold set_entry
  by_cases h : a = q ∧ b = l
  · simp only [h, and_self, if_true]
    exact (hasDerivAt_id t0).add_const m
  · simp only [h, if_false]
    exact hasDerivAt_const t0 _

theorem hasDerivAt_linear_predictor (beta : Fin K → ℝ) (X : Fin N → Fin N → Fin K → ℝ)
    (k : Fin K) (i j : Fin N) (g t0 : ℝ) :
    HasDerivAt (fun t => g + linear_predictor (set_coord beta k t) X i j) (X i j k) t0 := by
  unfold linear_predictor set_coord
  have h : ∀ k' ∈ (Finset.univ : Finset (Fin K)),
      HasDerivAt (fun t => (if k' = k then t else beta k') * X i j k')
        (if k' = k then X i j k' else 0) t0 := by
    intro k' _
    by_cases hk : k' = k
    · simp only [hk, if_true]
      simpa using (hasDerivAt_id t0).mul_const (X i j k)
    · simp only [hk, if_false]
      exact hasDerivAt_const t0 _
  have hs := (HasDerivAt.sum h).const_add g
  convert hs using 1
  simp [Finset.sum_ite_eq']

theorem hasDerivAt_lower_sum (R : Matrix (Fin N) (Fin N) ℝ) (G : Fin N → Fin N → ℝ → ℝ)
    (G' : Fin N → Fin N → ℝ) (t0 : ℝ) (h : ∀ i j, HasDerivAt (G i j) (G' i j) t0) :
    HasDerivAt (fun t => -∑ j, ∑ i, if R i j ≠ 0 then (if i > j then G i j t else 0) else 0)
      (-∑ j, ∑ i, if R i j ≠ 0 then (if i > j then G' i j else 0) else 0) t0 :=
  (HasDerivAt.sum fun j _ => HasDerivAt.sum fun i _ =>
    hasDerivAt_ite_zero _ (hasDerivAt_ite_zero _ (h i j))).neg

theorem hasDerivAt_full_sum (R : Matrix (Fin N) (Fin N) ℝ) (G : Fin N → Fin N → ℝ → ℝ)
    (G' : Fin N → Fin N → ℝ) (t0 : ℝ) (h : ∀ i j, HasDerivAt (G i j) (G' i j) t0) :
    HasDerivAt (fun t => -∑ j, ∑ i, if R i j ≠ 0 then G i j t else 0)
      (-∑ j, ∑ i, if R i j ≠ 0 then G' i j else 0) t0 :=
  (HasDerivAt.sum fun j _ => HasDerivAt.sum fun i _ => hasDerivAt_ite_zero _ (h i j)).neg

theorem set_entry_self (Gamma : Matrix (Fin Q) (Fin Q) ℝ) (q l : Fin Q) :
    set_entry Gamma q l (Gamma q l) = Gamma := by
  funext a b
  unfold set_entry
  split_ifs with h
  · rw [h.1, h.2]
  · rfl

theorem set_coord_self (beta : Fin K → ℝ) (k : Fin K) : set_coord beta k (beta k) = beta := by
  funext a
  unfold set_coord
  split_ifs with h
  · rw [h]
  · rfl

theorem sum_mul_indicator (F : Fin Q → Fin Q → ℝ) (q l : Fin Q) :
    ∑ a, ∑ b, F a b * (if a = q ∧ b = l then 1 else 0) = F q l := by
  have : ∀ a b, F a b * (if a = q ∧ b = l then (1 : ℝ) else 0)
      = if a = q then (if b = l then F a b else 0) else 0 := by
    intro a b
    by_cases ha : a = q <;> by_cases hb : b = l <;> simp [ha, hb]
  simp only [this]
  simp [Finset.sum_ite_eq']

theorem objective_undirected_hasDerivAt_gamma (Y R : Matrix (Fin N) (Fin N) ℝ)
    (X : Fin N → Fin N → Fin K → ℝ) (Z : Matrix (Fin N) (Fin Q) ℝ)
    (Gamma : Matrix (Fin Q) (Fin Q) ℝ) (beta : Fin K → ℝ) (grad : Buffer ℝ) (q l : Fin Q) :
    HasDerivAt (fun t => (objective_and_grad_undirected Real.exp Real.log Y R X Z
        (pack (set_entry Gamma q l t) beta) grad).1)
      (map_GAMMA (objective_and_grad_undirected Real.exp Real.log Y R X Z
        (pack Gamma beta) grad).2 q l) (Gamma q l) := by
  simp only [objective_undirected_value, objective_undirected_gr_gamma, pack,
    map_GAMMA_assign, map_BETA_assign]
  have h := hasDerivAt_lower_sum R
    (fun i j t => ∑ a, ∑ b, Z i a * Z j b
      * (Y i j * (set_entry Gamma q l t a b + linear_predictor beta X i j)
        - Real.log (1 + Real.exp (set_entry Gamma q l t a b + linear_predictor beta X i j))))
    _ (Gamma q l)
    (fun i j => hasDerivAt_dyad (fun a b => Z i a * Z j b) (Y i j)
      (fun a b t => set_entry Gamma q l t a b + linear_predictor beta X i j)
      (fun a b => if a = q ∧ b = l then 1 else 0) (Gamma q l)
      (fun a b => hasDerivAt_set_entry Gamma q l a b _ _))
  convert h using 1
  congr 1
  refine Finset.sum_congr rfl fun j _ => Finset.sum_congr rfl fun i _ => ?_
  simp only [set_entry_self]
  rw [sum_mul_indicator (fun a b => Z i a * Z j b
    * (Y i j - 1 / (1 + Real.exp (-(Gamma a b + linear_predictor beta X i j))))) q l]

theorem objective_undirected_hasDerivAt_beta (Y R : Matrix (Fin N) (Fin N) ℝ)
    (X : Fin N → Fin N → Fin K → ℝ) (Z : Matrix (Fin N) (Fin Q) ℝ)
    (Gamma : Matrix (Fin Q) (Fin Q) ℝ) (beta : Fin K → ℝ) (grad : Buffer ℝ) (k : Fin K) :
    HasDerivAt (fun t => (objective_and_grad_undirected Real.exp Real.log Y R X Z
        (pack Gamma (set_coord beta k t)) grad).1)
      (map_BETA (Q := Q) (objective_and_grad_undirected Real.exp Real.log Y R X Z
        (pack Gamma beta) grad).2 k) (beta k) := by
  simp only [objective_undirected_value, objective_undirected_gr_beta, pack,
    map_GAMMA_assign, map_BETA_assign]
  have h := hasDerivAt_lower_sum R
    (fun i j t => ∑ a, ∑ b, Z i a * Z j b
      * (Y i j * (Gamma a b + linear_predictor (set_coord beta k t) X i j)
        - Real.log (1 + Real.exp (Gamma a b + linear_predictor (set_coord beta k t) X i j))))
    _ (beta k)
    (fun i j => hasDerivAt_dyad (fun a b => Z i a * Z j b) (Y i j)
      (fun a b t => Gamma a b + linear_predictor (set_coord beta k t) X i j)
      (fun _ _ => X i j k) (beta k)
      (fun a b => hasDerivAt_linear_predictor beta X k i j _ _))
  convert h using 1
  congr 1
  refine Finset.sum_congr rfl fun j _ => Finset.sum_congr rfl fun i _ => ?_
  simp only [set_coord_self, Finset.sum_mul]

theorem objective_directed_hasDerivAt_gamma (Y R : Matrix (Fin N) (Fin N) ℝ)
    (X : Fin N → Fin N → Fin K → ℝ) (Z : Matrix (Fin N) (Fin Q) ℝ)
    (Gamma : Matrix (Fin Q) (Fin Q) ℝ) (beta : Fin K → ℝ) (grad : Buffer ℝ) (q l : Fin Q) :
    HasDerivAt (fun t => (objective_and_grad_directed Real.exp Real.log Y R X Z
        (pack (set_entry Gamma q l t) beta) grad).1)
      (map_GAMMA (objective_and_grad_directed Real.exp Real.log Y R X Z
        (pack Gamma beta) grad).2 q l) (Gamma q l) := by
  simp only [objective_directed_value, objective_directed_gr_gamma, pack,
    map_GAMMA_assign, map_BETA_assign]
  have h := hasDerivAt_full_sum R
    (fun i j t => ∑ a, ∑ b, Z i a * Z j b
      * (Y i j * (set_entry Gamma q l t a b + linear_predictor beta X i j)
        - Real.log (1 + Real.exp (set_entry Gamma q l t a b + linear_predictor beta X i j))))
    _ (Gamma q l)
    (fun i j => hasDerivAt_dyad (fun a b => Z i a * Z j b) (Y i j)
      (fun a b t => set_entry Gamma q l t a b + linear_predictor beta X i j)
      (fun a b => if a = q ∧ b = l then 1 else 0) (Gamma q l)
      (fun a b => hasDerivAt_set_entry Gamma q l a b _ _))
  convert h using 1
  congr 1
  refine Finset.sum_congr rfl fun j _ => Finset.sum_congr rfl fun i _ => ?_
  simp only [set_entry_self]
  rw [sum_mul_indicator (fun a b => Z i a * Z j b
    * (Y i j - 1 / (1 + Real.exp (-(Gamma a b + linear_predictor beta X i j))))) q l]

theorem objective_directed_hasDerivAt_beta (Y R : Matrix (Fin N) (Fin N) ℝ)
    (X : Fin N → Fin N → Fin K → ℝ) (Z : Matrix (Fin N) (Fin Q) ℝ)
    (Gamma : Matrix (Fin Q) (Fin Q) ℝ) (beta : Fin K → ℝ) (grad : Buffer ℝ) (k : Fin K) :
    HasDerivAt (fun t => (objective_and_grad_directed Real.exp Real.log Y R X Z
        (pack Gamma (set_coord beta k t)) grad).1)
      (map_BETA (Q := Q) (objective_and_grad_directed Real.exp Real.log Y R X Z
        (pack Gamma beta) grad).2 k) (beta k) := by
  simp only [objective_directed_value, objective_directed_gr_beta, pack,
    map_GAMMA_assign, map_BETA_assign]
  have h := hasDerivAt_full_sum R
    (fun i j t => ∑ a, ∑ b, Z i a * Z j b
      * (Y i j * (Gamma a b + linear_predictor (set_coord beta k t) X i j)
        - Real.log (1 + Real.exp (Gamma a b + linear_predictor (set_coord beta k t) X i j))))
    _ (beta k)
    (fun i j => hasDerivAt_dyad (fun a b => Z i a * Z j b) (Y i j)
      (fun a b t => Gamma a b + linear_predictor (set_coord beta k t) X i j)
      (fun _ _ => X i j k) (beta k)
      (fun a b => hasDerivAt_linear_predictor beta X k i j _ _))
  convert h using 1
  congr 1
  refine Finset.sum_congr rfl fun j _ => Finset.sum_congr rfl fun i _ => ?_
  simp only [set_coord_self, Finset.sum_mul]

/-- C7: for both covariate M-steps and every `Y`, `R`, `X`, `Z`, `(Gamma, beta)`,
with `f(Gamma, beta)` the value `objective_and_grad` returns at the packed
parameters (`exp`, `log` the real functions), the Gamma block of the gradient
buffer it writes holds at `(q,l)` the derivative of `f` in `Gamma(q,l)`, and the
beta block holds at `k` the derivative of `f` in `beta(k)`. -/
theorem objective_and_grad_writes_gradient (Y R : Matrix (Fin N) (Fin N) ℝ)
    (X : Fin N → Fin N → Fin K → ℝ) (Z : Matrix (Fin N) (Fin Q) ℝ)
    (Gamma : Matrix (Fin Q) (Fin Q) ℝ) (beta : Fin K → ℝ) (grad : Buffer ℝ) :
    (∀ q l, HasDerivAt (fun t => (objective_and_grad_undirected Real.exp Real.log Y R X Z
          (pack (set_entry Gamma q l t) beta) grad).1)
        (map_GAMMA (objective_and_grad_undirected Real.exp Real.log Y R X Z
          (pack Gamma beta) grad).2 q l) (Gamma q l))
      ∧ (∀ k, HasDerivAt (fun t => (objective_and_grad_undirected Real.exp Real.log Y R X Z
          (pack Gamma (set_coord beta k t)) grad).1)
        (map_BETA (Q := Q) (objective_and_grad_undirected Real.exp Real.log Y R X Z
          (pack Gamma beta) grad).2 k) (beta k))
      ∧ (∀ q l, HasDerivAt (fun t => (objective_and_grad_directed Real.exp Real.log Y R X Z
          (pack (set_entry Gamma q l t) beta) grad).1)
        (map_GAMMA (objective_and_grad_directed Real.exp Real.log Y R X Z
          (pack Gamma beta) grad).2 q l) (Gamma q l))
      ∧ (∀ k, HasDerivAt (fun t => (objective_and_grad_directed Real.exp Real.log Y R X Z
          (pack Gamma (set_coord beta k t)) grad).1)
        (map_BETA (Q := Q) (objective_and_grad_directed Real.exp Real.log Y R X Z
          (pack Gamma beta) grad).2 k) (beta k)) :=
  ⟨objective_undirected_hasDerivAt_gamma Y R X Z Gamma beta grad,
    objective_undirected_hasDerivAt_beta Y R X Z Gamma beta grad,
    objective_directed_hasDerivAt_gamma Y R X Z Gamma beta grad,
    objective_directed_hasDerivAt_beta Y R X Z Gamma beta grad⟩

end GradientTheorems

/-! ## Covariate M-step: what a returned result holds -/

section CovResultTheorems

variable {α : Type} [LinearOrderedField α] {N Q K : ℕ}

theorem M_step_undirected_covariates_ok {Opt : Type} (exp log : α → α)
    (api : NloptApi Opt α) (minimize_objective_on_parameters : Minimizer Opt α)
    (init_Gamma : Matrix (Fin Q) (Fin Q) α) (init_beta : Fin K → α)
    (Y R : Matrix (Fin N) (Fin N) α) (X : Fin N → Fin N → Fin K → α)
    (Z : Matrix (Fin N) (Fin Q) α) (configuration : Configuration α)
    (r : MStepCovResult Q K α)
    (h : M_step_sparse_bernoulli_undirected_covariates exp log api
      minimize_objective_on_parameters init_Gamma init_beta Y R X Z configuration
        = Except.ok r) :
    ∃ optimizer result parameters,
      new_nlopt_optimizer api configuration (packed_size Q K) = Except.ok optimizer
        ∧ minimize_objective_on_parameters optimizer
            (objective_and_grad_undirected (Q := Q) (K := K) exp log Y R X Z)
            (pack init_Gamma init_beta) = Except.ok (result, parameters)
        ∧ r = cov_result exp Z result parameters := by
  unfold M_step_sparse_bernoulli_undirected_covariates at h
  simp only [bind, Except.bind, pure, Except.pure] at h
  split at h
  · cases h
  · next optimizer hopt =>
    split at h
    · cases h
    · next res hres =>
      injection h with h
      exact ⟨optimizer, res.1, res.2, hopt, hres, h.symm⟩

theorem M_step_directed_covariates_ok {Opt : Type} (exp log : α → α)
    (api : NloptApi Opt α) (minimize_objective_on_parameters : Minimizer Opt α)
    (init_Gamma : Matrix (Fin Q) (Fin Q) α) (init_beta : Fin K → α)
    (Y R : Matrix (Fin N) (Fin N) α) (X : Fin N → Fin N → Fin K → α)
    (Z : Matrix (Fin N) (Fin Q) α) (configuration : Configuration α)
    (r : MStepCovResult Q K α)
    (h : M_step_sparse_bernoulli_directed_covariates exp log api
      minimize_objective_on_parameters init_Gamma init_beta Y R X Z configuration
        = Except.ok r) :
    ∃ optimizer result parameters,
      new_nlopt_optimizer api configuration (packed_size Q K) = Except.ok optimizer
        ∧ minimize_objective_on_parameters optimizer
            (objective_and_grad_directed (Q := Q) (K := K) exp log Y R X Z)
            (pack init_Gamma init_beta) = Except.ok (result, parameters)
        ∧ r = cov_result exp Z result parameters := by
  unfold M_step_sparse_bernoulli_directed_covariates at h
  simp only [bind, Except.bind, pure, Except.pure] at h
  split at h
  · cases h
  · next optimizer hopt =>
    split at h
    · cases h
    · next res hres =>
      injection h with h
      exact ⟨optimizer, res.1, res.2, hopt, hres, h.symm⟩

theorem arma_mean_cols_probability (hN : 0 < N) (Z : Matrix (Fin N) (Fin Q) α)
    (hZ : RowStochastic Z) : IsProbabilityVector (arma_mean_cols Z) := by
  have hNpos : (0 : α) < (N : α) := Nat.cast_pos.mpr hN
  refine ⟨fun q => ?_, ?_⟩
  · exact div_nonneg (Finset.sum_nonneg fun i _ => hZ.1 i q) (le_of_lt hNpos)
  · unfold arma_mean_cols
    rw [← Finset.sum_div, Finset.sum_comm]
    simp only [hZ.2, Finset.sum_const, Finset.card_univ, Fintype.card_fin, nsmul_eq_mul,
      mul_one]
    exact div_self (ne_of_gt hNpos)

/-- C11: for `N ≥ 1` and row-stochastic `Z`, the `pi` returned by each of the
four M-step variants is a probability vector (entries `≥ 0`, sum exactly 1): the
two closed-form M-steps always, the two covariate M-steps whenever they return a
result, whatever the optimizer did. -/
theorem M_step_pi_is_probability_vector {Opt : Type} (hN : 0 < N)
    (Z : Matrix (Fin N) (Fin Q) α) (hZ : RowStochastic Z)
    (Y R : Matrix (Fin N) (Fin N) α) (exp log : α → α) (api : NloptApi Opt α)
    (minimize_objective_on_parameters : Minimizer Opt α)
    (init_Gamma : Matrix (Fin Q) (Fin Q) α) (init_beta : Fin K → α)
    (X : Fin N → Fin N → Fin K → α) (configuration : Configuration α) :
    IsProbabilityVector (M_step_sparse_bernoulli_undirected_nocovariate Y R Z).pi
      ∧ IsProbabilityVector (M_step_sparse_bernoulli_directed_nocovariate Y R Z).pi
      ∧ (∀ r, M_step_sparse_bernoulli_undirected_covariates exp log api
            minimize_objective_on_parameters init_Gamma init_beta Y R X Z configuration
              = Except.ok r → IsProbabilityVector r.pi)
      ∧ (∀ r, M_step_sparse_bernoulli_directed_covariates exp log api
            minimize_objective_on_parameters init_Gamma init_beta Y R X Z configuration
              = Except.ok r → IsProbabilityVector r.pi) := by
  have hp := arma_mean_cols_probability hN Z hZ
  refine ⟨hp, hp, ?_, ?_⟩
  · intro r h
    obtain ⟨_, _, _, _, _, hr⟩ := M_step_undirected_covariates_ok exp log api _ _ _ Y R X Z _ r h
    rw [hr]
    exact hp
  · intro r h
    obtain ⟨_, _, _, _, _, hr⟩ := M_step_directed_covariates_ok exp log api _ _ _ Y R X Z _ r h
    rw [hr]
    exact hp

theorem M_step_covariates_run_lbfgs :
    M_step_sparse_bernoulli_undirected_covariates Real.exp Real.log (unit_api ℝ)
        (one_eval_minimizer ℝ) (mat_one ℝ 0) (fun _ : Fin 1 => 0) (mat_two ℝ 0 1 0 0)
        (mat_two ℝ 0 1 1 0) (fun _ _ _ => 0) (col_ones ℝ) (lbfgs_config ℝ)
      = Except.ok (cov_result Real.exp (col_ones ℝ) { status := 5, nb_iterations := 1 }
          (pack (mat_one ℝ 0) (fun _ : Fin 1 => 0)))
    ∧ M_step_sparse_bernoulli_directed_covariates Real.exp Real.log (unit_api ℝ)
        (one_eval_minimizer ℝ) (mat_one ℝ 0) (fun _ : Fin 1 => 0) (mat_two ℝ 0 1 0 0)
        (mat_two ℝ 0 1 1 0) (fun _ _ _ => 0) (col_ones ℝ) (lbfgs_config ℝ)
      = Except.ok (cov_result Real.exp (col_ones ℝ) { status := 5, nb_iterations := 1 }
          (pack (mat_one ℝ 0) (fun _ : Fin 1 => 0))) :=
  ⟨rfl, rfl⟩

/-- Witness for C11: two nodes in one cluster; the covariate M-steps run with
`algorithm = "LBFGS"` and return a result. -/
theorem M_step_pi_is_probability_vector_witness :
    IsProbabilityVector (M_step_sparse_bernoulli_undirected_nocovariate
        (mat_two ℝ 0 1 0 0) (mat_two ℝ 0 1 1 0) (col_ones ℝ)).pi
      ∧ IsProbabilityVector (M_step_sparse_bernoulli_directed_nocovariate
        (mat_two ℝ 0 1 0 0) (mat_two ℝ 0 1 1 0) (col_ones ℝ)).pi
      ∧ IsProbabilityVector (cov_result (K := 1) Real.exp (col_ones ℝ)
          { status := 5, nb_iterations := 1 } (pack (mat_one ℝ 0) (fun _ : Fin 1 => 0))).pi := by
  have h := M_step_pi_is_probability_vector (K := 1) (by decide : 0 < 2) (col_ones ℝ)
    ⟨fun i q => by simp [col_ones], fun i => by simp [col_ones]⟩
    (mat_two ℝ 0 1 0 0) (mat_two ℝ 0 1 1 0) Real.exp Real.log (unit_api ℝ)
    (one_eval_minimizer ℝ) (mat_one ℝ 0) (fun _ : Fin 1 => 0) (fun _ _ _ => 0)
    (lbfgs_config ℝ)
  exact ⟨h.1, h.2.1, h.2.2.1 _ M_step_covariates_run_lbfgs.1⟩

end CovResultTheorems

/-! ## The term `log(1 + exp(z))` in double precision -/

section DoubleRangeTheorems

theorem exp_709_lt : Real.exp 709 < 2 ^ 1023 := by
  have h : Real.exp 709 = Real.exp 1 ^ 709 := by
    rw [← Real.exp_nat_mul]; norm_num
  rw [h]
  have h1 : Real.exp 1 < 27182818286 / 10000000000 := by
    have := Real.exp_one_lt_d9
    norm_num at this ⊢
    linarith
  have big : ((27182818286 : ℝ) / 10000000000) ^ 709 < 2 ^ 1023 := by
    rw [div_pow, div_lt_iff₀ (by positivity)]
    norm_num
  calc Real.exp 1 ^ 709 < (27182818286 / 10000000000) ^ 709 :=
        pow_lt_pow_left₀ h1 (le_of_lt (Real.exp_pos 1)) (by norm_num)
    _ < 2 ^ 1023 := big

theorem exp_710_gt : (2 : ℝ) ^ 1024 < Real.exp 710 := by
  have h : Real.exp 710 = Real.exp 1 ^ 710 := by
    rw [← Real.exp_nat_mul]; norm_num
  rw [h]
  have h1 : (27182818283 : ℝ) / 10000000000 < Real.exp 1 := by
    have := Real.exp_one_gt_d9
    norm_num at this ⊢
    linarith
  have big : (2 : ℝ) ^ 1024 < ((27182818283 : ℝ) / 10000000000) ^ 710 := by
    rw [div_pow, lt_div_iff₀ (by positivity)]
    norm_num
  calc (2 : ℝ) ^ 1024 < (27182818283 / 10000000000) ^ 710 := big
    _ < Real.exp 1 ^ 710 := pow_lt_pow_left₀ h1 (by norm_num) (by norm_num)

theorem log_one_plus_exp_double_overflow (z : ℝ) (hz : 710 ≤ z) :
    log_one_plus_exp_double Real.exp Real.log z = Quo.posInf := by
  have h1 : (2 : ℝ) ^ 1024 < Real.exp z :=
    lt_of_lt_of_le exp_710_gt (Real.exp_le_exp.mpr hz)
  have h2 : DBL_OVERFLOW ℝ ≤ Real.exp z := by
    unfold DBL_OVERFLOW
    have : (0 : ℝ) < 2 ^ 970 := by positivity
    linarith
  simp only [log_one_plus_exp_double, dbl_exp, dbl_range, if_pos h2, dbl_add, dbl_log]

theorem log_one_plus_exp_double_finite (z : ℝ) (hz : z ≤ 709) :
    log_one_plus_exp_double Real.exp Real.log z
      = Quo.finite (Real.log (1 + Real.exp z)) := by
  have h1 : Real.exp z < 2 ^ 1023 :=
    lt_of_le_of_lt (Real.exp_le_exp.mpr hz) exp_709_lt
  have hpos := Real.exp_pos z
  have hT : (2 : ℝ) ^ 1023 + 1 < DBL_OVERFLOW ℝ := by
    unfold DBL_OVERFLOW
    norm_num
  have hTpos : (0 : ℝ) < DBL_OVERFLOW ℝ := by
    unfold DBL_OVERFLOW
    norm_num
  have a1 : ¬ DBL_OVERFLOW ℝ ≤ Real.exp z := by linarith
  have a2 : ¬ Real.exp z ≤ -DBL_OVERFLOW ℝ := by linarith
  have b1 : ¬ DBL_OVERFLOW ℝ ≤ 1 + Real.exp z := by linarith
  have b2 : ¬ 1 + Real.exp z ≤ -DBL_OVERFLOW ℝ := by linarith
  have c1 : ¬ 1 + Real.exp z < 0 := by linarith
  have c2 : ¬ 1 + Real.exp z = 0 := by linarith
  simp only [log_one_plus_exp_double, dbl_exp, dbl_range, if_neg a1, if_neg a2, dbl_add,
    if_neg b1, if_neg b2, dbl_log, if_neg c1, if_neg c2]

/-- C16 (as stated, refuted): at the finite double `z = 710`, for which `exp(z)`
overflows, the term `log(1 + exp(z))` as the code writes it evaluates to `+Inf`,
not to a finite value. -/
theorem log_one_plus_exp_double_not_finite :
    log_one_plus_exp_double Real.exp Real.log 710 = Quo.posInf
      ∧ ¬ ∃ v, log_one_plus_exp_double Real.exp Real.log 710 = Quo.finite v := by
  have h := log_one_plus_exp_double_overflow 710 (le_refl _)
  refine ⟨h, ?_⟩
  rintro ⟨v, hv⟩
  rw [h] at hv
  cases hv

/-- C16 (amended): the term is the plain composition `log(1 + exp(z))`. For
every `z ≤ 709` neither `exp(z)` nor `1 + exp(z)` leaves the finite range and the
term is the finite value `log(1 + exp(z))`; for every `z ≥ 710`, `exp(z)`
overflows and the term is `+Inf`. -/
theorem log_one_plus_exp_double_range (z : ℝ) :
    (z ≤ 709 → log_one_plus_exp_double Real.exp Real.log z
        = Quo.finite (Real.log (1 + Real.exp z)))
      ∧ (710 ≤ z → log_one_plus_exp_double Real.exp Real.log z = Quo.posInf) :=
  ⟨log_one_plus_exp_double_finite z, log_one_plus_exp_double_overflow z⟩

end DoubleRangeTheorems

/-! ## Covariate M-step: the reported `theta` -/

section SigmoidTheorems

variable {N Q K : ℕ}

theorem dbl_overflow_gt_one : (1 : ℝ) < DBL_OVERFLOW ℝ := by
  unfold DBL_OVERFLOW
  norm_num

theorem sigmoid_double_unit (g : ℝ) :
    ∃ t, dbl_div (Quo.finite 1) (dbl_add (Quo.finite 1) (dbl_exp Real.exp (Quo.finite (-g))))
        = Quo.finite t ∧ 0 ≤ t ∧ t ≤ 1 := by
  have hT := dbl_overflow_gt_one
  have hpos := Real.exp_pos (-g)
  by_cases h1 : DBL_OVERFLOW ℝ ≤ Real.exp (-g)
  · refine ⟨0, ?_, le_refl _, zero_le_one⟩
    simp only [dbl_exp, dbl_range, if_pos h1, dbl_add, dbl_div]
  · have h1' : ¬ Real.exp (-g) ≤ -DBL_OVERFLOW ℝ := by linarith
    by_cases h2 : DBL_OVERFLOW ℝ ≤ 1 + Real.exp (-g)
    · refine ⟨0, ?_, le_refl _, zero_le_one⟩
      simp only [dbl_exp, dbl_range, if_neg h1, if_neg h1', dbl_add, if_pos h2, dbl_div]
    · have h2' : ¬ 1 + Real.exp (-g) ≤ -DBL_OVERFLOW ℝ := by linarith
      have h3 : ¬ 1 + Real.exp (-g) = 0 := by linarith
      have hlt : 1 / (1 + Real.exp (-g)) < 1 := by
        rw [div_lt_one (by linarith)]
        linarith
      have hgt : 0 < 1 / (1 + Real.exp (-g)) := by positivity
      have h4 : ¬ DBL_OVERFLOW ℝ ≤ 1 / (1 + Real.exp (-g)) := by linarith
      have h4' : ¬ 1 / (1 + Real.exp (-g)) ≤ -DBL_OVERFLOW ℝ := by linarith
      refine ⟨1 / (1 + Real.exp (-g)), ?_, le_of_lt hgt, le_of_lt hlt⟩
      simp only [dbl_exp, dbl_range, if_neg h1, if_neg h1', dbl_add, if_neg h2, if_neg h2',
        dbl_div, if_neg h3, if_neg h4, if_neg h4']

theorem sigmoid_double_finite (g : ℝ) (hg : -709 ≤ g) :
    dbl_div (Quo.finite 1) (dbl_add (Quo.finite 1) (dbl_exp Real.exp (Quo.finite (-g))))
      = Quo.finite (1 / (1 + Real.exp (-g))) := by
  have hT := dbl_overflow_gt_one
  have hpos := Real.exp_pos (-g)
  have he : Real.exp (-g) < 2 ^ 1023 :=
    lt_of_le_of_lt (Real.exp_le_exp.mpr (by linarith)) exp_709_lt
  have hbig : (2 : ℝ) ^ 1023 + 1 < DBL_OVERFLOW ℝ := by
    unfold DBL_OVERFLOW
    norm_num
  have h1 : ¬ DBL_OVERFLOW ℝ ≤ Real.exp (-g) := by linarith
  have h1' : ¬ Real.exp (-g) ≤ -DBL_OVERFLOW ℝ := by linarith
  have h2 : ¬ DBL_OVERFLOW ℝ ≤ 1 + Real.exp (-g) := by linarith
  have h2' : ¬ 1 + Real.exp (-g) ≤ -DBL_OVERFLOW ℝ := by linarith
  have h3 : ¬ 1 + Real.exp (-g) = 0 := by linarith
  have hlt : 1 / (1 + Real.exp (-g)) < 1 := by
    rw [div_lt_one (by linarith)]
    linarith
  have hgt : 0 < 1 / (1 + Real.exp (-g)) := by positivity
  have h4 : ¬ DBL_OVERFLOW ℝ ≤ 1 / (1 + Real.exp (-g)) := by linarith
  have h4' : ¬ 1 / (1 + Real.exp (-g)) ≤ -DBL_OVERFLOW ℝ := by linarith
  simp only [dbl_exp, dbl_range, if_neg h1, if_neg h1', dbl_add, if_neg h2, if_neg h2',
    dbl_div, if_neg h3, if_neg h4, if_neg h4']

theorem sigmoid_double_overflow (g : ℝ) (hg : g ≤ -710) :
    dbl_div (Quo.finite 1) (dbl_add (Quo.finite 1) (dbl_exp Real.exp (Quo.finite (-g))))
      = Quo.finite 0 := by
  have h1 : (2 : ℝ) ^ 1024 < Real.exp (-g) :=
    lt_of_lt_of_le exp_710_gt (Real.exp_le_exp.mpr (by linarith))
  have h2 : DBL_OVERFLOW ℝ ≤ Real.exp (-g) := by
    unfold DBL_OVERFLOW
    have : (0 : ℝ) < 2 ^ 970 := by positivity
    linarith
  simp only [dbl_exp, dbl_range, if_pos h2, dbl_add, dbl_div]

theorem cov_result_theta (Z : Matrix (Fin N) (Fin Q) ℝ) (result : OptimizerResult)
    (parameters : Buffer ℝ) :
    (∀ q l, (∃ t, (cov_result (K := K) Real.exp Z result parameters).theta_mean q l
            = Quo.finite t ∧ 0 ≤ t ∧ t ≤ 1)
        ∧ (-709 ≤ map_GAMMA (Q := Q) parameters q l →
            (cov_result (K := K) Real.exp Z result parameters).theta_mean q l
              = Quo.finite (1 / (1 + Real.exp (-(map_GAMMA (Q := Q) parameters q l)))))
        ∧ (map_GAMMA (Q := Q) parameters q l ≤ -710 →
            (cov_result (K := K) Real.exp Z result parameters).theta_mean q l = Quo.finite 0))
    ∧ ((∀ q l, map_GAMMA (Q := Q) parameters q l = map_GAMMA (Q := Q) parameters l q) →
        ∀ q l, (cov_result (K := K) Real.exp Z result parameters).theta_mean q l
          = (cov_result (K := K) Real.exp Z result parameters).theta_mean l q) := by
  constructor
  · intro q l
    exact ⟨sigmoid_double_unit _, sigmoid_double_finite _, sigmoid_double_overflow _⟩
  · intro hsymm q l
    simp only [cov_result]
    rw [hsymm q l]

theorem M_step_covariates_run_at_minus_710 :
    M_step_sparse_bernoulli_undirected_covariates Real.exp Real.log (unit_api ℝ)
        (one_eval_minimizer ℝ) (mat_one ℝ (-710)) (fun _ : Fin 1 => 0) (mat_two ℝ 0 1 0 0)
        (mat_two ℝ 0 1 1 0) (fun _ _ _ => 0) (col_ones ℝ) (lbfgs_config ℝ)
      = Except.ok (cov_result Real.exp (col_ones ℝ) { status := 5, nb_iterations := 1 }
          (pack (mat_one ℝ (-710)) (fun _ : Fin 1 => 0)))
    ∧ M_step_sparse_bernoulli_directed_covariates Real.exp Real.log (unit_api ℝ)
        (one_eval_minimizer ℝ) (mat_one ℝ (-710)) (fun _ : Fin 1 => 0) (mat_two ℝ 0 1 0 0)
        (mat_two ℝ 0 1 1 0) (fun _ _ _ => 0) (col_ones ℝ) (lbfgs_config ℝ)
      = Except.ok (cov_result Real.exp (col_ones ℝ) { status := 5, nb_iterations := 1 }
          (pack (mat_one ℝ (-710)) (fun _ : Fin 1 => 0))) :=
  ⟨rfl, rfl⟩

theorem cov_result_theta_at_minus_710 :
    (cov_result (Q := 1) (K := 1) Real.exp (col_ones ℝ) { status := 5, nb_iterations := 1 }
      (pack (mat_one ℝ (-710)) (fun _ : Fin 1 => 0))).theta_mean 0 0 = Quo.finite 0 := by
  have hG : map_GAMMA (Q := 1) (pack (mat_one ℝ (-710)) (fun _ : Fin 1 => 0)) 0 0 = -710 := by
    unfold pack
    rw [map_GAMMA_assign]
    rfl
  exact ((cov_result_theta (K := 1) (col_ones ℝ) { status := 5, nb_iterations := 1 }
    (pack (mat_one ℝ (-710)) (fun _ : Fin 1 => 0))).1 0 0).2.2 (le_of_eq hG)

/-- C12 (as stated, refuted): two nodes in one cluster, `algorithm = "LBFGS"`, and
an optimizer run that stops at its starting point `Gamma = [[-710]]`. Both covariate
M-steps return a result whose `theta(0,0)` is the double `1/(1 + exp(710))`: `exp(710)`
overflows to `+Inf`, so the reported value is exactly 0, not strictly inside (0,1). -/
theorem M_step_covariates_theta_not_strictly_inside :
    (∃ r, M_step_sparse_bernoulli_undirected_covariates Real.exp Real.log (unit_api ℝ)
          (one_eval_minimizer ℝ) (mat_one ℝ (-710)) (fun _ : Fin 1 => 0) (mat_two ℝ 0 1 0 0)
          (mat_two ℝ 0 1 1 0) (fun _ _ _ => 0) (col_ones ℝ) (lbfgs_config ℝ) = Except.ok r
        ∧ r.theta_mean 0 0 = Quo.finite 0
        ∧ ¬ ∃ t, r.theta_mean 0 0 = Quo.finite t ∧ 0 < t ∧ t < 1)
      ∧ (∃ r, M_step_sparse_bernoulli_directed_covariates Real.exp Real.log (unit_api ℝ)
          (one_eval_minimizer ℝ) (mat_one ℝ (-710)) (fun _ : Fin 1 => 0) (mat_two ℝ 0 1 0 0)
          (mat_two ℝ 0 1 1 0) (fun _ _ _ => 0) (col_ones ℝ) (lbfgs_config ℝ) = Except.ok r
        ∧ r.theta_mean 0 0 = Quo.finite 0
        ∧ ¬ ∃ t, r.theta_mean 0 0 = Quo.finite t ∧ 0 < t ∧ t < 1) := by
  have h0 := cov_result_theta_at_minus_710
  have hno : ¬ ∃ t, (cov_result (Q := 1) (K := 1) Real.exp (col_ones ℝ)
      { status := 5, nb_iterations := 1 }
      (pack (mat_one ℝ (-710)) (fun _ : Fin 1 => 0))).theta_mean 0 0 = Quo.finite t
        ∧ 0 < t ∧ t < 1 := by
    rintro ⟨t, ht, hpos, _⟩
    rw [h0] at ht
    injection ht with ht
    rw [← ht] at hpos
    exact lt_irrefl _ hpos
  exact ⟨⟨_, M_step_covariates_run_at_minus_710.1, h0, hno⟩,
    ⟨_, M_step_covariates_run_at_minus_710.2, h0, hno⟩⟩

/-- C12 (amended): whenever a covariate M-step (undirected or directed) returns a
result, with `Gamma` the matrix read back from the parameters the optimizer run
left (whatever its status), the reported `theta(q,l)` is the double
`1/(1 + exp(-Gamma(q,l)))`: a finite number in the closed interval `[0,1]`; it is
the value `1/(1 + exp(-Gamma(q,l)))` wherever `Gamma(q,l) ≥ -709` (no overflow) and
exactly 0 wherever `Gamma(q,l) ≤ -710` (where `exp(-Gamma(q,l))` overflows); and
`theta` is symmetric when `Gamma` is. -/
theorem M_step_covariates_theta_is_sigmoid_double {Opt : Type} (api : NloptApi Opt ℝ)
    (minimize_objective_on_parameters : Minimizer Opt ℝ)
    (init_Gamma : Matrix (Fin Q) (Fin Q) ℝ) (init_beta : Fin K → ℝ)
    (Y R : Matrix (Fin N) (Fin N) ℝ) (X : Fin N → Fin N → Fin K → ℝ)
    (Z : Matrix (Fin N) (Fin Q) ℝ) (configuration : Configuration ℝ) :
    (∀ r, M_step_sparse_bernoulli_undirected_covariates Real.exp Real.log api
          minimize_objective_on_parameters init_Gamma init_beta Y R X Z configuration
            = Except.ok r →
        ∃ optimizer result parameters,
          minimize_objective_on_parameters optimizer
              (objective_and_grad_undirected (Q := Q) (K := K) Real.exp Real.log Y R X Z)
              (pack init_Gamma init_beta) = Except.ok (result, parameters)
            ∧ r.status = result.status
            ∧ (∀ q l, (∃ t, r.theta_mean q l = Quo.finite t ∧ 0 ≤ t ∧ t ≤ 1)
                ∧ (-709 ≤ map_GAMMA (Q := Q) parameters q l →
                    r.theta_mean q l
                      = Quo.finite (1 / (1 + Real.exp (-(map_GAMMA (Q := Q) parameters q l)))))
                ∧ (map_GAMMA (Q := Q) parameters q l ≤ -710 →
                    r.theta_mean q l = Quo.finite 0))
            ∧ ((∀ q l, map_GAMMA (Q := Q) parameters q l
                  = map_GAMMA (Q := Q) parameters l q) →
                ∀ q l, r.theta_mean q l = r.theta_mean l q))
      ∧ (∀ r, M_step_sparse_bernoulli_directed_covariates Real.exp Real.log api
          minimize_objective_on_parameters init_Gamma init_beta Y R X Z configuration
            = Except.ok r →
        ∃ optimizer result parameters,
          minimize_objective_on_parameters optimizer
              (objective_and_grad_directed (Q := Q) (K := K) Real.exp Real.log Y R X Z)
              (pack init_Gamma init_beta) = Except.ok (result, parameters)
            ∧ r.status = result.status
            ∧ (∀ q l, (∃ t, r.theta_mean q l = Quo.finite t ∧ 0 ≤ t ∧ t ≤ 1)
                ∧ (-709 ≤ map_GAMMA (Q := Q) parameters q l →
                    r.theta_mean q l
                      = Quo.finite (1 / (1 + Real.exp (-(map_GAMMA (Q := Q) parameters q l)))))
                ∧ (map_GAMMA (Q := Q) parameters q l ≤ -710 →
                    r.theta_mean q l = Quo.finite 0))
            ∧ ((∀ q l, map_GAMMA (Q := Q) parameters q l
                  = map_GAMMA (Q := Q) parameters l q) →
                ∀ q l, r.theta_mean q l = r.theta_mean l q)) := by
  constructor
  · intro r h
    obtain ⟨optimizer, result, parameters, _, hrun, hr⟩ :=
      M_step_undirected_covariates_ok Real.exp Real.log api _ _ _ Y R X Z _ r h
    refine ⟨optimizer, result, parameters, hrun, ?_, ?_, ?_⟩
    · rw [hr]; rfl
    · rw [hr]; exact (cov_result_theta Z result parameters).1
    · rw [hr]; exact (cov_result_theta Z result parameters).2
  · intro r h
    obtain ⟨optimizer, result, parameters, _, hrun, hr⟩ :=
      M_step_directed_covariates_ok Real.exp Real.log api _ _ _ Y R X Z _ r h
    refine ⟨optimizer, result, parameters, hrun, ?_, ?_, ?_⟩
    · rw [hr]; rfl
    · rw [hr]; exact (cov_result_theta Z result parameters).1
    · rw [hr]; exact (cov_result_theta Z result parameters).2

/-- Witness for C12 (amended): two nodes in one cluster, `algorithm = "LBFGS"`, and
an optimizer run that stops at its starting point `Gamma = [[0]]`: the M-step
returns a result and the amended statement gives `theta(0,0) = 1/(1 + exp(-0))`,
a finite number in `[0,1]`. -/
theorem M_step_covariates_theta_is_sigmoid_double_witness :
    ∃ r, M_step_sparse_bernoulli_undirected_covariates Real.exp Real.log (unit_api ℝ)
          (one_eval_minimizer ℝ) (mat_one ℝ 0) (fun _ : Fin 1 => 0) (mat_two ℝ 0 1 0 0)
          (mat_two ℝ 0 1 1 0) (fun _ _ _ => 0) (col_ones ℝ) (lbfgs_config ℝ) = Except.ok r
      ∧ r.theta_mean 0 0 = Quo.finite (1 / (1 + Real.exp (-(0 : ℝ))))
      ∧ ∃ t, r.theta_mean 0 0 = Quo.finite t ∧ 0 ≤ t ∧ t ≤ 1 := by
  obtain ⟨_, result, parameters, hrun, _, htheta, _⟩ :=
    (M_step_covariates_theta_is_sigmoid_double (unit_api ℝ) (one_eval_minimizer ℝ)
      (mat_one ℝ 0) (fun _ : Fin 1 => 0) (mat_two ℝ 0 1 0 0) (mat_two ℝ 0 1 1 0)
      (fun _ _ _ => 0) (col_ones ℝ) (lbfgs_config ℝ)).1 _ M_step_covariates_run_lbfgs.1
  simp only [one_eval_minimizer, Except.ok.injEq, Prod.mk.injEq] at hrun
  have hG : map_GAMMA (Q := 1) parameters 0 0 = 0 := by
    rw [← hrun.2]
    unfold pack
    rw [map_GAMMA_assign]
    rfl
  refine ⟨_, M_step_covariates_run_lbfgs.1, ?_, (htheta 0 0).1⟩
  have h := (htheta 0 0).2.1 (by rw [hG]; norm_num)
  rw [hG] at h
  exact h

end SigmoidTheorems

section PackingRoundTrip

variable {α : Type} {Q K : ℕ}

theorem assign_BETA_outside (buf : Buffer α) (b : Fin K → α) (p : ℕ)
    (hp : p < offset_BETA Q ∨ offset_BETA Q + K ≤ p) :
    assign_BETA (Q := Q) buf b p = buf p := by
  unfold assign_BETA
  rw [dif_neg]
  omega

theorem assign_GAMMA_outside (buf : Buffer α) (G : Matrix (Fin Q) (Fin Q) α) (p : ℕ)
    (hp : offset_GAMMA + Q * Q ≤ p) : assign_GAMMA buf G p = buf p := by
  unfold assign_GAMMA
  rw [dif_neg]
  omega

/-- C13: for every `Q x Q` matrix `init_Gamma` and length-`K` vector `init_beta`,
in a buffer of `packed_size = Q*Q + K` scalars written through the `GAMMA_ID`
view and then through the `BETA_ID` view, the `GAMMA_ID` copy equals `init_Gamma`
and the `BETA_ID` copy equals `init_beta`; the two blocks are contiguous
(`Gamma` at offsets `0 .. Q*Q-1`, `beta` at `Q*Q .. Q*Q+K-1`) and disjoint: the
second write changes no scalar below `Q*Q`, and neither write changes a scalar
at or beyond `packed_size`. -/
theorem packing_round_trip [LinearOrderedField α] (buf : Buffer α)
    (init_Gamma : Matrix (Fin Q) (Fin Q) α)
    (init_beta : Fin K → α) :
    packed_size Q K = Q * Q + K
      ∧ offset_BETA Q = offset_GAMMA + Q * Q
      ∧ packed_size Q K = offset_BETA Q + K
      ∧ map_GAMMA (assign_BETA (Q := Q) (assign_GAMMA buf init_Gamma) init_beta) = init_Gamma
      ∧ map_BETA (Q := Q) (assign_BETA (Q := Q) (assign_GAMMA buf init_Gamma) init_beta)
          = init_beta
      ∧ map_GAMMA (pack init_Gamma init_beta) = init_Gamma
      ∧ map_BETA (Q := Q) (pack init_Gamma init_beta) = init_beta
      ∧ (∀ p, p < Q * Q →
          assign_BETA (Q := Q) (assign_GAMMA buf init_Gamma) init_beta p
            = assign_GAMMA buf init_Gamma p)
      ∧ (∀ p, packed_size Q K ≤ p →
          assign_BETA (Q := Q) (assign_GAMMA buf init_Gamma) init_beta p = buf p) := by
  refine ⟨rfl, ?_, rfl, map_GAMMA_assign buf init_Gamma init_beta,
    map_BETA_assign _ init_beta, map_GAMMA_assign _ init_Gamma init_beta,
    map_BETA_assign _ init_beta, ?_, ?_⟩
  · simp [offset_BETA, offset_GAMMA]
  · intro p hp
    exact assign_BETA_outside _ _ p (Or.inl hp)
  · intro p hp
    have hp' : Q * Q + K ≤ p := hp
    rw [assign_BETA_outside _ _ p (Or.inr (by simpa [offset_BETA] using hp')),
      assign_GAMMA_outside _ _ p (by simp only [offset_GAMMA]; omega)]

end PackingRoundTrip

section XtolAbsTheorems

/-- C14: `set_per_value_xtol_abs` raises the "parameter size mismatch" exception
exactly when the length of `xtol_abs` differs from the optimizer's dimension; in
that case the outcome is the same whatever `nlopt_set_xtol_abs` would do (the
library setter is not reached, so it cannot have changed the optimizer); when
the lengths are equal the outcome is decided by `nlopt_set_xtol_abs` alone. -/
theorem set_per_value_xtol_abs_size_check {Opt α : Type} (api : NloptApi Opt α) (opt : Opt)
    (xtol_abs : List α) :
    (set_per_value_xtol_abs api opt xtol_abs
          = Except.error "set_per_value_xtol_abs: parameter size mismatch"
        ↔ xtol_abs.length ≠ api.nlopt_get_dimension opt)
      ∧ (∀ setter : Opt → List α → Int × Opt,
          xtol_abs.length ≠ api.nlopt_get_dimension opt →
          set_per_value_xtol_abs { api with nlopt_set_xtol_abs := setter } opt xtol_abs
            = Except.error "set_per_value_xtol_abs: parameter size mismatch")
      ∧ (xtol_abs.length = api.nlopt_get_dimension opt →
          set_per_value_xtol_abs api opt xtol_abs
            = if (api.nlopt_set_xtol_abs opt xtol_abs).1 ≠ NLOPT_SUCCESS then
                Except.error "nlopt_set_xtol_abs"
              else Except.ok (api.nlopt_set_xtol_abs opt xtol_abs).2) := by
  refine ⟨⟨?_, ?_⟩, ?_, ?_⟩
  · intro h hlen
    unfold set_per_value_xtol_abs at h
    rw [if_neg (not_not.mpr hlen)] at h
    split_ifs at h
    have hne : "nlopt_set_xtol_abs" ≠ "set_per_value_xtol_abs: parameter size mismatch" := by
      decide
    injection h with h
    exact hne h
  · intro hlen
    unfold set_per_value_xtol_abs
    rw [if_pos hlen]
  · intro setter hlen
    unfold set_per_value_xtol_abs
    rw [if_pos hlen]
  · intro hlen
    unfold set_per_value_xtol_abs
    rw [if_neg (not_not.mpr hlen)]

end XtolAbsTheorems

/-! ## NLopt wrapper: applying the configuration -/

section ConfigurationTheorems

theorem except_bind_ok_iff {ε β γ : Type} (x : Except ε β) (f : β → Except ε γ) (c : γ) :
    (x >>= f) = Except.ok c ↔ ∃ a, x = Except.ok a ∧ f a = Except.ok c := by
  cases x with
  | error e =>
    constructor
    · intro h; cases h
    · rintro ⟨a, h, _⟩; cases h
  | ok a =>
    constructor
    · intro h; exact ⟨a, rfl, h⟩
    · rintro ⟨a', h, h'⟩
      injection h with h
      subst h
      exact h'

theorem apply_option_ok_iff {Opt β : Type} (entry : Option β) (setter : Opt → β → Int × Opt)
    (context : String) (opt opt' : Opt) :
    apply_option entry setter context opt = Except.ok opt'
      ↔ option_applied entry setter opt opt' := by
  unfold apply_option option_applied
  cases entry with
  | none =>
    constructor
    · intro h; injection h with h; exact h.symm
    · intro h; rw [h]
  | some v =>
    by_cases hs : (setter opt v).1 = NLOPT_SUCCESS
    · simp only [hs, ne_eq, not_true_eq_false, if_false, true_and]
      constructor
      · intro h; injection h with h; exact h.symm
      · intro h; rw [h]
    · simp only [hs, ne_eq, not_false_eq_true, if_true, false_and, iff_false]
      intro h; cases h

theorem new_nlopt_optimizer_ok_iff {Opt α : Type} (api : NloptApi Opt α)
    (config : Configuration α) (size : ℕ) (name : String) (alg : nlopt_algorithm)
    (hname : config.algorithm = some name) (halg : algorithm_from_name name = Except.ok alg)
    (opt : Opt) :
    new_nlopt_optimizer api config size = Except.ok opt
      ↔ ∃ o0 o1 o2 o3 o4 o5, api.nlopt_create alg size = some o0
          ∧ option_applied config.xtol_rel api.nlopt_set_xtol_rel o0 o1
          ∧ option_applied config.xtol_abs api.nlopt_set_xtol_abs1 o1 o2
          ∧ option_applied config.ftol_abs api.nlopt_set_ftol_abs o2 o3
          ∧ option_applied config.ftol_rel api.nlopt_set_ftol_rel o3 o4
          ∧ option_applied config.maxeval api.nlopt_set_maxeval o4 o5
          ∧ option_applied config.maxtime api.nlopt_set_maxtime o5 opt := by
  have hshape : new_nlopt_optimizer api config size
      = ((match api.nlopt_create alg size with
          | some o => Except.ok o
          | none => Except.error "nlopt_create") >>= fun o0 =>
        apply_option config.xtol_rel api.nlopt_set_xtol_rel "nlopt_set_xtol_rel" o0
          >>= fun o1 =>
        apply_option config.xtol_abs api.nlopt_set_xtol_abs1 "nlopt_set_xtol_abs" o1
          >>= fun o2 =>
        apply_option config.ftol_abs api.nlopt_set_ftol_abs "nlopt_set_ftol_abs" o2
          >>= fun o3 =>
        apply_option config.ftol_rel api.nlopt_set_ftol_rel "nlopt_set_ftol_rel" o3
          >>= fun o4 =>
        apply_option config.maxeval api.nlopt_set_maxeval "nlopt_set_maxeval" o4
          >>= fun o5 =>
        apply_option config.maxtime api.nlopt_set_maxtime "nlopt_set_maxtime" o5) := by
    unfold new_nlopt_optimizer
    simp only [hname, halg, bind, Except.bind, pure, Except.pure]
    cases api.nlopt_create alg size with
    | none => rfl
    | some o =>
      simp only []
      cases apply_option config.xtol_rel api.nlopt_set_xtol_rel "nlopt_set_xtol_rel" o with
      | error e => rfl
      | ok o1 =>
      simp only []
      cases apply_option config.xtol_abs api.nlopt_set_xtol_abs1 "nlopt_set_xtol_abs" o1 with
      | error e => rfl
      | ok o2 =>
      simp only []
      cases apply_option config.ftol_abs api.nlopt_set_ftol_abs "nlopt_set_ftol_abs" o2 with
      | error e => rfl
      | ok o3 =>
      simp only []
      cases apply_option config.ftol_rel api.nlopt_set_ftol_rel "nlopt_set_ftol_rel" o3 with
      | error e => rfl
      | ok o4 =>
      simp only []
      cases apply_option config.maxeval api.nlopt_set_maxeval "nlopt_set_maxeval" o4 with
      | error e => rfl
      | ok o5 =>
      simp only []
      cases apply_option config.maxtime api.nlopt_set_maxtime "nlopt_set_maxtime" o5 with
      | error e => rfl
      | ok o6 => rfl
  rw [hshape]
  simp only [except_bind_ok_iff, apply_option_ok_iff]
  constructor
  · rintro ⟨o0, hcr, o1, h1, o2, h2, o3, h3, o4, h4, o5, h5, h6⟩
    refine ⟨o0, o1, o2, o3, o4, o5, ?_, h1, h2, h3, h4, h5, h6⟩
    cases hc : api.nlopt_create alg size with
    | none => rw [hc] at hcr; cases hcr
    | some o => rw [hc] at hcr; injection hcr with hcr; rw [hcr]
  · rintro ⟨o0, o1, o2, o3, o4, o5, hcr, h1, h2, h3, h4, h5, h6⟩
    exact ⟨o0, by rw [hcr], o1, h1, o2, h2, o3, h3, o4, h4, o5, h5, h6⟩

theorem option_applied_total {Opt β : Type} (entry : Option β) (setter : Opt → β → Int × Opt)
    (opt : Opt) (h : ∀ v, entry = some v → (setter opt v).1 = NLOPT_SUCCESS) :
    ∃ opt', option_applied entry setter opt opt' := by
  cases entry with
  | none => exact ⟨opt, rfl⟩
  | some v => exact ⟨(setter opt v).2, h v rfl, rfl⟩

theorem option_applied_fails {Opt β : Type} {entry : Option β} {setter : Opt → β → Int × Opt}
    {opt opt' : Opt} (h : option_applied entry setter opt opt') (v : β) (hv : entry = some v)
    (hfail : ∀ o, (setter o v).1 ≠ NLOPT_SUCCESS) : False := by
  subst hv
  exact hfail opt h.1

/-- C15: let the NLopt library behave as documented (`NloptContract`) and let the
configuration name a supported algorithm. Then (1) an optimizer returned by
`new_nlopt_optimizer` has the named algorithm, the requested dimension, each of
`xtol_rel`, `xtol_abs` (uniform), `ftol_abs`, `ftol_rel`, `maxeval`, `maxtime`
that is present set to exactly the configured value, and each absent option at
the library default; (2) when creation and the setters of the present options
succeed, an optimizer is returned; (3) when the setter of a present option
reports failure, construction ends in an exception. -/
theorem new_nlopt_optimizer_applies_configuration {Opt α : Type} (api : NloptApi Opt α)
    (view : Opt → NloptView α) (defaults : nlopt_algorithm → ℕ → NloptView α)
    (hlib : NloptContract api view defaults) (config : Configuration α) (size : ℕ)
    (name : String) (alg : nlopt_algorithm) (hname : config.algorithm = some name)
    (halg : algorithm_from_name name = Except.ok alg) :
    (∀ opt, new_nlopt_optimizer api config size = Except.ok opt →
        view opt = configured_view config (defaults alg size)
          ∧ (view opt).algorithm = alg ∧ (view opt).dimension = size)
      ∧ ((∃ o0, api.nlopt_create alg size = some o0) →
          (∀ v, config.xtol_rel = some v → ∀ o, (api.nlopt_set_xtol_rel o v).1 = NLOPT_SUCCESS) →
          (∀ v, config.xtol_abs = some v → ∀ o, (api.nlopt_set_xtol_abs1 o v).1 = NLOPT_SUCCESS) →
          (∀ v, config.ftol_abs = some v → ∀ o, (api.nlopt_set_ftol_abs o v).1 = NLOPT_SUCCESS) →
          (∀ v, config.ftol_rel = some v → ∀ o, (api.nlopt_set_ftol_rel o v).1 = NLOPT_SUCCESS) →
          (∀ v, config.maxeval = some v → ∀ o, (api.nlopt_set_maxeval o v).1 = NLOPT_SUCCESS) →
          (∀ v, config.maxtime = some v → ∀ o, (api.nlopt_set_maxtime o v).1 = NLOPT_SUCCESS) →
          ∃ opt, new_nlopt_optimizer api config size = Except.ok opt)
      ∧ (((∃ v, config.xtol_rel = some v
              ∧ ∀ o, (api.nlopt_set_xtol_rel o v).1 ≠ NLOPT_SUCCESS)
            ∨ (∃ v, config.xtol_abs = some v
              ∧ ∀ o, (api.nlopt_set_xtol_abs1 o v).1 ≠ NLOPT_SUCCESS)
            ∨ (∃ v, config.ftol_abs = some v
              ∧ ∀ o, (api.nlopt_set_ftol_abs o v).1 ≠ NLOPT_SUCCESS)
            ∨ (∃ v, config.ftol_rel = some v
              ∧ ∀ o, (api.nlopt_set_ftol_rel o v).1 ≠ NLOPT_SUCCESS)
            ∨ (∃ v, config.maxeval = some v
              ∧ ∀ o, (api.nlopt_set_maxeval o v).1 ≠ NLOPT_SUCCESS)
            ∨ (∃ v, config.maxtime = some v
              ∧ ∀ o, (api.nlopt_set_maxtime o v).1 ≠ NLOPT_SUCCESS)) →
          ∃ msg, new_nlopt_optimizer api config size = Except.error msg) := by
  refine ⟨?_, ?_, ?_⟩
  · intro opt hopt
    obtain ⟨o0, o1, o2, o3, o4, o5, hcr, h1, h2, h3, h4, h5, h6⟩ :=
      (new_nlopt_optimizer_ok_iff api config size name alg hname halg opt).mp hopt
    have e0 := hlib.create alg size o0 hcr
    have v1 : view o1 = { view o0 with
        xtol_rel := config.xtol_rel.getD (view o0).xtol_rel } := by
      cases hx : config.xtol_rel with
      | none => rw [hx] at h1; rw [show o1 = o0 from h1]; rfl
      | some v => rw [hx] at h1; rw [h1.2, hlib.set_xtol_rel o0 v h1.1]; rfl
    have v2 : view o2 = { view o1 with
        xtol_abs := match config.xtol_abs with
          | some v => fun _ => v
          | none => (view o1).xtol_abs } := by
      cases hx : config.xtol_abs with
      | none => rw [hx] at h2; rw [show o2 = o1 from h2]
      | some v => rw [hx] at h2; rw [h2.2, hlib.set_xtol_abs1 o1 v h2.1]
    have v3 : view o3 = { view o2 with
        ftol_abs := config.ftol_abs.getD (view o2).ftol_abs } := by
      cases hx : config.ftol_abs with
      | none => rw [hx] at h3; rw [show o3 = o2 from h3]; rfl
      | some v => rw [hx] at h3; rw [h3.2, hlib.set_ftol_abs o2 v h3.1]; rfl
    have v4 : view o4 = { view o3 with
        ftol_rel := config.ftol_rel.getD (view o3).ftol_rel } := by
      cases hx : config.ftol_rel with
      | none => rw [hx] at h4; rw [show o4 = o3 from h4]; rfl
      | some v => rw [hx] at h4; rw [h4.2, hlib.set_ftol_rel o3 v h4.1]; rfl
    have v5 : view o5 = { view o4 with
        maxeval := config.maxeval.getD (view o4).maxeval } := by
      cases hx : config.maxeval with
      | none => rw [hx] at h5; rw [show o5 = o4 from h5]; rfl
      | some v => rw [hx] at h5; rw [h5.2, hlib.set_maxeval o4 v h5.1]; rfl
    have v6 : view opt = { view o5 with
        maxtime := config.maxtime.getD (view o5).maxtime } := by
      cases hx : config.maxtime with
      | none => rw [hx] at h6; rw [show opt = o5 from h6]; rfl
      | some v => rw [hx] at h6; rw [h6.2, hlib.set_maxtime o5 v h6.1]; rfl
    have key : view opt = configured_view config (defaults alg size) := by
      rw [v6, v5, v4, v3, v2, v1, e0]
      rfl
    refine ⟨key, ?_, ?_⟩
    · rw [key]; exact hlib.defaults_algorithm alg size
    · rw [key]; exact hlib.defaults_dimension alg size
  · rintro ⟨o0, hcr⟩ s1 s2 s3 s4 s5 s6
    obtain ⟨o1, h1⟩ := option_applied_total config.xtol_rel api.nlopt_set_xtol_rel o0
      (fun v hv => s1 v hv o0)
    obtain ⟨o2, h2⟩ := option_applied_total config.xtol_abs api.nlopt_set_xtol_abs1 o1
      (fun v hv => s2 v hv o1)
    obtain ⟨o3, h3⟩ := option_applied_total config.ftol_abs api.nlopt_set_ftol_abs o2
      (fun v hv => s3 v hv o2)
    obtain ⟨o4, h4⟩ := option_applied_total config.ftol_rel api.nlopt_set_ftol_rel o3
      (fun v hv => s4 v hv o3)
    obtain ⟨o5, h5⟩ := option_applied_total config.maxeval api.nlopt_set_maxeval o4
      (fun v hv => s5 v hv o4)
    obtain ⟨o6, h6⟩ := option_applied_total config.maxtime api.nlopt_set_maxtime o5
      (fun v hv => s6 v hv o5)
    exact ⟨o6, (new_nlopt_optimizer_ok_iff api config size name alg hname halg o6).mpr
      ⟨o0, o1, o2, o3, o4, o5, hcr, h1, h2, h3, h4, h5, h6⟩⟩
  · intro hfail
    cases hres : new_nlopt_optimizer api config size with
    | error msg => exact ⟨msg, rfl⟩
    | ok opt =>
      exfalso
      obtain ⟨o0, o1, o2, o3, o4, o5, _, h1, h2, h3, h4, h5, h6⟩ :=
        (new_nlopt_optimizer_ok_iff api config size name alg hname halg opt).mp hres
      rcases hfail with ⟨v, hv, hf⟩ | ⟨v, hv, hf⟩ | ⟨v, hv, hf⟩ | ⟨v, hv, hf⟩ | ⟨v, hv, hf⟩
        | ⟨v, hv, hf⟩
      · exact option_applied_fails h1 v hv hf
      · exact option_applied_fails h2 v hv hf
      · exact option_applied_fails h3 v hv hf
      · exact option_applied_fails h4 v hv hf
      · exact option_applied_fails h5 v hv hf
      · exact option_applied_fails h6 v hv hf

theorem record_api_contract (α : Type) [Zero α] :
    NloptContract (record_api α) id (record_defaults α) where
  defaults_algorithm := fun _ _ => rfl
  defaults_dimension := fun _ _ => rfl
  create := fun alg n opt h => by
    simp only [record_api, Option.some.injEq] at h
    rw [← h]; rfl
  set_xtol_rel := fun _ _ _ => rfl
  set_xtol_abs1 := fun _ _ _ => rfl
  set_ftol_abs := fun _ _ _ => rfl
  set_ftol_rel := fun _ _ _ => rfl
  set_maxeval := fun _ _ _ => rfl
  set_maxtime := fun _ _ _ => rfl

/-- Witness for C15: the configuration of `cpp_test_nlopt` on the reference
library, dimension 1. -/
theorem new_nlopt_optimizer_applies_configuration_witness :
    new_nlopt_optimizer (record_api ℚ) test_config 1
        = Except.ok (configured_view test_config
            (record_defaults ℚ nlopt_algorithm.NLOPT_LD_LBFGS 1))
      ∧ (configured_view test_config
            (record_defaults ℚ nlopt_algorithm.NLOPT_LD_LBFGS 1)).xtol_rel = 1 / 1000000
      ∧ (configured_view test_config
            (record_defaults ℚ nlopt_algorithm.NLOPT_LD_LBFGS 1)).xtol_abs 0 = 0
      ∧ (configured_view test_config
            (record_defaults ℚ nlopt_algorithm.NLOPT_LD_LBFGS 1)).maxeval = 100
      ∧ ∀ opt, new_nlopt_optimizer (record_api ℚ) test_config 1 = Except.ok opt →
          id opt = configured_view test_config
              (record_defaults ℚ nlopt_algorithm.NLOPT_LD_LBFGS 1)
            ∧ (id opt).algorithm = nlopt_algorithm.NLOPT_LD_LBFGS
            ∧ (id opt).dimension = 1 :=
  ⟨rfl, rfl, rfl, rfl,
    (new_nlopt_optimizer_applies_configuration (record_api ℚ) id (record_defaults ℚ)
      (record_api_contract ℚ) test_config 1 "LBFGS" nlopt_algorithm.NLOPT_LD_LBFGS rfl
      rfl).1⟩

end ConfigurationTheorems

/-! ## E-step: the row normalisation and the scores it is applied to -/

section LogTauTheorems

variable {α : Type} [LinearOrderedField α] {N Q : ℕ}

theorem E_step_undirected_nocovariate_eq (exp log : α → α)
    (Y R : Matrix (Fin N) (Fin N) α) (Z : Matrix (Fin N) (Fin Q) α)
    (theta : Matrix (Fin Q) (Fin Q) α) (pi : Fin Q → α) (log_lambda : α) :
    E_step_sparse_bernoulli_undirected_nocovariate exp log Y R Z theta pi log_lambda
      = fun i => softmax_row exp
          (log_tau_undirected_nocovariate log Y R Z theta pi log_lambda i) := rfl

theorem E_step_directed_nocovariate_eq (exp log : α → α)
    (Y R : Matrix (Fin N) (Fin N) α) (Z : Matrix (Fin N) (Fin Q) α)
    (theta : Matrix (Fin Q) (Fin Q) α) (pi : Fin Q → α) (log_lambda : α) :
    E_step_sparse_bernoulli_directed_nocovariate exp log Y R Z theta pi log_lambda
      = fun i => softmax_row exp
          (log_tau_directed_nocovariate log Y R Z theta pi log_lambda i) := rfl

theorem E_step_undirected_covariates_eq (exp log : α → α)
    (Y R M : Matrix (Fin N) (Fin N) α) (Z : Matrix (Fin N) (Fin Q) α)
    (Gamma : Matrix (Fin Q) (Fin Q) α) (pi : Fin Q → α) (log_lambda : α) :
    E_step_sparse_bernoulli_undirected_covariates exp log Y R M Z Gamma pi log_lambda
      = fun i => softmax_row exp
          (log_tau_undirected_covariates exp log Y R M Z Gamma pi log_lambda i) := rfl

theorem E_step_directed_covariates_eq (exp log : α → α)
    (Y R M : Matrix (Fin N) (Fin N) α) (Z : Matrix (Fin N) (Fin Q) α)
    (Gamma : Matrix (Fin Q) (Fin Q) α) (pi : Fin Q → α) (log_lambda : α) :
    E_step_sparse_bernoulli_directed_covariates exp log Y R M Z Gamma pi log_lambda
      = fun i => softmax_row exp
          (log_tau_directed_covariates exp log Y R M Z Gamma pi log_lambda i) := rfl

theorem mul3_apply (A : Matrix (Fin N) (Fin N) α) (Z : Matrix (Fin N) (Fin Q) α)
    (L : Matrix (Fin Q) (Fin Q) α) (i : Fin N) (q : Fin Q) :
    (A * Z * L) i q = ∑ j, ∑ l, A i j * Z j l * L l q := by
  simp only [Matrix.mul_apply, Finset.sum_mul]
  rw [Finset.sum_comm]

theorem log_tau_undirected_nocovariate_eq_spec (log : α → α)
    (Y R : Matrix (Fin N) (Fin N) α) (Z : Matrix (Fin N) (Fin Q) α)
    (theta : Matrix (Fin Q) (Fin Q) α) (pi : Fin Q → α) (log_lambda : α)
    (i : Fin N) (q : Fin Q) :
    log_tau_undirected_nocovariate log Y R Z theta pi log_lambda i q
      = spec_s_undirected_nocovariate log Y R Z theta pi log_lambda i q := by
  unfold log_tau_undirected_nocovariate spec_s_undirected_nocovariate
    spec_t_undirected_nocovariate
  rw [mul3_apply, mul3_apply]
  rfl

end LogTauTheorems

section SoftmaxTheorems

variable {N Q : ℕ}

theorem softmax_shift (x : Fin Q → ℝ) (m : ℝ) (q : Fin Q) :
    Real.exp (x q - m) / ∑ l, Real.exp (x l - m) = Real.exp (x q) / ∑ l, Real.exp (x l) := by
  have h : ∀ l, Real.exp (x l - m) = Real.exp (x l) * Real.exp (-m) := by
    intro l
    rw [← Real.exp_add]
    rfl
  simp only [h, ← Finset.sum_mul]
  exact mul_div_mul_right _ _ (ne_of_gt (Real.exp_pos _))

theorem softmax_row_eq (hQ : 0 < Q) (x : Fin Q → ℝ) :
    softmax_row Real.exp x = some fun q => Real.exp (x q) / ∑ l, Real.exp (x l) := by
  obtain ⟨m, hm⟩ := arma_max_some hQ x
  simp only [softmax_row, hm, Option.map_some', softmax_shift]

/-- C17: for `Q ≥ 1` and `pi` with positive entries, row `i` of the matrix
returned by `E_step_sparse_bernoulli_undirected_nocovariate` (which subtracts the
row maximum before exponentiating) has, at every `q`, the entry
`exp(s(i,q)) / sum_l exp(s(i,l))` with `s` the score of the specification, which
is also `pi(q) exp(t(i,q)) / sum_l pi(l) exp(t(i,l))`. -/
theorem E_step_undirected_nocovariate_is_softmax (hQ : 0 < Q)
    (Y R : Matrix (Fin N) (Fin N) ℝ) (Z : Matrix (Fin N) (Fin Q) ℝ)
    (theta : Matrix (Fin Q) (Fin Q) ℝ) (pi : Fin Q → ℝ) (hpi : ∀ q, 0 < pi q)
    (log_lambda : ℝ) (i : Fin N) :
    ∃ r, E_step_sparse_bernoulli_undirected_nocovariate Real.exp Real.log Y R Z theta pi
          log_lambda i = some r
      ∧ (∀ q, r q
          = Real.exp (spec_s_undirected_nocovariate Real.log Y R Z theta pi log_lambda i q)
            / ∑ l, Real.exp
                (spec_s_undirected_nocovariate Real.log Y R Z theta pi log_lambda i l))
      ∧ (∀ q, r q
          = pi q * Real.exp (spec_t_undirected_nocovariate Real.log Y R Z theta i q)
            / ∑ l, pi l
                * Real.exp (spec_t_undirected_nocovariate Real.log Y R Z theta i l)) := by
  refine ⟨_, ?_, fun q => rfl, ?_⟩
  · rw [E_step_undirected_nocovariate_eq]
    simp only [softmax_row_eq hQ, log_tau_undirected_nocovariate_eq_spec]
  · intro q
    have h : ∀ l, Real.exp
        (spec_s_undirected_nocovariate Real.log Y R Z theta pi log_lambda i l)
        = pi l * Real.exp (spec_t_undirected_nocovariate Real.log Y R Z theta i l)
          * Real.exp log_lambda := by
      intro l
      unfold spec_s_undirected_nocovariate
      rw [Real.exp_add, Real.exp_add, Real.exp_log (hpi l)]
      ring
    simp only [h, ← Finset.sum_mul]
    exact mul_div_mul_right _ _ (ne_of_gt (Real.exp_pos _))

/-- Witness for C17: two nodes, two clusters, one observed edge,
`theta = 1/2` everywhere, `pi = [1/2, 1/2]`. -/
theorem E_step_undirected_nocovariate_is_softmax_witness :
    ∃ r, E_step_sparse_bernoulli_undirected_nocovariate Real.exp Real.log
          (mat_two ℝ 0 1 1 0) (mat_two ℝ 0 1 1 0) (mat_two ℝ 1 0 0 1)
          (mat_two ℝ (1 / 2) (1 / 2) (1 / 2) (1 / 2)) (fun _ => 1 / 2) 0 0 = some r
      ∧ (∀ q, r q
          = Real.exp (spec_s_undirected_nocovariate Real.log (mat_two ℝ 0 1 1 0)
                (mat_two ℝ 0 1 1 0) (mat_two ℝ 1 0 0 1)
                (mat_two ℝ (1 / 2) (1 / 2) (1 / 2) (1 / 2)) (fun _ => 1 / 2) 0 0 q)
            / ∑ l, Real.exp (spec_s_undirected_nocovariate Real.log (mat_two ℝ 0 1 1 0)
                (mat_two ℝ 0 1 1 0) (mat_two ℝ 1 0 0 1)
                (mat_two ℝ (1 / 2) (1 / 2) (1 / 2) (1 / 2)) (fun _ => 1 / 2) 0 0 l))
      ∧ (∀ q, r q
          = (1 / 2) * Real.exp (spec_t_undirected_nocovariate Real.log (mat_two ℝ 0 1 1 0)
                (mat_two ℝ 0 1 1 0) (mat_two ℝ 1 0 0 1)
                (mat_two ℝ (1 / 2) (1 / 2) (1 / 2) (1 / 2)) 0 q)
            / ∑ l, (1 / 2) * Real.exp (spec_t_undirected_nocovariate Real.log
                (mat_two ℝ 0 1 1 0) (mat_two ℝ 0 1 1 0) (mat_two ℝ 1 0 0 1)
                (mat_two ℝ (1 / 2) (1 / 2) (1 / 2) (1 / 2)) 0 l)) :=
  E_step_undirected_nocovariate_is_softmax (by decide) (mat_two ℝ 0 1 1 0)
    (mat_two ℝ 0 1 1 0) (mat_two ℝ 1 0 0 1) (mat_two ℝ (1 / 2) (1 / 2) (1 / 2) (1 / 2))
    (fun _ => 1 / 2) (fun _ => by norm_num) 0 0

end SoftmaxTheorems

/-! ## Directed no-covariate E-step as a coordinate update of the ELBO -/

section CoordinateUpdate

variable {α : Type} [LinearOrderedField α] {N Q : ℕ}

theorem sum4_reorder (f : Fin Q → Fin Q → Fin N → Fin N → α) :
    ∑ q, ∑ l, ∑ i, ∑ j, f q l i j = ∑ i, ∑ j, ∑ q, ∑ l, f q l i j := by
  calc ∑ q, ∑ l, ∑ i, ∑ j, f q l i j
      = ∑ q, ∑ i, ∑ l, ∑ j, f q l i j :=
        Finset.sum_congr rfl fun q _ => Finset.sum_comm
    _ = ∑ i, ∑ q, ∑ l, ∑ j, f q l i j := Finset.sum_comm
    _ = ∑ i, ∑ q, ∑ j, ∑ l, f q l i j :=
        Finset.sum_congr rfl fun i _ => Finset.sum_congr rfl fun q _ => Finset.sum_comm
    _ = ∑ i, ∑ j, ∑ q, ∑ l, f q l i j :=
        Finset.sum_congr rfl fun i _ => Finset.sum_comm

theorem accu_schur_quad (A : Matrix (Fin N) (Fin N) α) (W : Matrix (Fin Q) (Fin Q) α)
    (Z : Matrix (Fin N) (Fin Q) α) :
    accu (schur (Z.transpose * A * Z) W)
      = ∑ a, ∑ b, A a b * ∑ c, ∑ d, Z a c * Z b d * W c d := by
  unfold accu schur
  have hl : ∀ q l, (Z.transpose * A * Z) q l * W q l
      = ∑ a, ∑ b, A a b * (Z a q * Z b l * W q l) := by
    intro q l
    rw [quad_form_apply, Finset.sum_mul]
    refine Finset.sum_congr rfl fun a _ => ?_
    rw [Finset.sum_mul]
    refine Finset.sum_congr rfl fun b _ => ?_
    ring
  have hr : ∀ a b, A a b * ∑ c, ∑ d, Z a c * Z b d * W c d
      = ∑ c, ∑ d, A a b * (Z a c * Z b d * W c d) := by
    intro a b
    rw [Finset.mul_sum]
    refine Finset.sum_congr rfl fun c _ => ?_
    rw [Finset.mul_sum]
  calc ∑ q, ∑ l, (Z.transpose * A * Z) q l * W q l
      = ∑ q, ∑ l, ∑ a, ∑ b, A a b * (Z a q * Z b l * W q l) :=
        Finset.sum_congr rfl fun q _ => Finset.sum_congr rfl fun l _ => hl q l
    _ = ∑ a, ∑ b, ∑ q, ∑ l, A a b * (Z a q * Z b l * W q l) :=
        sum4_reorder fun q l a b => A a b * (Z a q * Z b l * W q l)
    _ = ∑ a, ∑ b, A a b * ∑ c, ∑ d, Z a c * Z b d * W c d :=
        Finset.sum_congr rfl fun a _ => Finset.sum_congr rfl fun b _ => (hr a b).symm

theorem sum_cross (F : Fin N → Fin N → α) (i : Fin N)
    (h0 : ∀ a b, a ≠ i → b ≠ i → F a b = 0) (hii : F i i = 0) :
    ∑ a, ∑ b, F a b = (∑ b, F i b) + ∑ a, F a i := by
  have h : ∀ a, ∑ b, F a b = (if a = i then ∑ b, F i b else 0) + F a i := by
    intro a
    by_cases ha : a = i
    · subst ha
      simp only [if_true, hii, add_zero]
    · simp only [ha, if_false, zero_add]
      exact Finset.sum_eq_single i (fun b _ hb => h0 a b ha hb)
        (fun hi => absurd (Finset.mem_univ i) hi)
  rw [Finset.sum_congr rfl fun a _ => h a, Finset.sum_add_distrib, Finset.sum_ite_eq']
  simp only [Finset.mem_univ, if_true]

theorem set_row_same (Z : Matrix (Fin N) (Fin Q) α) (i : Fin N) (q c : Fin Q) :
    set_row Z i q i c = if c = q then 1 else 0 := by
  simp only [set_row, if_true]

theorem set_row_other (Z : Matrix (Fin N) (Fin Q) α) (i : Fin N) (q : Fin Q) {a : Fin N}
    (ha : a ≠ i) (c : Fin Q) : set_row Z i q a c = Z a c := by
  simp only [set_row, ha, if_false]

theorem pair_weight_row (Z : Matrix (Fin N) (Fin Q) α) (W : Matrix (Fin Q) (Fin Q) α)
    (i : Fin N) (q : Fin Q) {b : Fin N} (hb : b ≠ i) :
    ∑ c, ∑ d, set_row Z i q i c * set_row Z i q b d * W c d = ∑ d, Z b d * W q d := by
  simp only [set_row_same, set_row_other Z i q hb]
  rw [Finset.sum_eq_single q]
  · simp only [if_true, one_mul]
  · intro c _ hc
    simp only [hc, if_false, zero_mul, Finset.sum_const_zero]
  · intro hq
    exact absurd (Finset.mem_univ q) hq

theorem pair_weight_col (Z : Matrix (Fin N) (Fin Q) α) (W : Matrix (Fin Q) (Fin Q) α)
    (i : Fin N) (q : Fin Q) {a : Fin N} (ha : a ≠ i) :
    ∑ c, ∑ d, set_row Z i q a c * set_row Z i q i d * W c d = ∑ c, Z a c * W c q := by
  simp only [set_row_same, set_row_other Z i q ha]
  refine Finset.sum_congr rfl fun c _ => ?_
  rw [Finset.sum_eq_single q]
  · simp only [if_true, mul_one]
  · intro d _ hd
    simp only [hd, if_false, mul_zero, zero_mul]
  · intro hq
    exact absurd (Finset.mem_univ q) hq

theorem pair_weight_rest (Z : Matrix (Fin N) (Fin Q) α) (W : Matrix (Fin Q) (Fin Q) α)
    (i : Fin N) (q : Fin Q) {a b : Fin N} (ha : a ≠ i) (hb : b ≠ i) :
    ∑ c, ∑ d, set_row Z i q a c * set_row Z i q b d * W c d
      = ∑ c, ∑ d, Z a c * Z b d * W c d := by
  simp only [set_row_other Z i q ha, set_row_other Z i q hb]

theorem quad_set_row_diff (A : Matrix (Fin N) (Fin N) α) (hA : ∀ a, A a a = 0)
    (W : Matrix (Fin Q) (Fin Q) α) (Z : Matrix (Fin N) (Fin Q) α) (i : Fin N)
    (q q' : Fin Q) :
    accu (schur ((set_row Z i q).transpose * A * set_row Z i q) W)
        - accu (schur ((set_row Z i q').transpose * A * set_row Z i q') W)
      = ((A * Z * W.transpose) i q - (A * Z * W.transpose) i q')
        + ((A.transpose * Z * W) i q - (A.transpose * Z * W) i q') := by
  rw [accu_schur_quad, accu_schur_quad]
  have hsub : (∑ a, ∑ b, A a b * ∑ c, ∑ d, set_row Z i q a c * set_row Z i q b d * W c d)
      - (∑ a, ∑ b, A a b * ∑ c, ∑ d, set_row Z i q' a c * set_row Z i q' b d * W c d)
      = ∑ a, ∑ b, A a b
          * ((∑ c, ∑ d, set_row Z i q a c * set_row Z i q b d * W c d)
            - ∑ c, ∑ d, set_row Z i q' a c * set_row Z i q' b d * W c d) := by
    rw [← Finset.sum_sub_distrib]
    refine Finset.sum_congr rfl fun a _ => ?_
    rw [← Finset.sum_sub_distrib]
    refine Finset.sum_congr rfl fun b _ => ?_
    rw [mul_sub]
  rw [hsub, sum_cross _ i]
  · have hrow : ∀ b, A i b
          * ((∑ c, ∑ d, set_row Z i q i c * set_row Z i q b d * W c d)
            - ∑ c, ∑ d, set_row Z i q' i c * set_row Z i q' b d * W c d)
        = (∑ l, A i b * Z b l * W.transpose l q) - ∑ l, A i b * Z b l * W.transpose l q' := by
      intro b
      by_cases hb : b = i
      · subst hb
        simp only [hA, zero_mul, Finset.sum_const_zero, sub_self]
      · rw [pair_weight_row Z W i q hb, pair_weight_row Z W i q' hb, mul_sub,
          Finset.mul_sum, Finset.mul_sum]
        simp only [Matrix.transpose_apply, mul_assoc]
    have hcol : ∀ a, A a i
          * ((∑ c, ∑ d, set_row Z i q a c * set_row Z i q i d * W c d)
            - ∑ c, ∑ d, set_row Z i q' a c * set_row Z i q' i d * W c d)
        = (∑ l, A.transpose i a * Z a l * W l q) - ∑ l, A.transpose i a * Z a l * W l q' := by
      intro a
      by_cases ha : a = i
      · subst ha
        simp only [Matrix.transpose_apply, hA, zero_mul, Finset.sum_const_zero, sub_self]
      · rw [pair_weight_col Z W i q ha, pair_weight_col Z W i q' ha, mul_sub,
          Finset.mul_sum, Finset.mul_sum]
        simp only [Matrix.transpose_apply, mul_assoc]
    simp only [hrow, hcol, Finset.sum_sub_distrib]
    rw [mul3_apply, mul3_apply, mul3_apply, mul3_apply]
  · intro a b ha hb
    rw [pair_weight_rest Z W i q ha hb, pair_weight_rest Z W i q' ha hb, sub_self, mul_zero]
  · rw [hA, zero_mul]

theorem accu_Z_log_pi_set_row_diff (log : α → α) (Z : Matrix (Fin N) (Fin Q) α)
    (pi : Fin Q → α) (i : Fin N) (q q' : Fin Q) :
    accu_Z_log_pi log (set_row Z i q) pi - accu_Z_log_pi log (set_row Z i q') pi
      = log (pi q) - log (pi q') := by
  unfold accu_Z_log_pi
  simp only [Matrix.mulVec, Matrix.dotProduct]
  rw [← Finset.sum_sub_distrib, Finset.sum_eq_single i]
  · simp only [set_row_same, ite_mul, one_mul, zero_mul, Finset.sum_ite_eq',
      Finset.mem_univ, if_true]
  · intro a _ ha
    simp only [set_row_other Z i _ ha, sub_self]
  · intro hi
    exact absurd (Finset.mem_univ i) hi

/-- C20: for `Y`, `R` with zero diagonal, every `theta`, `pi`, `Z`, `log_lambda`,
node `i` and clusters `q`, `q'`, the directed no-covariate ELBO at `Z[i <- e_q]`
minus its value at `Z[i <- e_q']` equals `s(i,q) - s(i,q')`, where `s` is the
matrix `log_tau` that `E_step_sparse_bernoulli_directed_nocovariate` builds
before the row normalisation. It holds for every `log`. -/
theorem E_step_directed_nocovariate_is_coordinate_update (log : α → α)
    (Y R : Matrix (Fin N) (Fin N) α) (hY : ∀ a, Y a a = 0) (hR : ∀ a, R a a = 0)
    (Z : Matrix (Fin N) (Fin Q) α) (theta : Matrix (Fin Q) (Fin Q) α) (pi : Fin Q → α)
    (log_lambda : α) (i : Fin N) (q q' : Fin Q) :
    vLL_complete_sparse_bernoulli_directed_nocovariate log Y R (set_row Z i q) theta pi
        - vLL_complete_sparse_bernoulli_directed_nocovariate log Y R (set_row Z i q') theta pi
      = log_tau_directed_nocovariate log Y R Z theta pi log_lambda i q
        - log_tau_directed_nocovariate log Y R Z theta pi log_lambda i q' := by
  have hYq := quad_set_row_diff Y hY (log_odds log theta) Z i q q'
  have hRq := quad_set_row_diff R hR (log_one_minus log theta) Z i q q'
  have hp := accu_Z_log_pi_set_row_diff log Z pi i q q'
  unfold vLL_complete_sparse_bernoulli_directed_nocovariate log_tau_directed_nocovariate
  linear_combination hYq + hRq + hp

/-- Witness for C20: two nodes, two clusters, one directed edge `0 -> 1`, both
off-diagonal dyads observed. -/
theorem E_step_directed_nocovariate_is_coordinate_update_witness :
    vLL_complete_sparse_bernoulli_directed_nocovariate Real.log (mat_two ℝ 0 1 0 0)
          (mat_two ℝ 0 1 1 0) (set_row (mat_two ℝ 1 0 0 1) 0 0)
          (mat_two ℝ (1 / 2) (1 / 3) (1 / 4) (1 / 5)) (fun _ => 1 / 2)
        - vLL_complete_sparse_bernoulli_directed_nocovariate Real.log (mat_two ℝ 0 1 0 0)
          (mat_two ℝ 0 1 1 0) (set_row (mat_two ℝ 1 0 0 1) 0 1)
          (mat_two ℝ (1 / 2) (1 / 3) (1 / 4) (1 / 5)) (fun _ => 1 / 2)
      = log_tau_directed_nocovariate Real.log (mat_two ℝ 0 1 0 0) (mat_two ℝ 0 1 1 0)
          (mat_two ℝ 1 0 0 1) (mat_two ℝ (1 / 2) (1 / 3) (1 / 4) (1 / 5)) (fun _ => 1 / 2)
          0 0 0
        - log_tau_directed_nocovariate Real.log (mat_two ℝ 0 1 0 0) (mat_two ℝ 0 1 1 0)
          (mat_two ℝ 1 0 0 1) (mat_two ℝ (1 / 2) (1 / 3) (1 / 4) (1 / 5)) (fun _ => 1 / 2)
          0 0 1 :=
  E_step_directed_nocovariate_is_coordinate_update Real.log (mat_two ℝ 0 1 0 0)
    (mat_two ℝ 0 1 1 0) (fun a => by fin_cases a <;> simp [mat_two])
    (fun a => by fin_cases a <;> simp [mat_two]) (mat_two ℝ 1 0 0 1)
    (mat_two ℝ (1 / 2) (1 / 3) (1 / 4) (1 / 5)) (fun _ => 1 / 2) 0 0 0 1

end CoordinateUpdate

/-! ## Undirected no-covariate ELBO: each unordered pair once -/

section UndirectedPairs

variable {N Q : ℕ}

theorem pair_weight_symm {α : Type} [LinearOrderedField α] (Z : Matrix (Fin N) (Fin Q) α)
    (W : Matrix (Fin Q) (Fin Q) α) (hW : ∀ q l, W q l = W l q) (i j : Fin N) :
    ∑ c, ∑ d, Z i c * Z j d * W c d = ∑ c, ∑ d, Z j c * Z i d * W c d := by
  rw [Finset.sum_comm]
  refine Finset.sum_congr rfl fun d _ => Finset.sum_congr rfl fun c _ => ?_
  rw [hW c d]
  ring

theorem accu_schur_quad_lower {α : Type} [LinearOrderedField α]
    (A : Matrix (Fin N) (Fin N) α) (hA : ∀ i j, A i j = A j i) (hAd : ∀ i, A i i = 0)
    (W : Matrix (Fin Q) (Fin Q) α) (hW : ∀ q l, W q l = W l q)
    (Z : Matrix (Fin N) (Fin Q) α) :
    accu (schur (Z.transpose * A * Z) W)
      = 2 * ∑ j, ∑ i, if i > j then A i j * ∑ c, ∑ d, Z i c * Z j d * W c d else 0 := by
  rw [accu_schur_quad, Finset.sum_comm]
  exact sum_symm_eq_two_mul_lower (fun i j => A i j * ∑ c, ∑ d, Z i c * Z j d * W c d)
    (fun i j => by simp only [hA i j, pair_weight_symm Z W hW i j])
    (fun i => by simp only [hAd i, zero_mul])

theorem vLL_undirected_nocovariate_eq_pairs {α : Type} [LinearOrderedField α] (log : α → α)
    (Y R : Matrix (Fin N) (Fin N) α) (hY : ∀ i j, Y i j = Y j i) (hR : ∀ i j, R i j = R j i)
    (hYd : ∀ i, Y i i = 0) (hRd : ∀ i, R i i = 0) (Z : Matrix (Fin N) (Fin Q) α)
    (theta : Matrix (Fin Q) (Fin Q) α) (htheta : ∀ q l, theta q l = theta l q)
    (pi : Fin Q → α) :
    vLL_complete_sparse_bernoulli_undirected_nocovariate log Y R Z theta pi
      = spec_vLL_undirected_pairs log Y R Z theta pi := by
  unfold vLL_complete_sparse_bernoulli_undirected_nocovariate spec_vLL_undirected_pairs
  rw [accu_schur_quad_lower Y hY hYd (log_odds log theta)
      (fun q l => by simp only [log_odds, htheta q l]) Z,
    accu_schur_quad_lower R hR hRd (log_one_minus log theta)
      (fun q l => by simp only [log_one_minus, htheta q l]) Z]
  have hprior : accu_Z_log_pi log Z pi = ∑ i, ∑ q, Z i q * log (pi q) := rfl
  rw [hprior]
  have hsplit : ∀ j i : Fin N,
      (if i > j then ∑ q, ∑ l, Z i q * Z j l
          * (Y i j * log (theta q l / (1 - theta q l)) + R i j * log (1 - theta q l))
        else 0)
      = (if i > j then Y i j * ∑ c, ∑ d, Z i c * Z j d * log_odds log theta c d else 0)
        + (if i > j then R i j * ∑ c, ∑ d, Z i c * Z j d * log_one_minus log theta c d
            else 0) := by
    intro j i
    by_cases h : i > j
    · simp only [h, if_true, Finset.mul_sum, ← Finset.sum_add_distrib, log_odds,
        log_one_minus]
      refine Finset.sum_congr rfl fun q _ => Finset.sum_congr rfl fun l _ => ?_
      ring
    · simp only [h, if_false, add_zero]
  simp only [hsplit, Finset.sum_add_distrib]
  ring

theorem log_one_plus_exp_log_odds {t : ℝ} (h0 : 0 < t) (h1 : t < 1) :
    Real.log (1 + Real.exp (Real.log (t / (1 - t)))) = -Real.log (1 - t) := by
  have h1' : 0 < 1 - t := by linarith
  rw [Real.exp_log (div_pos h0 h1'), ← Real.log_inv]
  congr 1
  field_simp

theorem spec_pairs_eq_vLL_undirected_covariates (Y R : Matrix (Fin N) (Fin N) ℝ)
    (hY : IsBinary Y) (hR : IsBinary R) (Z : Matrix (Fin N) (Fin Q) ℝ)
    (theta : Matrix (Fin Q) (Fin Q) ℝ) (h01 : ∀ q l, 0 < theta q l ∧ theta q l < 1)
    (pi : Fin Q → ℝ) :
    spec_vLL_undirected_pairs Real.log Y R Z theta pi
      = vLL_complete_sparse_bernoulli_undirected_covariates Real.exp Real.log Y R 0 Z
          (log_odds Real.log theta) pi := by
  rw [vLL_undirected_covariates_eq]
  unfold spec_vLL_undirected_pairs
  have hprior : accu_Z_log_pi Real.log Z pi = ∑ i, ∑ q, Z i q * Real.log (pi q) := rfl
  rw [hprior]
  have hsplit : ∀ j i : Fin N,
      (if i > j then ∑ q, ∑ l, Z i q * Z j l
          * (Y i j * Real.log (theta q l / (1 - theta q l))
            + R i j * Real.log (1 - theta q l))
        else 0)
      = (if Y i j ≠ 0 then (if i > j then
            ∑ q, ∑ l, Z i q * Z j l
              * (log_odds Real.log theta q l + (0 : Matrix (Fin N) (Fin N) ℝ) i j)
            else 0) else 0)
        + (if R i j ≠ 0 then (if i > j then
            ∑ q, ∑ l, -Z i q * Z j l
              * Real.log (1 + Real.exp (log_odds Real.log theta q l
                  + (0 : Matrix (Fin N) (Fin N) ℝ) i j))
            else 0) else 0) := by
    intro j i
    have hterm : ∀ q l,
        Real.log (1 + Real.exp (Real.log (theta q l / (1 - theta q l))))
          = -Real.log (1 - theta q l) :=
      fun q l => log_one_plus_exp_log_odds (h01 q l).1 (h01 q l).2
    simp only [Matrix.zero_apply, add_zero, log_odds, hterm]
    by_cases h : i > j
    · simp only [h, if_true]
      rcases hY i j with hy | hy <;> rcases hR i j with hr | hr <;>
        simp only [hy, hr, ne_eq, not_true_eq_false, one_ne_zero, not_false_eq_true,
          if_true, if_false, zero_mul, one_mul, zero_add, add_zero, mul_zero,
          Finset.sum_const_zero, neg_mul, mul_neg, neg_neg, ← Finset.sum_add_distrib,
          mul_add]
    · simp only [h, if_false, ite_self, add_zero]
  simp only [hsplit, Finset.sum_add_distrib]
  ring

/-- C19: for symmetric 0/1 matrices `Y`, `R` with zero diagonal, every `Z`,
symmetric `theta` with entries in (0,1) and every `pi`, the undirected
no-covariate ELBO equals the sum over pairs `i > j` written by the
specification plus the prior term, and that value is the undirected covariate
ELBO at `M = 0` and `Gamma = log(theta/(1-theta))`. -/
theorem vLL_undirected_nocovariate_counts_pairs_once (Y R : Matrix (Fin N) (Fin N) ℝ)
    (hY : IsBinary Y) (hR : IsBinary R) (hYs : ∀ i j, Y i j = Y j i)
    (hRs : ∀ i j, R i j = R j i) (hYd : ∀ i, Y i i = 0) (hRd : ∀ i, R i i = 0)
    (Z : Matrix (Fin N) (Fin Q) ℝ) (theta : Matrix (Fin Q) (Fin Q) ℝ)
    (hts : ∀ q l, theta q l = theta l q) (h01 : ∀ q l, 0 < theta q l ∧ theta q l < 1)
    (pi : Fin Q → ℝ) :
    vLL_complete_sparse_bernoulli_undirected_nocovariate Real.log Y R Z theta pi
        = spec_vLL_undirected_pairs Real.log Y R Z theta pi
      ∧ spec_vLL_undirected_pairs Real.log Y R Z theta pi
        = vLL_complete_sparse_bernoulli_undirected_covariates Real.exp Real.log Y R 0 Z
            (log_odds Real.log theta) pi :=
  ⟨vLL_undirected_nocovariate_eq_pairs Real.log Y R hYs hRs hYd hRd Z theta hts pi,
    spec_pairs_eq_vLL_undirected_covariates Y R hY hR Z theta h01 pi⟩

/-- Witness for C19: two nodes joined by one observed edge, each its own
cluster, `theta` symmetric with entries 1/2 and 1/3. -/
theorem vLL_undirected_nocovariate_counts_pairs_once_witness :
    vLL_complete_sparse_bernoulli_undirected_nocovariate Real.log (mat_two ℝ 0 1 1 0)
          (mat_two ℝ 0 1 1 0) (mat_two ℝ 1 0 0 1)
          (mat_two ℝ (1 / 2) (1 / 3) (1 / 3) (1 / 2)) (fun _ => 1 / 2)
        = spec_vLL_undirected_pairs Real.log (mat_two ℝ 0 1 1 0) (mat_two ℝ 0 1 1 0)
          (mat_two ℝ 1 0 0 1) (mat_two ℝ (1 / 2) (1 / 3) (1 / 3) (1 / 2)) (fun _ => 1 / 2)
      ∧ spec_vLL_undirected_pairs Real.log (mat_two ℝ 0 1 1 0) (mat_two ℝ 0 1 1 0)
          (mat_two ℝ 1 0 0 1) (mat_two ℝ (1 / 2) (1 / 3) (1 / 3) (1 / 2)) (fun _ => 1 / 2)
        = vLL_complete_sparse_bernoulli_undirected_covariates Real.exp Real.log
            (mat_two ℝ 0 1 1 0) (mat_two ℝ 0 1 1 0) 0 (mat_two ℝ 1 0 0 1)
            (log_odds Real.log (mat_two ℝ (1 / 2) (1 / 3) (1 / 3) (1 / 2)))
            (fun _ => 1 / 2) := by
  apply vLL_undirected_nocovariate_counts_pairs_once
  · intro i j; fin_cases i <;> fin_cases j <;> simp [mat_two]
  · intro i j; fin_cases i <;> fin_cases j <;> simp [mat_two]
  · intro i j; fin_cases i <;> fin_cases j <;> simp [mat_two]
  · intro i j; fin_cases i <;> fin_cases j <;> simp [mat_two]
  · intro i; fin_cases i <;> simp [mat_two]
  · intro i; fin_cases i <;> simp [mat_two]
  · intro q l; fin_cases q <;> fin_cases l <;> simp [mat_two]
  · intro q l; fin_cases q <;> fin_cases l <;> simp [mat_two] <;> norm_num

end UndirectedPairs

/-! ## Directed covariate E-step against the directed covariate ELBO -/

section DirectedCovariates

variable {α : Type} [LinearOrderedField α] {N Q : ℕ}

theorem sub_at_eq_add (T : Matrix (Fin N) (Fin Q) α) (i : Fin N) (q : Fin Q) (v : α) :
    sub_at T i q v
      = T + Matrix.of fun a b => if a = i ∧ b = q then -v else 0 := by
  funext a b
  unfold sub_at
  by_cases h : a = i ∧ b = q
  · simp only [h, and_self, if_true, Matrix.add_apply, Matrix.of_apply, sub_eq_add_neg]
  · simp only [h, if_false, Matrix.add_apply, Matrix.of_apply, add_zero]

theorem loop_ql_sub_eq (i : Fin N) (term : Fin Q → Fin Q → α) (T : Matrix (Fin N) (Fin Q) α) :
    loop_ql_sub i term T
      = T + Matrix.of fun a b => if a = i then -∑ l, term b l else 0 := by
  unfold loop_ql_sub
  rw [foldl_add_eq (fun q => (Matrix.of fun a b => if a = i ∧ b = q then -∑ l, term q l else 0 :
      Matrix (Fin N) (Fin Q) α))]
  · congr 1
    rw [← Fin.sum_univ_def]
    funext a b
    rw [Matrix.sum_apply]
    simp only [Matrix.of_apply]
    by_cases ha : a = i
    · simp only [ha, true_and, if_true]
      rw [Finset.sum_eq_single b]
      · simp only [if_true]
      · intro q _ hq
        simp only [Ne.symm hq, if_false]
      · intro hb
        exact absurd (Finset.mem_univ b) hb
    · simp only [ha, false_and, if_false, Finset.sum_const_zero]
  · intro T' q
    rw [foldl_add_eq (fun l => (Matrix.of fun a b => if a = i ∧ b = q then -term q l else 0 :
        Matrix (Fin N) (Fin Q) α)) _ (fun T'' l => sub_at_eq_add T'' i q (term q l))]
    congr 1
    rw [← Fin.sum_univ_def]
    funext a b
    rw [Matrix.sum_apply]
    simp only [Matrix.of_apply]
    by_cases h : a = i ∧ b = q
    · simp only [h, and_self, if_true, Finset.sum_neg_distrib]
    · simp only [h, if_false, Finset.sum_const_zero]

theorem foldl_loop_ql_sub_apply (R : Matrix (Fin N) (Fin N) α)
    (term : Fin N → Fin N → Fin Q → Fin Q → α) (T : Matrix (Fin N) (Fin Q) α)
    (i : Fin N) (q : Fin Q) :
    (nonzeros R).foldl (fun T' Rij => loop_ql_sub Rij.1 (term Rij.1 Rij.2) T') T i q
      = T i q - ∑ j, if R i j ≠ 0 then ∑ l, term i j q l else 0 := by
  rw [foldl_nonzeros_eq R (fun x => (Matrix.of fun a b => if a = x.1 then -∑ l, term x.1 x.2 b l else 0 :
      Matrix (Fin N) (Fin Q) α)) _ (fun T' x => loop_ql_sub_eq x.1 (term x.1 x.2) T')]
  rw [Matrix.add_apply, Matrix.sum_apply, sub_eq_add_neg, ← Finset.sum_neg_distrib]
  congr 1
  refine Finset.sum_congr rfl fun j _ => ?_
  rw [Matrix.sum_apply, Finset.sum_eq_single i]
  · by_cases h : R i j ≠ 0
    · rw [if_pos h, if_pos h]
      show (if i = i then _ else 0) = _
      rw [if_pos rfl]
    · rw [if_neg h, if_neg h, neg_zero]
      rfl
  · intro a _ ha
    by_cases h : R a j ≠ 0
    · rw [if_pos h]
      show (if i = a then _ else 0) = 0
      rw [if_neg (Ne.symm ha)]
    · rw [if_neg h]
      rfl
  · intro hi
    exact absurd (Finset.mem_univ i) hi

theorem log_tau_directed_covariates_apply (exp log : α → α)
    (Y R M : Matrix (Fin N) (Fin N) α) (Z : Matrix (Fin N) (Fin Q) α)
    (Gamma : Matrix (Fin Q) (Fin Q) α) (pi : Fin Q → α) (log_lambda : α)
    (i : Fin N) (q : Fin Q) :
    log_tau_directed_covariates exp log Y R M Z Gamma pi log_lambda i q
      = (Y * Z * Gamma.transpose) i q + (Y.transpose * Z * Gamma) i q + log_lambda
        - (∑ j, if R i j ≠ 0 then
            ∑ l, Z j l * (log (1 + exp (Gamma q l + M i j))
              + log (1 + exp (Gamma l q + M j i))) else 0)
        + log (pi q) := by
  have h := foldl_loop_ql_sub_apply R (fun i j q l =>
    Z j l * (log (1 + exp (Gamma q l + M i j)) + log (1 + exp (Gamma l q + M j i))))
    (fun i q => (Y * Z * Gamma.transpose) i q + (Y.transpose * Z * Gamma) i q + log_lambda)
    i q
  unfold log_tau_directed_covariates
  exact congrArg (fun x => x + log (pi q)) h

theorem log_tau_undirected_covariates_apply (exp log : α → α)
    (Y R M : Matrix (Fin N) (Fin N) α) (Z : Matrix (Fin N) (Fin Q) α)
    (Gamma : Matrix (Fin Q) (Fin Q) α) (pi : Fin Q → α) (log_lambda : α)
    (i : Fin N) (q : Fin Q) :
    log_tau_undirected_covariates exp log Y R M Z Gamma pi log_lambda i q
      = (Y * Z * Gamma) i q + log_lambda
        - (∑ j, if R i j ≠ 0 then
            ∑ l, Z j l * log (1 + exp (Gamma q l + M i j)) else 0)
        + log (pi q) := by
  have h := foldl_loop_ql_sub_apply R (fun i j q l =>
    Z j l * log (1 + exp (Gamma q l + M i j)))
    (fun i q => (Y * Z * Gamma) i q + log_lambda) i q
  unfold log_tau_undirected_covariates
  exact congrArg (fun x => x + log (pi q)) h

end DirectedCovariates

section DirectedCovariatesFailure

/-- C18 (the code at a failing input): two nodes, two clusters, no edge, only the
dyad `0 -> 1` observed, `Z = [[1,0],[1,0]]`, `Gamma = [[0,1],[0,0]]`, `M = 0`,
`pi = [1/2, 1/2]`. For node `i = 1` the directed covariate ELBO changes by
`log(1 + e) - log 2` between `Z[1 <- e_0]` and `Z[1 <- e_1]` (the observed dyad
`0 -> 1` ends in node 1), while the scores built by
`E_step_sparse_bernoulli_directed_covariates` for row 1 are equal: its loop
visits only the stored entries of `R` in row `i` and finds none. -/
theorem E_step_directed_covariates_misses_incoming_dyads :
    IsBinary (mat_two ℝ 0 0 0 0) ∧ IsBinary (mat_two ℝ 0 1 0 0)
      ∧ (∀ a, mat_two ℝ 0 0 0 0 a a = 0) ∧ (∀ a, mat_two ℝ 0 1 0 0 a a = 0)
      ∧ SupportSubset (mat_two ℝ 0 0 0 0) (mat_two ℝ 0 1 0 0)
      ∧ RowStochastic (mat_two ℝ 1 0 1 0)
      ∧ log_tau_directed_covariates Real.exp Real.log (mat_two ℝ 0 0 0 0)
            (mat_two ℝ 0 1 0 0) (mat_two ℝ 0 0 0 0) (mat_two ℝ 1 0 1 0) (mat_two ℝ 0 1 0 0)
            (fun _ => 1 / 2) 0 1 0
          - log_tau_directed_covariates Real.exp Real.log (mat_two ℝ 0 0 0 0)
            (mat_two ℝ 0 1 0 0) (mat_two ℝ 0 0 0 0) (mat_two ℝ 1 0 1 0) (mat_two ℝ 0 1 0 0)
            (fun _ => 1 / 2) 0 1 1 = 0
      ∧ vLL_complete_sparse_bernoulli_directed_covariates Real.exp Real.log
            (mat_two ℝ 0 0 0 0) (mat_two ℝ 0 1 0 0) (mat_two ℝ 0 0 0 0)
            (set_row (mat_two ℝ 1 0 1 0) 1 0) (mat_two ℝ 0 1 0 0) (fun _ => 1 / 2)
          - vLL_complete_sparse_bernoulli_directed_covariates Real.exp Real.log
            (mat_two ℝ 0 0 0 0) (mat_two ℝ 0 1 0 0) (mat_two ℝ 0 0 0 0)
            (set_row (mat_two ℝ 1 0 1 0) 1 1) (mat_two ℝ 0 1 0 0) (fun _ => 1 / 2)
          = Real.log (1 + Real.exp 1) - Real.log 2
      ∧ Real.log (1 + Real.exp 1) - Real.log 2 ≠ 0 := by
  refine ⟨?_, ?_, ?_, ?_, ?_, ⟨?_, ?_⟩, ?_, ?_, ?_⟩
  · intro i j; fin_cases i <;> fin_cases j <;> simp [mat_two]
  · intro i j; fin_cases i <;> fin_cases j <;> simp [mat_two]
  · intro a; fin_cases a <;> simp [mat_two]
  · intro a; fin_cases a <;> simp [mat_two]
  · intro i j; fin_cases i <;> fin_cases j <;> simp [mat_two]
  · intro i q; fin_cases i <;> fin_cases q <;> simp [mat_two]
  · intro i; fin_cases i <;> simp [mat_two]
  · rw [log_tau_directed_covariates_apply, log_tau_directed_covariates_apply, mul3_apply,
      mul3_apply, mul3_apply, mul3_apply]
    simp [Fin.sum_univ_succ, mat_two]
  · rw [vLL_directed_covariates_eq, vLL_directed_covariates_eq]
    simp [Fin.sum_univ_succ, mat_two, set_row, accu_Z_log_pi, Matrix.mulVec,
      Matrix.dotProduct]
    ring_nf
  · have h : Real.log 2 < Real.log (1 + Real.exp 1) := by
      apply Real.log_lt_log (by norm_num)
      have := Real.add_one_le_exp (1 : ℝ)
      have h1 : (1 : ℝ) < Real.exp 1 := by
        have := Real.exp_one_gt_d9
        linarith
      linarith
    exact ne_of_gt (by linarith)

end DirectedCovariatesFailure

section DirectedCovariatesSymmetric

variable {α : Type} [LinearOrderedField α] {N Q : ℕ}

theorem dyad_sum_set_row_diff (c : Fin N → Fin N → Prop) [DecidableRel c]
    (hc : ∀ a, ¬ c a a) (W : Fin N → Fin N → Matrix (Fin Q) (Fin Q) α)
    (Z : Matrix (Fin N) (Fin Q) α) (i0 : Fin N) (q q' : Fin Q) :
    (∑ j, ∑ i, if c i j then
        ∑ x, ∑ y, set_row Z i0 q i x * set_row Z i0 q j y * W i j x y else 0)
      - (∑ j, ∑ i, if c i j then
        ∑ x, ∑ y, set_row Z i0 q' i x * set_row Z i0 q' j y * W i j x y else 0)
      = ((∑ b, if c i0 b then ∑ d, Z b d * W i0 b q d else 0)
          - ∑ b, if c i0 b then ∑ d, Z b d * W i0 b q' d else 0)
        + ((∑ a, if c a i0 then ∑ x, Z a x * W a i0 x q else 0)
          - ∑ a, if c a i0 then ∑ x, Z a x * W a i0 x q' else 0) := by
  have hsub : (∑ j, ∑ i, if c i j then
        ∑ x, ∑ y, set_row Z i0 q i x * set_row Z i0 q j y * W i j x y else 0)
      - (∑ j, ∑ i, if c i j then
        ∑ x, ∑ y, set_row Z i0 q' i x * set_row Z i0 q' j y * W i j x y else 0)
      = ∑ j, ∑ i, ((if c i j then
            ∑ x, ∑ y, set_row Z i0 q i x * set_row Z i0 q j y * W i j x y else 0)
          - if c i j then
            ∑ x, ∑ y, set_row Z i0 q' i x * set_row Z i0 q' j y * W i j x y else 0) := by
    rw [← Finset.sum_sub_distrib]
    refine Finset.sum_congr rfl fun j _ => ?_
    rw [← Finset.sum_sub_distrib]
  rw [hsub, sum_cross _ i0]
  · have hcol : ∀ a, ((if c a i0 then
            ∑ x, ∑ y, set_row Z i0 q a x * set_row Z i0 q i0 y * W a i0 x y else 0)
          - if c a i0 then
            ∑ x, ∑ y, set_row Z i0 q' a x * set_row Z i0 q' i0 y * W a i0 x y else 0)
        = (if c a i0 then ∑ x, Z a x * W a i0 x q else 0)
          - if c a i0 then ∑ x, Z a x * W a i0 x q' else 0 := by
      intro a
      by_cases ha : a = i0
      · subst ha
        simp only [hc a, if_false]
      · rw [pair_weight_col Z (W a i0) i0 q ha, pair_weight_col Z (W a i0) i0 q' ha]
    have hrow : ∀ b, ((if c i0 b then
            ∑ x, ∑ y, set_row Z i0 q i0 x * set_row Z i0 q b y * W i0 b x y else 0)
          - if c i0 b then
            ∑ x, ∑ y, set_row Z i0 q' i0 x * set_row Z i0 q' b y * W i0 b x y else 0)
        = (if c i0 b then ∑ d, Z b d * W i0 b q d else 0)
          - if c i0 b then ∑ d, Z b d * W i0 b q' d else 0 := by
      intro b
      by_cases hb : b = i0
      · subst hb
        simp only [hc b, if_false]
      · rw [pair_weight_row Z (W i0 b) i0 q hb, pair_weight_row Z (W i0 b) i0 q' hb]
    simp only [hcol, hrow, Finset.sum_sub_distrib]
    ring
  · intro j i hj hi
    rw [pair_weight_rest Z (W i j) i0 q hi hj, pair_weight_rest Z (W i j) i0 q' hi hj,
      sub_self]
  · simp only [hc i0, if_false, sub_self]

theorem E_step_directed_covariates_coordinate_update_of_symmetric_support
    (exp log : α → α) (Y R M : Matrix (Fin N) (Fin N) α) (hY : IsBinary Y)
    (hYd : ∀ a, Y a a = 0) (hRd : ∀ a, R a a = 0) (hRs : ∀ a b, R a b ≠ 0 ↔ R b a ≠ 0)
    (Z : Matrix (Fin N) (Fin Q) α) (Gamma : Matrix (Fin Q) (Fin Q) α) (pi : Fin Q → α)
    (log_lambda : α) (i : Fin N) (q q' : Fin Q) :
    vLL_complete_sparse_bernoulli_directed_covariates exp log Y R M (set_row Z i q) Gamma pi
        - vLL_complete_sparse_bernoulli_directed_covariates exp log Y R M (set_row Z i q')
            Gamma pi
      = log_tau_directed_covariates exp log Y R M Z Gamma pi log_lambda i q
        - log_tau_directed_covariates exp log Y R M Z Gamma pi log_lambda i q' := by
  rw [vLL_directed_covariates_eq, vLL_directed_covariates_eq,
    log_tau_directed_covariates_apply, log_tau_directed_covariates_apply]
  have hp := accu_Z_log_pi_set_row_diff log Z pi i q q'
  have hYpart := dyad_sum_set_row_diff (fun a b => Y a b ≠ 0)
    (fun a => by simp only [hYd a, ne_eq, not_true_eq_false, not_false_eq_true])
    (fun a b => Matrix.of fun x y => Gamma x y + M a b) Z i q q'
  have hRpart := dyad_sum_set_row_diff (fun a b => R a b ≠ 0)
    (fun a => by simp only [hRd a, ne_eq, not_true_eq_false, not_false_eq_true])
    (fun a b => Matrix.of fun x y => -log (1 + exp (Gamma x y + M a b))) Z i q q'
  simp only [Matrix.of_apply] at hYpart hRpart
  have hRform : ∀ (Z' : Matrix (Fin N) (Fin Q) α),
      (∑ j, ∑ a, if R a j ≠ 0 then
          ∑ x, ∑ y, -Z' a x * Z' j y * log (1 + exp (Gamma x y + M a j)) else 0)
        = ∑ j, ∑ a, if R a j ≠ 0 then
          ∑ x, ∑ y, Z' a x * Z' j y * -log (1 + exp (Gamma x y + M a j)) else 0 := by
    intro Z'
    refine Finset.sum_congr rfl fun j _ => Finset.sum_congr rfl fun a _ => ?_
    split_ifs
    · refine Finset.sum_congr rfl fun x _ => Finset.sum_congr rfl fun y _ => ?_
      ring
    · rfl
  rw [hRform, hRform]
  have hY1 : (∑ b, if Y i b ≠ 0 then ∑ d, Z b d * (Gamma q d + M i b) else 0)
        - (∑ b, if Y i b ≠ 0 then ∑ d, Z b d * (Gamma q' d + M i b) else 0)
      = (Y * Z * Gamma.transpose) i q - (Y * Z * Gamma.transpose) i q' := by
    rw [mul3_apply, mul3_apply, ← Finset.sum_sub_distrib, ← Finset.sum_sub_distrib]
    refine Finset.sum_congr rfl fun b _ => ?_
    rcases hY i b with h | h
    · simp only [h, ne_eq, not_true_eq_false, if_false, zero_mul, Finset.sum_const_zero,
        sub_self]
    · simp only [h, ne_eq, one_ne_zero, not_false_eq_true, if_true, one_mul,
        Matrix.transpose_apply, ← Finset.sum_sub_distrib]
      refine Finset.sum_congr rfl fun d _ => ?_
      ring
  have hY2 : (∑ a, if Y a i ≠ 0 then ∑ x, Z a x * (Gamma x q + M a i) else 0)
        - (∑ a, if Y a i ≠ 0 then ∑ x, Z a x * (Gamma x q' + M a i) else 0)
      = (Y.transpose * Z * Gamma) i q - (Y.transpose * Z * Gamma) i q' := by
    rw [mul3_apply, mul3_apply, ← Finset.sum_sub_distrib, ← Finset.sum_sub_distrib]
    refine Finset.sum_congr rfl fun a _ => ?_
    rcases hY a i with h | h
    · simp only [Matrix.transpose_apply, h, ne_eq, not_true_eq_false, if_false, zero_mul,
        Finset.sum_const_zero, sub_self]
    · simp only [Matrix.transpose_apply, h, ne_eq, one_ne_zero, not_false_eq_true, if_true,
        one_mul, ← Finset.sum_sub_distrib]
      refine Finset.sum_congr rfl fun x _ => ?_
      ring
  have hR12 : ∀ y : Fin Q,
      (∑ b, if R i b ≠ 0 then ∑ d, Z b d * -log (1 + exp (Gamma y d + M i b)) else 0)
        + (∑ a, if R a i ≠ 0 then ∑ x, Z a x * -log (1 + exp (Gamma x y + M a i)) else 0)
      = -∑ j, if R i j ≠ 0 then
          ∑ l, Z j l * (log (1 + exp (Gamma y l + M i j))
            + log (1 + exp (Gamma l y + M j i))) else 0 := by
    intro y
    rw [← Finset.sum_add_distrib, ← Finset.sum_neg_distrib]
    refine Finset.sum_congr rfl fun j _ => ?_
    by_cases h : R i j ≠ 0
    · have h' : R j i ≠ 0 := (hRs i j).mp h
      rw [if_pos h, if_pos h', if_pos h, ← Finset.sum_add_distrib, ← Finset.sum_neg_distrib]
      refine Finset.sum_congr rfl fun l _ => ?_
      ring
    · have h' : ¬ R j i ≠ 0 := fun hji => h ((hRs i j).mpr hji)
      rw [if_neg h, if_neg h', if_neg h, add_zero, neg_zero]
  have e1 := hR12 q
  have e2 := hR12 q'
  linear_combination hp + hYpart + hRpart + hY1 + hY2 + e1 - e2

end DirectedCovariatesSymmetric

/-! ## E-step: the scalar `log_lambda` -/

section LogLambdaTheorems

variable {N Q : ℕ}

theorem softmax_row_add_const (x : Fin Q → ℝ) (c : ℝ) :
    softmax_row Real.exp (fun q => x q + c) = softmax_row Real.exp x := by
  rcases Nat.eq_zero_or_pos Q with hQ | hQ
  · subst hQ
    simp [softmax_row, arma_max]
  · rw [softmax_row_eq hQ, softmax_row_eq hQ]
    congr 1
    funext q
    have h := softmax_shift (fun l => x l + c) c q
    simp only [add_sub_cancel_right] at h
    exact h.symm

theorem softmax_row_of_shift (x y : Fin Q → ℝ) (c : ℝ) (h : ∀ q, x q = y q + c) :
    softmax_row Real.exp x = softmax_row Real.exp y := by
  have hx : x = fun q => y q + c := funext h
  rw [hx]
  exact softmax_row_add_const y c

theorem log_tau_undirected_nocovariate_log_lambda (log : ℝ → ℝ)
    (Y R : Matrix (Fin N) (Fin N) ℝ) (Z : Matrix (Fin N) (Fin Q) ℝ)
    (theta : Matrix (Fin Q) (Fin Q) ℝ) (pi : Fin Q → ℝ) (a b : ℝ)
    (i : Fin N) (q : Fin Q) :
    log_tau_undirected_nocovariate log Y R Z theta pi a i q
      = log_tau_undirected_nocovariate log Y R Z theta pi b i q + (a - b) := by
  unfold log_tau_undirected_nocovariate
  ring

theorem log_tau_directed_nocovariate_log_lambda (log : ℝ → ℝ)
    (Y R : Matrix (Fin N) (Fin N) ℝ) (Z : Matrix (Fin N) (Fin Q) ℝ)
    (theta : Matrix (Fin Q) (Fin Q) ℝ) (pi : Fin Q → ℝ) (a b : ℝ)
    (i : Fin N) (q : Fin Q) :
    log_tau_directed_nocovariate log Y R Z theta pi a i q
      = log_tau_directed_nocovariate log Y R Z theta pi b i q + (a - b) := by
  unfold log_tau_directed_nocovariate
  ring

theorem log_tau_undirected_covariates_log_lambda (log : ℝ → ℝ)
    (Y R M : Matrix (Fin N) (Fin N) ℝ) (Z : Matrix (Fin N) (Fin Q) ℝ)
    (Gamma : Matrix (Fin Q) (Fin Q) ℝ) (pi : Fin Q → ℝ) (a b : ℝ)
    (i : Fin N) (q : Fin Q) :
    log_tau_undirected_covariates Real.exp log Y R M Z Gamma pi a i q
      = log_tau_undirected_covariates Real.exp log Y R M Z Gamma pi b i q + (a - b) := by
  rw [log_tau_undirected_covariates_apply, log_tau_undirected_covariates_apply]
  ring

theorem log_tau_directed_covariates_log_lambda (log : ℝ → ℝ)
    (Y R M : Matrix (Fin N) (Fin N) ℝ) (Z : Matrix (Fin N) (Fin Q) ℝ)
    (Gamma : Matrix (Fin Q) (Fin Q) ℝ) (pi : Fin Q → ℝ) (a b : ℝ)
    (i : Fin N) (q : Fin Q) :
    log_tau_directed_covariates Real.exp log Y R M Z Gamma pi a i q
      = log_tau_directed_covariates Real.exp log Y R M Z Gamma pi b i q + (a - b) := by
  rw [log_tau_directed_covariates_apply, log_tau_directed_covariates_apply]
  ring

/-- C21: over the reals, with the exponential `Real.exp` and any function in the
place of `std::log`, the scalar `log_lambda` has no effect on the E-step: for
every `Y`, `R`, `M`, `Z`, `theta`, `Gamma`, `pi` of any sizes `N`, `Q` and every two
reals `a` and `b`, each of `E_step_sparse_bernoulli_undirected_nocovariate`,
`E_step_sparse_bernoulli_directed_nocovariate`,
`E_step_sparse_bernoulli_undirected_covariates` and
`E_step_sparse_bernoulli_directed_covariates` returns the same rows with
`log_lambda = a` as with `log_lambda = b`. -/
theorem E_step_log_lambda_has_no_effect (log : ℝ → ℝ)
    (Y R M : Matrix (Fin N) (Fin N) ℝ) (Z : Matrix (Fin N) (Fin Q) ℝ)
    (theta Gamma : Matrix (Fin Q) (Fin Q) ℝ) (pi : Fin Q → ℝ) (a b : ℝ) :
    E_step_sparse_bernoulli_undirected_nocovariate Real.exp log Y R Z theta pi a
        = E_step_sparse_bernoulli_undirected_nocovariate Real.exp log Y R Z theta pi b
      ∧ E_step_sparse_bernoulli_directed_nocovariate Real.exp log Y R Z theta pi a
        = E_step_sparse_bernoulli_directed_nocovariate Real.exp log Y R Z theta pi b
      ∧ E_step_sparse_bernoulli_undirected_covariates Real.exp log Y R M Z Gamma pi a
        = E_step_sparse_bernoulli_undirected_covariates Real.exp log Y R M Z Gamma pi b
      ∧ E_step_sparse_bernoulli_directed_covariates Real.exp log Y R M Z Gamma pi a
        = E_step_sparse_bernoulli_directed_covariates Real.exp log Y R M Z Gamma pi b := by
  refine ⟨?_, ?_, ?_, ?_⟩
  · rw [E_step_undirected_nocovariate_eq, E_step_undirected_nocovariate_eq]
    funext i
    exact softmax_row_of_shift _ _ (a - b)
      (log_tau_undirected_nocovariate_log_lambda log Y R Z theta pi a b i)
  · rw [E_step_directed_nocovariate_eq, E_step_directed_nocovariate_eq]
    funext i
    exact softmax_row_of_shift _ _ (a - b)
      (log_tau_directed_nocovariate_log_lambda log Y R Z theta pi a b i)
  · rw [E_step_undirected_covariates_eq, E_step_undirected_covariates_eq]
    funext i
    exact softmax_row_of_shift _ _ (a - b)
      (log_tau_undirected_covariates_log_lambda log Y R M Z Gamma pi a b i)
  · rw [E_step_directed_covariates_eq, E_step_directed_covariates_eq]
    funext i
    exact softmax_row_of_shift _ _ (a - b)
      (log_tau_directed_covariates_log_lambda log Y R M Z Gamma pi a b i)

end LogLambdaTheorems

/-! ## E-step with special values: the scalar `log_lambda` -/

section EStepExtShift

variable {α : Type} [LinearOrderedField α] {N Q : ℕ}

theorem ext_gt_add_finite (v m : Quo α) (c : α) :
    ext_gt (ext_add v (Quo.finite c)) (ext_add m (Quo.finite c)) = ext_gt v m := by
  cases v <;> cases m <;> try rfl
  simp only [ext_add, ext_gt, add_lt_add_iff_right]

theorem ext_sub_add_finite (x m : Quo α) (c : α) :
    ext_sub (ext_add x (Quo.finite c)) (ext_add m (Quo.finite c)) = ext_sub x m := by
  cases x <;> cases m <;> try rfl
  simp only [ext_add, ext_sub, add_sub_add_right_eq_sub]

theorem ext_sub_shift (x v : Quo α) (c : α) :
    ext_sub (ext_add x (Quo.finite c)) v = ext_add (ext_sub x v) (Quo.finite c) := by
  cases x <;> cases v <;> try rfl
  simp only [ext_add, ext_sub, Quo.finite.injEq]
  ring

theorem ext_add_shift (x p : Quo α) (c : α) :
    ext_add (ext_add x (Quo.finite c)) p = ext_add (ext_add x p) (Quo.finite c) := by
  cases x <;> cases p <;> try rfl
  simp only [ext_add, Quo.finite.injEq]
  ring

theorem ext_add_finite_finite (x : Quo α) (a b : α) :
    ext_add x (Quo.finite a) = ext_add (ext_add x (Quo.finite b)) (Quo.finite (a - b)) := by
  cases x <;> try rfl
  simp only [ext_add, Quo.finite.injEq]
  ring

theorem foldl_max_ext_shift (c : α) (l : List (Quo α)) (s : Quo α) :
    (l.map fun v => ext_add v (Quo.finite c)).foldl (fun m v => if ext_gt v m then v else m)
        (ext_add s (Quo.finite c))
      = ext_add (l.foldl (fun m v => if ext_gt v m then v else m) s) (Quo.finite c) := by
  induction l generalizing s with
  | nil => rfl
  | cons x xs ih =>
    simp only [List.map_cons, List.foldl_cons, ext_gt_add_finite]
    rw [← ih]
    congr 1
    split_ifs <;> rfl

theorem arma_max_ext_shift (x : Fin Q → Quo α) (c : α) :
    arma_max_ext (fun q => ext_add (x q) (Quo.finite c))
      = (arma_max_ext x).map fun m => ext_add m (Quo.finite c) := by
  have h : List.ofFn (fun q => ext_add (x q) (Quo.finite c))
      = (List.ofFn x).map fun v => ext_add v (Quo.finite c) := by
    rw [List.map_ofFn]
    rfl
  unfold arma_max_ext
  rw [h]
  generalize List.ofFn x = l
  cases l with
  | nil => rfl
  | cons a as =>
    simp only [Option.map_some']
    exact congrArg some (foldl_max_ext_shift c (a :: as) Quo.negInf)

theorem softmax_row_ext_shift (exp : α → α) (x : Fin Q → Quo α) (c : α) :
    softmax_row_ext exp (fun q => ext_add (x q) (Quo.finite c)) = softmax_row_ext exp x := by
  unfold softmax_row_ext
  rw [arma_max_ext_shift]
  cases arma_max_ext x with
  | none => rfl
  | some m => simp only [Option.map_some', ext_sub_add_finite]

theorem softmax_row_ext_of_shift (exp : α → α) (x y : Fin Q → Quo α) (c : α)
    (h : ∀ q, x q = ext_add (y q) (Quo.finite c)) :
    softmax_row_ext exp x = softmax_row_ext exp y := by
  rw [funext h]
  exact softmax_row_ext_shift exp y c

theorem sub_at_ext_shift (T : Fin N → Fin Q → Quo α) (i : Fin N) (q : Fin Q) (v : Quo α)
    (c : α) :
    sub_at_ext (fun a b => ext_add (T a b) (Quo.finite c)) i q v
      = fun a b => ext_add (sub_at_ext T i q v a b) (Quo.finite c) := by
  funext a b
  unfold sub_at_ext
  split_ifs
  · exact ext_sub_shift _ _ _
  · rfl

theorem loop_ql_sub_ext_shift (i : Fin N) (term : Fin Q → Fin Q → Quo α)
    (T : Fin N → Fin Q → Quo α) (c : α) :
    loop_ql_sub_ext i term (fun a b => ext_add (T a b) (Quo.finite c))
      = fun a b => ext_add (loop_ql_sub_ext i term T a b) (Quo.finite c) := by
  unfold loop_ql_sub_ext
  exact foldl_lift (fun (T : Fin N → Fin Q → Quo α) => fun a b => ext_add (T a b) (Quo.finite c))
    _ _ (fun T' q => foldl_lift
      (fun (T : Fin N → Fin Q → Quo α) => fun a b => ext_add (T a b) (Quo.finite c)) _ _
      (fun T'' l => sub_at_ext_shift T'' i q (term q l) c) _ T') _ T

theorem foldl_loop_ql_sub_ext_shift (R : Matrix (Fin N) (Fin N) α)
    (term : Fin N × Fin N → Fin Q → Fin Q → Quo α) (T : Fin N → Fin Q → Quo α) (c : α) :
    (nonzeros R).foldl (fun T' Rij => loop_ql_sub_ext Rij.1 (term Rij) T')
        (fun a b => ext_add (T a b) (Quo.finite c))
      = fun a b => ext_add ((nonzeros R).foldl
          (fun T' Rij => loop_ql_sub_ext Rij.1 (term Rij) T') T a b) (Quo.finite c) :=
  foldl_lift (fun (T : Fin N → Fin Q → Quo α) => fun a b => ext_add (T a b) (Quo.finite c))
    _ _ (fun T' Rij => loop_ql_sub_ext_shift Rij.1 (term Rij) T' c) _ T

theorem log_tau_undirected_nocovariate_ext_log_lambda (log : α → α)
    (Y R : Matrix (Fin N) (Fin N) α) (Z : Matrix (Fin N) (Fin Q) α)
    (theta : Matrix (Fin Q) (Fin Q) α) (pi : Fin Q → α) (a b : α) (i : Fin N) (q : Fin Q) :
    log_tau_undirected_nocovariate_ext log Y R Z theta pi a i q
      = ext_add (log_tau_undirected_nocovariate_ext log Y R Z theta pi b i q)
          (Quo.finite (a - b)) := by
  unfold log_tau_undirected_nocovariate_ext
  rw [ext_add_finite_finite _ a b, ext_add_shift]

theorem log_tau_directed_nocovariate_ext_log_lambda (log : α → α)
    (Y R : Matrix (Fin N) (Fin N) α) (Z : Matrix (Fin N) (Fin Q) α)
    (theta : Matrix (Fin Q) (Fin Q) α) (pi : Fin Q → α) (a b : α) (i : Fin N) (q : Fin Q) :
    log_tau_directed_nocovariate_ext log Y R Z theta pi a i q
      = ext_add (log_tau_directed_nocovariate_ext log Y R Z theta pi b i q)
          (Quo.finite (a - b)) := by
  unfold log_tau_directed_nocovariate_ext
  rw [ext_add_finite_finite _ a b, ext_add_shift]

theorem log_tau_undirected_covariates_ext_log_lambda (exp log : α → α)
    (Y R M : Matrix (Fin N) (Fin N) α) (Z : Matrix (Fin N) (Fin Q) α)
    (Gamma : Matrix (Fin Q) (Fin Q) α) (pi : Fin Q → α) (a b : α) (i : Fin N) (q : Fin Q) :
    log_tau_undirected_covariates_ext exp log Y R M Z Gamma pi a i q
      = ext_add (log_tau_undirected_covariates_ext exp log Y R M Z Gamma pi b i q)
          (Quo.finite (a - b)) := by
  have h0 : (fun i q => Quo.finite ((Y * Z * Gamma) i q + a) : Fin N → Fin Q → Quo α)
      = fun i q => ext_add (Quo.finite ((Y * Z * Gamma) i q + b)) (Quo.finite (a - b)) := by
    funext i q
    simp only [ext_add, Quo.finite.injEq]
    ring
  unfold log_tau_undirected_covariates_ext
  rw [h0, foldl_loop_ql_sub_ext_shift R (fun Rij q l =>
    ext_mul (Quo.finite (Z Rij.2 l))
      (log_one_plus_exp_ext exp log (Gamma q l + M Rij.1 Rij.2))), ext_add_shift]

theorem log_tau_directed_covariates_ext_log_lambda (exp log : α → α)
    (Y R M : Matrix (Fin N) (Fin N) α) (Z : Matrix (Fin N) (Fin Q) α)
    (Gamma : Matrix (Fin Q) (Fin Q) α) (pi : Fin Q → α) (a b : α) (i : Fin N) (q : Fin Q) :
    log_tau_directed_covariates_ext exp log Y R M Z Gamma pi a i q
      = ext_add (log_tau_directed_covariates_ext exp log Y R M Z Gamma pi b i q)
          (Quo.finite (a - b)) := by
  have h0 : (fun i q => Quo.finite ((Y * Z * Gamma.transpose) i q
        + (Y.transpose * Z * Gamma) i q + a) : Fin N → Fin Q → Quo α)
      = fun i q => ext_add (Quo.finite ((Y * Z * Gamma.transpose) i q
          + (Y.transpose * Z * Gamma) i q + b)) (Quo.finite (a - b)) := by
    funext i q
    simp only [ext_add, Quo.finite.injEq]
    ring
  unfold log_tau_directed_covariates_ext
  rw [h0, foldl_loop_ql_sub_ext_shift R (fun Rij q l =>
    ext_mul (Quo.finite (Z Rij.2 l))
      (ext_add (log_one_plus_exp_ext exp log (Gamma q l + M Rij.1 Rij.2))
        (log_one_plus_exp_ext exp log (Gamma l q + M Rij.2 Rij.1)))), ext_add_shift]

/-- With the special values of `log` and of the division kept, and for every
input (also where a score is `-Inf`, `+Inf` or NaN), each of the four E-steps
returns the same rows with `log_lambda = a` as with `log_lambda = b`: a special
value is unchanged by adding a finite constant, a finite score is shifted by it,
and comparisons and differences inside a row do not see the shift. -/
theorem E_step_ext_log_lambda_invariant (exp log : α → α)
    (Y R M : Matrix (Fin N) (Fin N) α) (Z : Matrix (Fin N) (Fin Q) α)
    (theta Gamma : Matrix (Fin Q) (Fin Q) α) (pi : Fin Q → α) (a b : α) :
    E_step_sparse_bernoulli_undirected_nocovariate_ext exp log Y R Z theta pi a
        = E_step_sparse_bernoulli_undirected_nocovariate_ext exp log Y R Z theta pi b
      ∧ E_step_sparse_bernoulli_directed_nocovariate_ext exp log Y R Z theta pi a
        = E_step_sparse_bernoulli_directed_nocovariate_ext exp log Y R Z theta pi b
      ∧ E_step_sparse_bernoulli_undirected_covariates_ext exp log Y R M Z Gamma pi a
        = E_step_sparse_bernoulli_undirected_covariates_ext exp log Y R M Z Gamma pi b
      ∧ E_step_sparse_bernoulli_directed_covariates_ext exp log Y R M Z Gamma pi a
        = E_step_sparse_bernoulli_directed_covariates_ext exp log Y R M Z Gamma pi b := by
  refine ⟨?_, ?_, ?_, ?_⟩
  · funext i
    exact softmax_row_ext_of_shift exp _ _ (a - b)
      (log_tau_undirected_nocovariate_ext_log_lambda log Y R Z theta pi a b i)
  · funext i
    exact softmax_row_ext_of_shift exp _ _ (a - b)
      (log_tau_directed_nocovariate_ext_log_lambda log Y R Z theta pi a b i)
  · funext i
    exact softmax_row_ext_of_shift exp _ _ (a - b)
      (log_tau_undirected_covariates_ext_log_lambda exp log Y R M Z Gamma pi a b i)
  · funext i
    exact softmax_row_ext_of_shift exp _ _ (a - b)
      (log_tau_directed_covariates_ext_log_lambda exp log Y R M Z Gamma pi a b i)

/-- On the domain of the specification (`Q ≥ 1`, `theta` strictly inside (0,1),
`pi` strictly positive) the undirected no-covariate E-step with special values
returns the finite row `exp(s(i,q)) / sum_l exp(s(i,l))`, with `s` the score of
the specification. -/
theorem E_step_undirected_nocovariate_ext_is_softmax (hQ : 0 < Q)
    (Y R : Matrix (Fin N) (Fin N) ℝ) (Z : Matrix (Fin N) (Fin Q) ℝ)
    (theta : Matrix (Fin Q) (Fin Q) ℝ) (pi : Fin Q → ℝ) (log_lambda : ℝ)
    (htheta : ∀ q l, 0 < theta q l ∧ theta q l < 1) (hpi : ∀ q, 0 < pi q) (i : Fin N) :
    E_step_sparse_bernoulli_undirected_nocovariate_ext Real.exp Real.log Y R Z theta pi
        log_lambda i
      = some fun q => Quo.finite
          (Real.exp (spec_s_undirected_nocovariate Real.log Y R Z theta pi log_lambda i q)
            / ∑ l, Real.exp
                (spec_s_undirected_nocovariate Real.log Y R Z theta pi log_lambda i l)) := by
  have h := (E_step_ext_eq_exact Real.exp Real.log Real.exp_pos Y R Y Z theta theta pi
    log_lambda htheta hpi i).1
  rw [h, E_step_undirected_nocovariate_eq]
  simp only [softmax_row_eq hQ, Option.map_some', log_tau_undirected_nocovariate_eq_spec]

end EStepExtShift

end MissSBM
